import Mathlib

/-!
# Beacon-chain state transition: attestations, justification, rewards, committees

A shallow embedding of the attestation processing of `eth2/beacon/attestation.go`,
of the justification pass of `eth2/beacon/epoch/justification.go`, of the
justification bits of `eth2/beacon/components/finality/finality.go`, of the rewards
of `eth2/beacon/phase0/deltas.go`, of the committee count, the seed and the proposer
selection of `eth2/beacon/shuffling/shuffling.go`, of the block roots of
`eth2/beacon/components/history.go`, of the mixes of `eth2/beacon/components/randao.go`
and of the bit vector view of `experimental/views/bitfields.go`, with the properties
proved about them.

Conventions of the embedding.

* Go `uint64` values (`Slot`, `Epoch`, `ValidatorIndex`, `Gwei`, ...) are natural
  numbers; an arithmetic operation that can wrap around is written with `u64`.
* A Go function that returns `error` and mutates the state through a pointer is a
  function returning the state after the call together with the error, if any.
* Collaborators whose code is not part of the embedded sources (committee
  lookup, signature validation, epoch arithmetic, stake sums) are fields of a
  record and every theorem holds for all their implementations.
* A run-time panic of the Go code (division by zero, index out of range) is an
  outcome of its own, next to the returned errors.
-/

/-- Wrap-around of Go `uint64` arithmetic. -/
def u64 (n : Nat) : Nat := n % 2 ^ 64

/-- Go `a - b` on `uint64` operands. -/
def subU64 (a b : Nat) : Nat := (a + 2 ^ 64 - b) % 2 ^ 64

namespace Beacon

abbrev Slot := Nat
abbrev Epoch := Nat
abbrev ValidatorIndex := Nat
abbrev CommitteeIndex := Nat
abbrev Root := Nat
abbrev BLSSignature := Nat

/-- The `error` values of `attestation.go`. -/
inductive Error where
  /-- Go `errors.New(reason)`. -/
  | new (reason : String)
  /-- Go `fmt.Errorf("committee size does not match bits size: %d <> %d", committeeLen, bitLen)`. -/
  | committeeSizeMismatch (committeeLen bitLen : Nat)
  /-- Go `fmt.Errorf(context + ": %v", cause)`. -/
  | wrapped (context : String) (cause : Error)
  /-- The value `TransitionCancelErr`. -/
  | TransitionCancelErr
  /-- An error value produced by a collaborator. -/
  | collaborator (code : Nat)
deriving DecidableEq, Repr

structure Checkpoint where
  Epoch : Epoch
  Root : Root
deriving DecidableEq, Repr

structure AttestationData where
  Slot : Slot
  Index : CommitteeIndex
  BeaconBlockRoot : Root
  Source : Checkpoint
  Target : Checkpoint
deriving DecidableEq, Repr

/-- Modelled from the spec: the bitfield type behind `AggregationBits.Bits` is not among the
sources; it is "a bit-per-committee-member sequence" in which a true bit means that the
committee member participated. -/
structure BitList where
  bits : List Bool
deriving DecidableEq, Repr

/-- The method `Bits.BitLen()`: the number of bits of the sequence. -/
def BitList.BitLen (b : BitList) : Nat := b.bits.length

/-- The method `Bits.GetBit(i)`: the bit at position `i`. -/
def BitList.GetBit (b : BitList) (i : Nat) : Bool := b.bits.getD i false

structure CommitteeBitList where
  Bits : BitList
  BitLimit : Nat
deriving DecidableEq, Repr

structure Attestation where
  AggregationBits : CommitteeBitList
  Data : AttestationData
  Signature : BLSSignature
deriving DecidableEq, Repr

structure CommitteeIndicesList where
  Indices : List ValidatorIndex
  Limit : Nat
deriving DecidableEq, Repr

structure IndexedAttestation where
  AttestingIndices : CommitteeIndicesList
  Data : AttestationData
  Signature : BLSSignature
deriving DecidableEq, Repr

/-- The call `sort.Slice(participants, less)` with `less(i, j) = participants[i] < participants[j]`.
The Go library promises a permutation of the slice that is ordered by the comparison; on
integers that list is unique, and it is computed here by insertion. -/
def sortSlice (participants : List ValidatorIndex) : List ValidatorIndex :=
  participants.insertionSort (fun a b => a ≤ b)

/-- The loop of `ConvertToIndexed`: `for i := 0; i < bitLen; i++`, appending `committee[i]`
for every set bit. -/
def collectParticipants (bits : BitList) (committee : List ValidatorIndex) (bitLen : Nat) :
    List ValidatorIndex :=
  (List.range bitLen).foldl
    (fun participants i =>
      if bits.GetBit i then participants ++ [committee.getD i 0] else participants)
    []

/-- The method `Attestation.ConvertToIndexed` (attestation.go, 172-197). `uint64(len(committee))`
is `len(committee)`, a slice length being below `2^63`. -/
def ConvertToIndexed (attestation : Attestation) (committee : List ValidatorIndex) :
    Except Error IndexedAttestation :=
  let bitLen := attestation.AggregationBits.Bits.BitLen
  if committee.length ≠ bitLen then
    .error (.committeeSizeMismatch committee.length bitLen)
  else
    let participants := sortSlice (collectParticipants attestation.AggregationBits.Bits committee bitLen)
    .ok {
      AttestingIndices := {
        Indices := participants
        Limit := attestation.AggregationBits.BitLimit }
      Data := attestation.Data
      Signature := attestation.Signature }

/-- The bitfield re-derived from a list of attesting indices: bit `i` is set when
`committee[i]` is among the indices. -/
def bitfieldOfIndices (committee : List ValidatorIndex) (indices : List ValidatorIndex) :
    BitList :=
  { bits := committee.map (fun v => decide (v ∈ indices)) }

structure PendingAttestation where
  Data : AttestationData
  AggregationBits : CommitteeBitList
  InclusionDelay : Slot
  ProposerIndex : ValidatorIndex
deriving DecidableEq, Repr

/-- Modelled from the spec: the list view behind `CurrentEpochAttestations()` and
`PreviousEpochAttestations()` is part of the storage layer and not among the sources; it is
an ordered sequence with a fixed maximum length, the list-size bound of the protocol. -/
structure PendingAttestations where
  Items : List PendingAttestation
  Limit : Nat
deriving DecidableEq, Repr

/-- The method `atts.Append(v)` of the list view: the element is put at the end, and the call
fails, changing nothing, on a list that is at its limit. -/
def PendingAttestations.Append (atts : PendingAttestations) (v : PendingAttestation) :
    Except Error PendingAttestations :=
  if atts.Items.length ≥ atts.Limit then
    .error (.collaborator 0)
  else
    .ok { atts with Items := atts.Items ++ [v] }

/-- The fields of `BeaconStateView` that the embedded code reads or writes, with the state
view taken to have a well-formed backing, so that reading a field does not fail. -/
structure BeaconStateView where
  Slot : Slot
  Balances : List Nat
  JustificationBits : Nat
  PreviousJustifiedCheckpoint : Checkpoint
  CurrentJustifiedCheckpoint : Checkpoint
  FinalizedCheckpoint : Checkpoint
  PreviousEpochAttestations : PendingAttestations
  CurrentEpochAttestations : PendingAttestations
deriving DecidableEq, Repr

/-- The methods of `EpochsContext` called by `ProcessAttestation`; their code is not among the
sources, so they are arbitrary functions. -/
structure EpochsContext where
  GetCommitteeCountAtSlot : Slot → Except Error Nat
  GetBeaconCommittee : Slot → CommitteeIndex → Except Error (List ValidatorIndex)
  GetBeaconProposer : Slot → Except Error ValidatorIndex

/-- The configuration `Spec`: the two constants read by `ProcessAttestation` and the methods
it calls, whose code is not among the sources (`Previous` is `Epoch.Previous()`).
`ValidateIndexedAttestation` returns `none` for Go `nil`; it reads the state and does not
change it. -/
structure Spec where
  SLOTS_PER_EPOCH : Nat
  MIN_ATTESTATION_INCLUSION_DELAY : Nat
  SlotToEpoch : Slot → Epoch
  Previous : Epoch → Epoch
  ValidateIndexedAttestation : EpochsContext → BeaconStateView → IndexedAttestation → Option Error

/-- The method `Spec.ProcessAttestation` (attestation.go, 64-170). The result is the state
after the call and the returned error (`none` for `nil`). The two branches of the source
check are written as two guarded tests, one per branch. -/
def ProcessAttestation (spec : Spec) (state : BeaconStateView) (epc : EpochsContext)
    (attestation : Attestation) : BeaconStateView × Option Error :=
  let data := attestation.Data
  -- Check slot
  let currentSlot := state.Slot
  if ¬ (currentSlot ≤ u64 (data.Slot + spec.SLOTS_PER_EPOCH)) then
    (state, some (.new "attestation slot is too old"))
  else if ¬ (u64 (data.Slot + spec.MIN_ATTESTATION_INCLUSION_DELAY) ≤ currentSlot) then
    (state, some (.new "attestation is too new"))
  else
    let currentEpoch := spec.SlotToEpoch currentSlot
    let previousEpoch := spec.Previous currentEpoch
    -- Check target
    if data.Target.Epoch < previousEpoch then
      (state, some (.new "attestation data is invalid, target is too far in past"))
    else if data.Target.Epoch > currentEpoch then
      (state, some (.new "attestation data is invalid, target is in future"))
    -- And if it matches the slot
    else if data.Target.Epoch ≠ spec.SlotToEpoch data.Slot then
      (state, some (.new "attestation data is invalid, slot epoch does not match target epoch"))
    else
      -- Check committee index
      match epc.GetCommitteeCountAtSlot data.Slot with
      | .error err => (state, some err)
      | .ok commCount =>
        if data.Index ≥ commCount then
          (state, some (.new "attestation data is invalid, committee index out of range"))
        -- Check source
        else if data.Target.Epoch = currentEpoch ∧ data.Source ≠ state.CurrentJustifiedCheckpoint then
          (state, some (.new "attestation source does not match current justified checkpoint"))
        else if data.Target.Epoch ≠ currentEpoch ∧ data.Source ≠ state.PreviousJustifiedCheckpoint then
          (state, some (.new "attestation source does not match previous justified checkpoint"))
        else
          -- Check signature and bitfields
          match epc.GetBeaconCommittee data.Slot data.Index with
          | .error err => (state, some err)
          | .ok committee =>
            match ConvertToIndexed attestation committee with
            | .error err =>
              (state, some (.wrapped "attestation could not be converted to an indexed attestation" err))
            | .ok indexedAtt =>
              match spec.ValidateIndexedAttestation epc state indexedAtt with
              | some err =>
                (state, some (.wrapped "attestation could not be verified in its indexed form" err))
              | none =>
                match epc.GetBeaconProposer currentSlot with
                | .error err => (state, some err)
                | .ok proposerIndex =>
                  -- Cache pending attestation
                  let pendingAttestation : PendingAttestation := {
                    Data := data
                    AggregationBits := attestation.AggregationBits
                    InclusionDelay := subU64 currentSlot data.Slot
                    ProposerIndex := proposerIndex }
                  if data.Target.Epoch = currentEpoch then
                    match state.CurrentEpochAttestations.Append pendingAttestation with
                    | .error err => (state, some err)
                    | .ok atts => ({ state with CurrentEpochAttestations := atts }, none)
                  else
                    match state.PreviousEpochAttestations.Append pendingAttestation with
                    | .error err => (state, some err)
                    | .ok atts => ({ state with PreviousEpochAttestations := atts }, none)

/-- The loop of `ProcessAttestations` from index `i` on: `ctxDone i` tells whether the
non-blocking receive on `ctx.Done()` of iteration `i` finds the context cancelled. -/
def ProcessAttestationsFrom (ctxDone : Nat → Bool) (spec : Spec) (epc : EpochsContext) :
    Nat → BeaconStateView → List Attestation → BeaconStateView × Option Error
  | _, state, [] => (state, none)
  | i, state, op :: ops =>
    if ctxDone i then
      (state, some .TransitionCancelErr)
    else
      match ProcessAttestation spec state epc op with
      | (state1, some err) => (state1, some err)
      | (state1, none) => ProcessAttestationsFrom ctxDone spec epc (i + 1) state1 ops

/-- The method `Spec.ProcessAttestations` (attestation.go, 49-62). -/
def ProcessAttestations (ctxDone : Nat → Bool) (spec : Spec) (epc : EpochsContext)
    (state : BeaconStateView) (ops : List Attestation) : BeaconStateView × Option Error :=
  ProcessAttestationsFrom ctxDone spec epc 0 state ops

/-- The state after applying `ProcessAttestation` to each attestation of a list in order,
when every one of them is accepted; `none` when one of them is rejected. -/
def applyInOrder (spec : Spec) (epc : EpochsContext) :
    BeaconStateView → List Attestation → Option BeaconStateView
  | state, [] => some state
  | state, op :: ops =>
    match ProcessAttestation spec state epc op with
    | (state1, none) => applyInOrder spec epc state1 ops
    | (_, some _) => none

/-- A configuration with eight slots per epoch, for the worked examples. -/
def sampleSpec : Spec where
  SLOTS_PER_EPOCH := 8
  MIN_ATTESTATION_INCLUSION_DELAY := 1
  SlotToEpoch := fun slot => slot / 8
  Previous := fun epoch => if epoch = 0 then 0 else epoch - 1
  ValidateIndexedAttestation := fun _ _ _ => none

/-- An epochs context with one committee of four validators per slot. -/
def sampleEpc : EpochsContext where
  GetCommitteeCountAtSlot := fun _ => .ok 1
  GetBeaconCommittee := fun _ _ => .ok [3, 1, 2, 0]
  GetBeaconProposer := fun _ => .ok 2

/-- A state at slot 10 (epoch 1) with empty pending-attestation sequences. -/
def sampleState : BeaconStateView where
  Slot := 10
  Balances := [32, 32, 32, 32]
  JustificationBits := 0
  PreviousJustifiedCheckpoint := { Epoch := 0, Root := 0 }
  CurrentJustifiedCheckpoint := { Epoch := 0, Root := 0 }
  FinalizedCheckpoint := { Epoch := 0, Root := 0 }
  PreviousEpochAttestations := { Items := [], Limit := 1024 }
  CurrentEpochAttestations := { Items := [], Limit := 1024 }

/-- An attestation of slot 9 by three of the four committee members. -/
def sampleAttestation : Attestation where
  AggregationBits := { Bits := { bits := [true, true, false, true] }, BitLimit := 2048 }
  Data := { Slot := 9, Index := 0, BeaconBlockRoot := 7,
            Source := { Epoch := 0, Root := 0 }, Target := { Epoch := 1, Root := 5 } }
  Signature := 0

/-- The attestation `sampleAttestation` with a bitfield of three bits for a committee of four. -/
def shortAttestation : Attestation :=
  { sampleAttestation with
    AggregationBits := { Bits := { bits := [true, true, false] }, BitLimit := 2048 } }

/-- An attestation of slot 1, more than an epoch before slot 10. -/
def oldAttestation : Attestation :=
  { sampleAttestation with
    Data := { Slot := 1, Index := 0, BeaconBlockRoot := 7,
              Source := { Epoch := 0, Root := 0 }, Target := { Epoch := 0, Root := 5 } } }

end Beacon

namespace Components

/-! The flat state of `containers.go`, `components/history.go` and `epoch/justification.go`.
Slots, epochs, validator indices, shards and Gwei amounts are `uint64` values and roots are
32-byte values, all of them natural numbers here; the zero root `Root{}` is `0`. -/

structure Crosslink where
  Epoch : Nat
  CrosslinkDataRoot : Nat
deriving DecidableEq, Repr

structure AttestationData where
  Slot : Nat
  BeaconBlockRoot : Nat
  SourceEpoch : Nat
  SourceRoot : Nat
  TargetRoot : Nat
  Shard : Nat
  PreviousCrosslink : Crosslink
  CrosslinkDataRoot : Nat
deriving DecidableEq, Repr

structure PendingAttestation where
  AggregationBitfield : List Nat
  Data : AttestationData
  CustodyBitfield : List Nat
  InclusionSlot : Nat
deriving DecidableEq, Repr

structure Validator where
  Pubkey : Nat
  WithdrawalCredentials : Nat
  ActivationEligibilityEpoch : Nat
  ActivationEpoch : Nat
  ExitEpoch : Nat
  WithdrawableEpoch : Nat
  Slashed : Bool
  HighBalance : Nat
deriving DecidableEq, Repr

/-- The method `Validator.IsActive` (containers.go, 165-167). -/
def Validator.IsActive (v : Validator) (epoch : Nat) : Bool :=
  decide (v.ActivationEpoch ≤ epoch) && decide (epoch < v.ExitEpoch)

abbrev ValidatorRegistry := List Validator

/-- The method `ValidatorRegistry.GetActiveValidatorIndices` (containers.go, 235-243). -/
def ValidatorRegistry.GetActiveValidatorIndices (vr : ValidatorRegistry) (epoch : Nat) :
    List Nat :=
  (vr.enum.filter (fun iv => iv.2.IsActive epoch)).map (fun iv => iv.1)

/-- The fields of the flat `BeaconState` used by the justification pass. -/
structure BeaconState where
  Slot : Nat
  Validators : ValidatorRegistry
  LatestBlockRoots : List Nat
  PreviousEpochAttestations : List PendingAttestation
  CurrentEpochAttestations : List PendingAttestation
  PreviousJustifiedEpoch : Nat
  PreviousJustifiedRoot : Nat
  CurrentJustifiedEpoch : Nat
  CurrentJustifiedRoot : Nat
  JustificationBitfield : Nat
  FinalizedEpoch : Nat
  FinalizedRoot : Nat
deriving DecidableEq, Repr

/-- The constants, types and helpers of the `core` and `components` packages that
`history.go` and `justification.go` use and whose declarations are not among the sources.
`JustificationBitfieldWidth` is the width in bits of the unsigned integer type of the field
`JustificationBitfield`; `StateEpoch` and `StatePreviousEpoch` are `state.Epoch()` and
`state.PreviousEpoch()`; `GetStartSlot` is `Epoch.GetStartSlot()`. -/
structure Env where
  GENESIS_EPOCH : Nat
  SLOTS_PER_HISTORICAL_ROOT : Nat
  JustificationBitfieldWidth : Nat
  StateEpoch : BeaconState → Nat
  StatePreviousEpoch : BeaconState → Nat
  GetStartSlot : Nat → Nat
  GetAttesters : BeaconState → List PendingAttestation → (AttestationData → Bool) → List Nat
  FilterUnslashed : ValidatorRegistry → List Nat → List Nat
  GetTotalEffectiveBalanceOf : ValidatorRegistry → List Nat → Nat

/-- The method `BeaconState.GetBlockRootAtSlot` (history.go, 23-29): the returned root and the
returned error (`none` for `nil`). -/
def GetBlockRootAtSlot (env : Env) (state : BeaconState) (slot : Nat) : Nat × Option String :=
  if ¬ (slot < state.Slot ∧ u64 (slot + env.SLOTS_PER_HISTORICAL_ROOT) ≤ state.Slot) then
    (0, some "cannot get block root for given slot")
  else
    (state.LatestBlockRoots.getD (slot % env.SLOTS_PER_HISTORICAL_ROOT) 0, none)

/-- The method `BeaconState.GetBlockRoot` (history.go, 31-34). -/
def GetBlockRoot (env : Env) (state : BeaconState) (epoch : Nat) : Nat × Option String :=
  GetBlockRootAtSlot env state (env.GetStartSlot epoch)

/-- The local `previousBoundaryBlockRoot` of `ProcessEpochJustification`; the error of
`GetBlockRoot` is discarded. -/
def previousBoundaryBlockRoot (env : Env) (state : BeaconState) : Nat :=
  (GetBlockRoot env state (env.StatePreviousEpoch state)).1

/-- The local `currentBoundaryBlockRoot` of `ProcessEpochJustification`. -/
def currentBoundaryBlockRoot (env : Env) (state : BeaconState) : Nat :=
  (GetBlockRoot env state (env.StateEpoch state)).1

/-- The local `previousEpochBoundaryAttesterIndices` of `ProcessEpochJustification`. -/
def previousEpochBoundaryAttesterIndices (env : Env) (state : BeaconState) : List Nat :=
  env.FilterUnslashed state.Validators
    (env.GetAttesters state state.PreviousEpochAttestations
      (fun att => att.TargetRoot == previousBoundaryBlockRoot env state))

/-- The local `currentEpochBoundaryAttesterIndices` of `ProcessEpochJustification`. -/
def currentEpochBoundaryAttesterIndices (env : Env) (state : BeaconState) : List Nat :=
  env.FilterUnslashed state.Validators
    (env.GetAttesters state state.CurrentEpochAttestations
      (fun att => att.TargetRoot == currentBoundaryBlockRoot env state))

/-- The local `previousEpochBoundaryAttestingBalance` of `ProcessEpochJustification`. -/
def previousEpochBoundaryAttestingBalance (env : Env) (state : BeaconState) : Nat :=
  env.GetTotalEffectiveBalanceOf state.Validators (previousEpochBoundaryAttesterIndices env state)

/-- The local `previousTotalBalance` of `ProcessEpochJustification`. -/
def previousTotalBalance (env : Env) (state : BeaconState) : Nat :=
  env.GetTotalEffectiveBalanceOf state.Validators
    (state.Validators.GetActiveValidatorIndices (subU64 (env.StateEpoch state) 1))

/-- The local `currentEpochBoundaryAttestingBalance` of `ProcessEpochJustification`. -/
def currentEpochBoundaryAttestingBalance (env : Env) (state : BeaconState) : Nat :=
  env.GetTotalEffectiveBalanceOf state.Validators (currentEpochBoundaryAttesterIndices env state)

/-- The local `currentTotalBalance` of `ProcessEpochJustification`. -/
def currentTotalBalance (env : Env) (state : BeaconState) : Nat :=
  env.GetTotalEffectiveBalanceOf state.Validators
    (state.Validators.GetActiveValidatorIndices (env.StateEpoch state))

/-- The rotation of `ProcessEpochJustification` (justification.go, 33-37): the current
justified checkpoint becomes the previous one and the bitfield is shifted up by one, in the
unsigned integer type of the field. -/
def rotate (env : Env) (state : BeaconState) : BeaconState :=
  -- Rotate current into previous
  let state := { state with
    PreviousJustifiedEpoch := state.CurrentJustifiedEpoch
    PreviousJustifiedRoot := state.CurrentJustifiedRoot }
  -- Rotate the justification bitfield up one epoch to make room for the current epoch
  { state with
    JustificationBitfield :=
      (state.JustificationBitfield <<< 1) % 2 ^ env.JustificationBitfieldWidth }

/-- The justification step of `ProcessEpochJustification` (justification.go, 39-57).
`state0` is the state of entry, from which the boundary roots, the attester indices and the
four balances are computed (the rotation does not touch the fields they are read from). -/
def justify (env : Env) (state0 state : BeaconState) : BeaconState :=
  -- If the previous epoch gets justified, fill the second last bit
  let state :=
    if u64 (previousEpochBoundaryAttestingBalance env state0 * 3)
        ≥ u64 (previousTotalBalance env state0 * 2) then
      { state with
        CurrentJustifiedEpoch := env.StatePreviousEpoch state0
        CurrentJustifiedRoot := previousBoundaryBlockRoot env state0
        JustificationBitfield := state.JustificationBitfield ||| (1 <<< 1) }
    else state
  -- If the current epoch gets justified, fill the last bit
  if u64 (currentEpochBoundaryAttestingBalance env state0 * 3)
      ≥ u64 (currentTotalBalance env state0 * 2) then
    { state with
      CurrentJustifiedEpoch := env.StateEpoch state0
      CurrentJustifiedRoot := currentBoundaryBlockRoot env state0
      JustificationBitfield := state.JustificationBitfield ||| (1 <<< 0) }
  else state

/-- The two assignments in the body of each finalization rule:
`state.FinalizedEpoch = epoch` and
`state.FinalizedRoot, _ = state.GetBlockRoot(state.FinalizedEpoch)`. -/
def setFinalized (env : Env) (state : BeaconState) (epoch : Nat) : BeaconState :=
  let state := { state with FinalizedEpoch := epoch }
  { state with FinalizedRoot := (GetBlockRoot env state state.FinalizedEpoch).1 }

/-- The finalization step of `ProcessEpochJustification` (justification.go, 58-79). -/
def finalize (env : Env) (currentEpoch oldPreviousJustifiedEpoch oldCurrentJustifiedEpoch : Nat)
    (state : BeaconState) : BeaconState :=
  let bitf := state.JustificationBitfield
  -- The 2nd/3rd/4th most recent epochs are all justified, the 2nd using the 4th as source
  let state :=
    if (bitf >>> 1) &&& 7 = 7 ∧ u64 (state.PreviousJustifiedEpoch + 3) = currentEpoch then
      setFinalized env state oldPreviousJustifiedEpoch
    else state
  -- The 2nd/3rd most recent epochs are both justified, the 2nd using the 3rd as source
  let state :=
    if (bitf >>> 1) &&& 3 = 3 ∧ u64 (state.PreviousJustifiedEpoch + 2) = currentEpoch then
      setFinalized env state oldPreviousJustifiedEpoch
    else state
  -- The 1st/2nd/3rd most recent epochs are all justified, the 1st using the 3rd as source
  let state :=
    if (bitf >>> 0) &&& 7 = 7 ∧ u64 (state.CurrentJustifiedEpoch + 2) = currentEpoch then
      setFinalized env state oldCurrentJustifiedEpoch
    else state
  -- The 1st/2nd most recent epochs are both justified, the 1st using the 2nd as source
  if (bitf >>> 0) &&& 3 = 3 ∧ u64 (state.CurrentJustifiedEpoch + 1) = currentEpoch then
    setFinalized env state oldCurrentJustifiedEpoch
  else state

/-- The function `ProcessEpochJustification` (justification.go, 8-80), as the sequence of its
three steps: rotation, justification, finalization. -/
def ProcessEpochJustification (env : Env) (state : BeaconState) : BeaconState :=
  let currentEpoch := env.StateEpoch state
  if currentEpoch ≤ env.GENESIS_EPOCH + 1 then
    state
  else
    let oldPreviousJustifiedEpoch := state.PreviousJustifiedEpoch
    let oldCurrentJustifiedEpoch := state.CurrentJustifiedEpoch
    finalize env currentEpoch oldPreviousJustifiedEpoch oldCurrentJustifiedEpoch
      (justify env state (rotate env state))

/-- An environment with eight slots per epoch and a 64-bit justification bitfield, for the
worked examples: the attesters of an attestation are the validators `i < 8` whose bit `i` is
set in the first byte of its aggregation bitfield, and the effective balance of a validator is
its `HighBalance`. -/
def sampleEnv : Env where
  GENESIS_EPOCH := 0
  SLOTS_PER_HISTORICAL_ROOT := 64
  JustificationBitfieldWidth := 64
  StateEpoch := fun state => state.Slot / 8
  StatePreviousEpoch := fun state => if state.Slot / 8 = 0 then 0 else state.Slot / 8 - 1
  GetStartSlot := fun epoch => epoch * 8
  GetAttesters := fun _ atts filter =>
    ((atts.filter (fun att => filter att.Data)).map
      (fun att => (List.range 8).filter (fun i => (att.AggregationBitfield.headD 0).testBit i))).flatten
  FilterUnslashed := fun vr indices =>
    indices.filter (fun i => !((vr.map (fun v => v.Slashed)).getD i true))
  GetTotalEffectiveBalanceOf := fun vr indices =>
    (indices.map (fun i => (vr.map (fun v => v.HighBalance)).getD i 0)).sum

/-- An active, unslashed validator with balance 32. -/
def sampleValidator : Validator where
  Pubkey := 0
  WithdrawalCredentials := 0
  ActivationEligibilityEpoch := 0
  ActivationEpoch := 0
  ExitEpoch := 2 ^ 64 - 1
  WithdrawableEpoch := 2 ^ 64 - 1
  Slashed := false
  HighBalance := 32

/-- A previous-epoch attestation by validators 0 and 1 with target root `0`. -/
def twoOfThreeAttestation : PendingAttestation where
  AggregationBitfield := [3]
  Data := { Slot := 17, BeaconBlockRoot := 0, SourceEpoch := 0, SourceRoot := 0,
            TargetRoot := 0, Shard := 0,
            PreviousCrosslink := { Epoch := 0, CrosslinkDataRoot := 0 },
            CrosslinkDataRoot := 0 }
  CustodyBitfield := [0]
  InclusionSlot := 18

/-- A state at slot 24 (epoch 3) with three validators, two of which attested to the boundary
of the previous epoch: their balance is exactly two thirds of the total. -/
def thresholdState : BeaconState where
  Slot := 24
  Validators := [sampleValidator, sampleValidator, sampleValidator]
  LatestBlockRoots := List.replicate 64 0
  PreviousEpochAttestations := [twoOfThreeAttestation]
  CurrentEpochAttestations := []
  PreviousJustifiedEpoch := 0
  PreviousJustifiedRoot := 0
  CurrentJustifiedEpoch := 0
  CurrentJustifiedRoot := 0
  JustificationBitfield := 0
  FinalizedEpoch := 0
  FinalizedRoot := 0

/-- A state at slot 40 (epoch 5) whose last justification is three epochs old (bit 3 of the
bitfield) and that holds no attestations. -/
def staleState : BeaconState where
  Slot := 40
  Validators := [sampleValidator, sampleValidator, sampleValidator]
  LatestBlockRoots := List.replicate 64 0
  PreviousEpochAttestations := []
  CurrentEpochAttestations := []
  PreviousJustifiedEpoch := 1
  PreviousJustifiedRoot := 0
  CurrentJustifiedEpoch := 1
  CurrentJustifiedRoot := 0
  JustificationBitfield := 8
  FinalizedEpoch := 0
  FinalizedRoot := 0

/-- Four validators of balance 32, all active and unslashed. -/
def fourValidators : ValidatorRegistry :=
  [sampleValidator, sampleValidator, sampleValidator, sampleValidator]

/-- An attestation of the given slot by all four validators, with target root `0`, the
boundary root of every epoch in the worked examples. -/
def unanimousAttestation (slot : Nat) : PendingAttestation where
  AggregationBitfield := [15]
  Data := { Slot := slot, BeaconBlockRoot := 0, SourceEpoch := 0, SourceRoot := 0,
            TargetRoot := 0, Shard := 0,
            PreviousCrosslink := { Epoch := 0, CrosslinkDataRoot := 0 },
            CrosslinkDataRoot := 0 }
  CustodyBitfield := [0]
  InclusionSlot := slot + 1

/-- The state at the end of epoch 2 (slot 23) of a chain of four validators in which every
validator attested in epochs 1 and 2; the finality fields are those of genesis. -/
def unanimousEpoch2 : BeaconState where
  Slot := 23
  Validators := fourValidators
  LatestBlockRoots := List.replicate 64 0
  PreviousEpochAttestations := [unanimousAttestation 8]
  CurrentEpochAttestations := [unanimousAttestation 16]
  PreviousJustifiedEpoch := 0
  PreviousJustifiedRoot := 0
  CurrentJustifiedEpoch := 0
  CurrentJustifiedRoot := 0
  JustificationBitfield := 0
  FinalizedEpoch := 0
  FinalizedRoot := 0

/-- The state at the end of epoch 3 (slot 31) of the same chain: the state left by the
justification pass of epoch 2, with the attestations of epochs 2 and 3, again unanimous. -/
def unanimousEpoch3 : BeaconState :=
  { ProcessEpochJustification sampleEnv unanimousEpoch2 with
    Slot := 31
    PreviousEpochAttestations := [unanimousAttestation 16]
    CurrentEpochAttestations := [unanimousAttestation 24] }

/-- The state at the end of epoch 4 (slot 39) of the same chain: the state left by the
justification pass of epoch 3, with the unanimous attestations of epoch 3 and no attestation
of epoch 4. -/
def quietEpoch4 : BeaconState :=
  { ProcessEpochJustification sampleEnv unanimousEpoch3 with
    Slot := 39
    PreviousEpochAttestations := [unanimousAttestation 24]
    CurrentEpochAttestations := [] }

/-- The finality fields of `b` are those of `a`: what a call of `ProcessEpochJustification`
leaves for the next one, whatever happens to the rest of the state in between. -/
def sameFinality (a b : BeaconState) : Prop :=
  b.PreviousJustifiedEpoch = a.PreviousJustifiedEpoch ∧
  b.PreviousJustifiedRoot = a.PreviousJustifiedRoot ∧
  b.CurrentJustifiedEpoch = a.CurrentJustifiedEpoch ∧
  b.CurrentJustifiedRoot = a.CurrentJustifiedRoot ∧
  b.JustificationBitfield = a.JustificationBitfield ∧
  b.FinalizedEpoch = a.FinalizedEpoch ∧
  b.FinalizedRoot = a.FinalizedRoot

instance (a b : BeaconState) : Decidable (sameFinality a b) := by
  unfold sameFinality
  infer_instance

/-- The finality fields of the genesis state: all checkpoints at the genesis epoch and the
justification bits zero. -/
def genesisFinality (env : Env) (state : BeaconState) : Prop :=
  state.PreviousJustifiedEpoch = env.GENESIS_EPOCH ∧
  state.CurrentJustifiedEpoch = env.GENESIS_EPOCH ∧
  state.FinalizedEpoch = env.GENESIS_EPOCH ∧
  state.JustificationBitfield = 0

instance (env : Env) (state : BeaconState) : Decidable (genesisFinality env state) := by
  unfold genesisFinality
  infer_instance

/-- Two successive calls of `ProcessEpochJustification`, on the states `a` and then `b`: the
current epoch has increased and `b` carries the finality fields that the call on `a` left. -/
def nextCall (env : Env) (a b : BeaconState) : Prop :=
  env.StateEpoch a < env.StateEpoch b ∧ sameFinality (ProcessEpochJustification env a) b

end Components

namespace Finality

/-- The type `JustificationBits` (finality.go, 21), an array of one byte: `byte0` is
`jb[0]`. -/
structure JustificationBits where
  byte0 : Nat
deriving DecidableEq, Repr

/-- The method `JustificationBits.NextEpoch` (finality.go, 27-31); the shift is the shift of
a byte. -/
def JustificationBits.NextEpoch (jb : JustificationBits) : JustificationBits :=
  -- shift and mask
  { byte0 := ((jb.byte0 <<< 1) % 2 ^ 8) &&& 0x0f }

end Finality

namespace Shuffling

/-- The constants of the `core` package read by `GetCommitteeCount`; their declarations are
not among the sources. -/
structure Core where
  SHARD_COUNT : Nat
  SLOTS_PER_EPOCH : Nat
  TARGET_COMMITTEE_SIZE : Nat

/-- Modelled from the spec: `math.MaxU64` of the `util/math` package, not among the sources;
the larger of two values, the lower side of the "clamp". -/
def MaxU64 (a b : Nat) : Nat := max a b

/-- Modelled from the spec: `math.MinU64` of the `util/math` package, not among the sources;
the smaller of two values, the upper side of the "clamp". -/
def MinU64 (a b : Nat) : Nat := min a b

/-- The type `CommitteeCountCalc` (shuffling.go, 71-73): the embedded
`ActiveValidatorCountMeta`, whose method is a collaborator. -/
structure CommitteeCountCalc where
  GetActiveValidatorCount : Nat → Nat

/-- The method `CommitteeCountCalc.GetCommitteeCount` (shuffling.go, 75-84). -/
def CommitteeCountCalc.GetCommitteeCount (core : Core) (m : CommitteeCountCalc)
    (epoch : Nat) : Nat :=
  let activeValidatorCount := m.GetActiveValidatorCount epoch
  let committeesPerSlot := MaxU64 1
    (MinU64
      (core.SHARD_COUNT / core.SLOTS_PER_EPOCH)
      (activeValidatorCount / core.SLOTS_PER_EPOCH / core.TARGET_COMMITTEE_SIZE))
  u64 (committeesPerSlot * core.SLOTS_PER_EPOCH)

/-- Constants with 1024 shards, 64 slots per epoch and committees of 128. -/
def sampleCore : Core where
  SHARD_COUNT := 1024
  SLOTS_PER_EPOCH := 64
  TARGET_COMMITTEE_SIZE := 128

end Shuffling

namespace Phase0

/-! The rewards of `eth2/beacon/phase0/deltas.go`. A call that does not return its result
ends in a `Fault`: a returned error, or one of the two run-time panics that the arithmetic
and the indexing of the code can raise. -/

inductive Fault where
  /-- The error `common.TransitionCancelErr`. -/
  | TransitionCancelErr
  /-- The error "cannot apply deltas to balances list with different length". -/
  | lengthMismatch
  /-- The run-time panic of an integer division by zero. -/
  | divideByZero
  /-- The run-time panic of an index out of range. -/
  | indexOutOfRange
deriving DecidableEq, Repr

/-- Go `a / b` on `uint64` operands. -/
def divU64 (a b : Nat) : Except Fault Nat :=
  if b = 0 then .error .divideByZero else .ok (a / b)

/-- Go `l[k] += v` on a slice of `uint64`. -/
def addAt (l : List Nat) (k v : Nat) : Except Fault (List Nat) :=
  if k < l.length then .ok (l.set k (u64 (l.getD k 0 + v))) else .error .indexOutOfRange

/-- Modelled from the spec: the type `common.Deltas`, not among the sources; "two same-length
sequences indexed by validator index", rewards and penalties. -/
structure Deltas where
  Rewards : List Nat
  Penalties : List Nat
deriving DecidableEq, Repr

/-- Modelled from the spec: `common.NewDeltas`, not among the sources; the two sequences of
the given length, all zero. -/
def NewDeltas (validatorCount : Nat) : Deltas where
  Rewards := List.replicate validatorCount 0
  Penalties := List.replicate validatorCount 0

/-- Modelled from the spec: `Deltas.Add`, not among the sources; the deltas "are summed",
entry by entry, in `uint64`. -/
def Deltas.Add (d other : Deltas) : Deltas where
  Rewards := List.zipWith (fun a b => u64 (a + b)) d.Rewards other.Rewards
  Penalties := List.zipWith (fun a b => u64 (a + b)) d.Penalties other.Penalties

structure RewardsAndPenalties where
  Source : Deltas
  Target : Deltas
  Head : Deltas
  InclusionDelay : Deltas
  Inactivity : Deltas
deriving DecidableEq, Repr

/-- The function `NewRewardsAndPenalties` (deltas.go, 19-27). -/
def NewRewardsAndPenalties (validatorCount : Nat) : RewardsAndPenalties where
  Source := NewDeltas validatorCount
  Target := NewDeltas validatorCount
  Head := NewDeltas validatorCount
  InclusionDelay := NewDeltas validatorCount
  Inactivity := NewDeltas validatorCount

/-- The validator record of an attester status, of which the code reads the effective
balance. -/
structure Validator where
  EffectiveBalance : Nat
deriving DecidableEq, Repr

/-- The fields of an element of `process.Statuses` read by the code. -/
structure AttesterStatus where
  Flags : Nat
  Validator : Validator
  AttestedProposer : Nat
  InclusionDelay : Nat
deriving DecidableEq, Repr

/-- The stake totals of `process.PrevEpochUnslashedStake`. -/
structure EpochStakeSummary where
  SourceStake : Nat
  TargetStake : Nat
  HeadStake : Nat
deriving DecidableEq, Repr

/-- The fields of `EpochProcess` read by the code. -/
structure EpochProcess where
  Statuses : List AttesterStatus
  TotalActiveStake : Nat
  PrevEpochUnslashedStake : EpochStakeSummary
deriving DecidableEq, Repr

/-- An epoch record of the epochs context, of which the code reads the epoch number. -/
structure EpochRecord where
  Epoch : Nat
deriving DecidableEq, Repr

/-- The fields of `EpochsContext` read by the code. -/
structure EpochsContext where
  PreviousEpoch : EpochRecord
  CurrentEpoch : EpochRecord
deriving DecidableEq, Repr

/-- The fields of the configuration `common.Spec` read by the code. -/
structure Spec where
  EFFECTIVE_BALANCE_INCREMENT : Nat
  BASE_REWARD_FACTOR : Nat
  PROPOSER_REWARD_QUOTIENT : Nat
  INACTIVITY_PENALTY_QUOTIENT : Nat
  MIN_EPOCHS_TO_INACTIVITY_PENALTY : Nat
deriving DecidableEq, Repr

/-- The constants of the packages `common` and `phase0` used by the code, whose declarations
are not among the sources: two numbers and the five attester flags, which are bit masks. -/
structure Common where
  GENESIS_EPOCH : Nat
  BASE_REWARDS_PER_EPOCH : Nat
  PrevSourceAttester : Nat
  PrevTargetAttester : Nat
  PrevHeadAttester : Nat
  UnslashedAttester : Nat
  EligibleAttester : Nat
deriving DecidableEq, Repr

/-- Modelled from the spec: the method `Flags.HasMarkers`, not among the sources; the status
has every flag of the mask, "flag ∧ UnslashedAttester set". -/
def HasMarkers (flags markers : Nat) : Bool := flags &&& markers == markers

/-- Modelled from the spec: `math.IntegerSquareroot` of the `util/math` package, not among
the sources; the "integerSquareRoot", the largest number whose square is at most `n`. -/
def IntegerSquareroot (n : Nat) : Nat := Nat.sqrt n

/-- The blocks "Expected FFG source", "Expected FFG target" and "Expected head" of the loop
(deltas.go, 94-105, 107-118 and 120-131), which are the same code on the ledgers `res.Source`,
`res.Target` and `res.Head`: `attested` is the test
`status.Flags.HasMarkers(Prev...Attester | UnslashedAttester)` and `stake` the normalised
stake of the category. -/
def expectedVoteBlock (attested isInactivityLeak : Bool) (baseReward stake totalBalance : Nat)
    (i : Nat) (d : Deltas) : Except Fault Deltas :=
  if attested then
    if isInactivityLeak then do
      let rewards ← addAt d.Rewards i baseReward
      pure { d with Rewards := rewards }
    else do
      -- participation reward
      let reward ← divU64 (u64 (baseReward * stake)) totalBalance
      let rewards ← addAt d.Rewards i reward
      pure { d with Rewards := rewards }
  else do
    -- non-participation R-penalty
    let penalties ← addAt d.Penalties i baseReward
    pure { d with Penalties := penalties }

/-- The block "Inclusion delay" of the loop (deltas.go, 82-88), run when the status has
`PrevSourceAttester | UnslashedAttester`, on the ledger `res.InclusionDelay`. -/
def inclusionDelayBlock (spec : Spec) (status : AttesterStatus) (baseReward : Nat) (i : Nat)
    (d : Deltas) : Except Fault Deltas := do
  -- Inclusion speed bonus
  let proposerReward ← divU64 baseReward spec.PROPOSER_REWARD_QUOTIENT
  let rewards ← addAt d.Rewards status.AttestedProposer proposerReward
  let maxAttesterReward := subU64 baseReward proposerReward
  let attesterReward ← divU64 maxAttesterReward status.InclusionDelay
  let rewards ← addAt rewards i attesterReward
  pure { d with Rewards := rewards }

/-- The block "Take away max rewards if we're not finalizing" of the loop (deltas.go,
134-141), run during an inactivity leak, on the ledger `res.Inactivity`. -/
def inactivityBlock (common : Common) (spec : Spec) (status : AttesterStatus)
    (effBalance baseReward finalityDelay : Nat) (i : Nat) (d : Deltas) : Except Fault Deltas := do
  -- If validator is performing optimally this cancels all rewards for a neutral balance
  let proposerReward ← divU64 baseReward spec.PROPOSER_REWARD_QUOTIENT
  let penalties ← addAt d.Penalties i
    (subU64 (u64 (common.BASE_REWARDS_PER_EPOCH * baseReward)) proposerReward)
  if ¬ HasMarkers status.Flags (common.PrevTargetAttester ||| common.UnslashedAttester) then do
    let leak ← divU64 (u64 (effBalance * finalityDelay)) spec.INACTIVITY_PENALTY_QUOTIENT
    let penalties ← addAt penalties i leak
    pure { d with Penalties := penalties }
  else
    pure { d with Penalties := penalties }

/-- The locals that `AttestationRewardsAndPenalties` computes before its loop (deltas.go,
39-63), the stakes after their division by `EFFECTIVE_BALANCE_INCREMENT`. -/
structure LoopLocals where
  balanceSqRoot : Nat
  finalityDelay : Nat
  totalBalance : Nat
  prevEpochSourceStake : Nat
  prevEpochTargetStake : Nat
  prevEpochHeadStake : Nat
  isInactivityLeak : Bool
deriving DecidableEq, Repr

/-- The value of the local `baseReward` for a status, when neither division panics:
`effBalance * BASE_REWARD_FACTOR / balanceSqRoot / BASE_REWARDS_PER_EPOCH`. -/
def baseRewardOf (common : Common) (spec : Spec) (locals : LoopLocals)
    (status : AttesterStatus) : Nat :=
  u64 (status.Validator.EffectiveBalance * spec.BASE_REWARD_FACTOR)
    / locals.balanceSqRoot / common.BASE_REWARDS_PER_EPOCH

/-- The body of the loop of `AttestationRewardsAndPenalties` for the validator `i` with the
status `status` (deltas.go, 75-142), after the context check. -/
def loopBody (common : Common) (spec : Spec) (locals : LoopLocals) (i : Nat)
    (status : AttesterStatus) (res : RewardsAndPenalties) : Except Fault RewardsAndPenalties := do
  let effBalance := status.Validator.EffectiveBalance
  let perRoot ← divU64 (u64 (effBalance * spec.BASE_REWARD_FACTOR)) locals.balanceSqRoot
  let baseReward ← divU64 perRoot common.BASE_REWARDS_PER_EPOCH
  -- Inclusion delay
  let inclusionDelay ←
    (if HasMarkers status.Flags (common.PrevSourceAttester ||| common.UnslashedAttester) then
      inclusionDelayBlock spec status baseReward i res.InclusionDelay
    else pure res.InclusionDelay)
  if status.Flags &&& common.EligibleAttester ≠ 0 then do
    -- Expected FFG source
    let source ← expectedVoteBlock
      (HasMarkers status.Flags (common.PrevSourceAttester ||| common.UnslashedAttester))
      locals.isInactivityLeak baseReward locals.prevEpochSourceStake locals.totalBalance i
      res.Source
    -- Expected FFG target
    let target ← expectedVoteBlock
      (HasMarkers status.Flags (common.PrevTargetAttester ||| common.UnslashedAttester))
      locals.isInactivityLeak baseReward locals.prevEpochTargetStake locals.totalBalance i
      res.Target
    -- Expected head
    let head ← expectedVoteBlock
      (HasMarkers status.Flags (common.PrevHeadAttester ||| common.UnslashedAttester))
      locals.isInactivityLeak baseReward locals.prevEpochHeadStake locals.totalBalance i
      res.Head
    -- Take away max rewards if we're not finalizing
    let inactivity ←
      (if locals.isInactivityLeak then
        inactivityBlock common spec status effBalance baseReward locals.finalityDelay i
          res.Inactivity
      else pure res.Inactivity)
    pure { Source := source, Target := target, Head := head,
           InclusionDelay := inclusionDelay, Inactivity := inactivity }
  else
    pure { res with InclusionDelay := inclusionDelay }

/-- The loop of `AttestationRewardsAndPenalties` from the validator `i` on (deltas.go,
65-143): `ctxDone k` tells whether the `k`-th non-blocking receive on `ctx.Done()`, made
before the validator `1024 * k`, finds the context cancelled. -/
def rewardsLoop (ctxDone : Nat → Bool) (common : Common) (spec : Spec) (locals : LoopLocals) :
    Nat → List AttesterStatus → RewardsAndPenalties → Except Fault RewardsAndPenalties
  | _, [], res => pure res
  | i, status :: rest, res =>
    -- every 1024 validators, check if the context is done.
    if i &&& ((1 <<< 10) - 1) = 0 ∧ ctxDone (i >>> 10) = true then
      .error .TransitionCancelErr
    else do
      let res ← loopBody common spec locals i status res
      rewardsLoop ctxDone common spec locals (i + 1) rest res

/-- The locals of `AttestationRewardsAndPenalties` (deltas.go, 35-63). -/
def loopLocals (spec : Spec) (epc : EpochsContext) (process : EpochProcess)
    (state : Beacon.BeaconStateView) : Except Fault LoopLocals := do
  let previousEpoch := epc.PreviousEpoch.Epoch
  let totalBalance := process.TotalActiveStake
  let prevEpochStake := process.PrevEpochUnslashedStake
  let prevEpochSourceStake := prevEpochStake.SourceStake
  let prevEpochTargetStake := prevEpochStake.TargetStake
  let prevEpochHeadStake := prevEpochStake.HeadStake
  let balanceSqRoot := IntegerSquareroot totalBalance
  let finalizedEpoch := state.FinalizedCheckpoint.Epoch
  let finalityDelay := subU64 previousEpoch finalizedEpoch
  -- All summed effective balances are normalized to effective-balance increments
  let totalBalance ← divU64 totalBalance spec.EFFECTIVE_BALANCE_INCREMENT
  let prevEpochSourceStake ← divU64 prevEpochSourceStake spec.EFFECTIVE_BALANCE_INCREMENT
  let prevEpochTargetStake ← divU64 prevEpochTargetStake spec.EFFECTIVE_BALANCE_INCREMENT
  let prevEpochHeadStake ← divU64 prevEpochHeadStake spec.EFFECTIVE_BALANCE_INCREMENT
  let isInactivityLeak := decide (finalityDelay > spec.MIN_EPOCHS_TO_INACTIVITY_PENALTY)
  pure { balanceSqRoot := balanceSqRoot, finalityDelay := finalityDelay,
         totalBalance := totalBalance, prevEpochSourceStake := prevEpochSourceStake,
         prevEpochTargetStake := prevEpochTargetStake,
         prevEpochHeadStake := prevEpochHeadStake, isInactivityLeak := isInactivityLeak }

/-- The function `AttestationRewardsAndPenalties` (deltas.go, 29-146). The state view has a
well-formed backing, so that reading the finalized checkpoint does not fail. -/
def AttestationRewardsAndPenalties (ctxDone : Nat → Bool) (common : Common) (spec : Spec)
    (epc : EpochsContext) (process : EpochProcess) (state : Beacon.BeaconStateView) :
    Except Fault RewardsAndPenalties := do
  let validatorCount := process.Statuses.length
  let res := NewRewardsAndPenalties validatorCount
  let attesterStatuses := process.Statuses
  let locals ← loopLocals spec epc process state
  rewardsLoop ctxDone common spec locals 0 attesterStatuses res

/-- The balance update of `ProcessEpochRewardsAndPenalties` (deltas.go, 197-202). -/
def applyDelta (bal reward penalty : Nat) : Nat :=
  let bal := u64 (bal + reward)
  if bal ≥ penalty then subU64 bal penalty else 0

/-- The function `ProcessEpochRewardsAndPenalties` (deltas.go, 148-212): the state after a
call that returns `nil`. The only write to the state is the last statement, so a call that
ends in a fault has not changed it. The context is polled once on entry and then by
`AttestationRewardsAndPenalties`. -/
def ProcessEpochRewardsAndPenalties (ctxDone : Nat → Bool) (common : Common) (spec : Spec)
    (epc : EpochsContext) (process : EpochProcess) (state : Beacon.BeaconStateView) :
    Except Fault Beacon.BeaconStateView :=
  if ctxDone 0 = true then
    .error .TransitionCancelErr
  else
    let currentEpoch := epc.CurrentEpoch.Epoch
    if currentEpoch = common.GENESIS_EPOCH then
      .ok state
    else do
      let valCount := process.Statuses.length
      let sum := NewDeltas valCount
      let rewAndPenalties ←
        AttestationRewardsAndPenalties (fun k => ctxDone (k + 1)) common spec epc process state
      let sum := sum.Add rewAndPenalties.Source
      let sum := sum.Add rewAndPenalties.Target
      let sum := sum.Add rewAndPenalties.Head
      let sum := sum.Add rewAndPenalties.InclusionDelay
      let sum := sum.Add rewAndPenalties.Inactivity
      let balances := state.Balances
      let balLen := balances.length
      if sum.Penalties.length ≠ balLen ∨ sum.Rewards.length ≠ balLen then
        .error .lengthMismatch
      else
        let balancesElements := (List.range balLen).map
          (fun i => applyDelta (balances.getD i 0) (sum.Rewards.getD i 0) (sum.Penalties.getD i 0))
        .ok { state with Balances := balancesElements }

/-- The entry of a validator in the ledger of one of the categories Source, Target, Head, as
the rewards rule states it: a validator that attested gets the reward and no penalty, one that
did not gets the base reward as penalty and no reward. -/
def expectedVoteEntry (d : Deltas) (i : Nat) (attested isInactivityLeak : Bool)
    (baseReward stake totalBalance : Nat) : Prop :=
  if attested = true then
    d.Rewards[i]? = some (if isInactivityLeak = true then baseReward
      else u64 (baseReward * stake) / totalBalance) ∧
    d.Penalties[i]? = some 0
  else
    d.Penalties[i]? = some baseReward ∧ d.Rewards[i]? = some 0

instance (d : Deltas) (i : Nat) (attested isInactivityLeak : Bool)
    (baseReward stake totalBalance : Nat) :
    Decidable (expectedVoteEntry d i attested isInactivityLeak baseReward stake totalBalance) := by
  unfold expectedVoteEntry
  infer_instance

/-- The locals of `AttestationRewardsAndPenalties` when no division panics. -/
def localsOf (spec : Spec) (epc : EpochsContext) (process : EpochProcess)
    (state : Beacon.BeaconStateView) : LoopLocals where
  balanceSqRoot := IntegerSquareroot process.TotalActiveStake
  finalityDelay := subU64 epc.PreviousEpoch.Epoch state.FinalizedCheckpoint.Epoch
  totalBalance := process.TotalActiveStake / spec.EFFECTIVE_BALANCE_INCREMENT
  prevEpochSourceStake :=
    process.PrevEpochUnslashedStake.SourceStake / spec.EFFECTIVE_BALANCE_INCREMENT
  prevEpochTargetStake :=
    process.PrevEpochUnslashedStake.TargetStake / spec.EFFECTIVE_BALANCE_INCREMENT
  prevEpochHeadStake :=
    process.PrevEpochUnslashedStake.HeadStake / spec.EFFECTIVE_BALANCE_INCREMENT
  isInactivityLeak :=
    decide (subU64 epc.PreviousEpoch.Epoch state.FinalizedCheckpoint.Epoch
      > spec.MIN_EPOCHS_TO_INACTIVITY_PENALTY)

/-- The entry of a validator in `res.Inactivity.Penalties` after the iteration of the loop
for that validator, `x` being the entry before it. -/
def inactivityEntry (common : Common) (spec : Spec) (locals : LoopLocals) (x : Nat)
    (status : AttesterStatus) : Nat :=
  if status.Flags &&& common.EligibleAttester ≠ 0 ∧ locals.isInactivityLeak = true then
    if HasMarkers status.Flags (common.PrevTargetAttester ||| common.UnslashedAttester)
        = true then
      u64 (x +
        subU64 (u64 (common.BASE_REWARDS_PER_EPOCH * baseRewardOf common spec locals status))
          (baseRewardOf common spec locals status / spec.PROPOSER_REWARD_QUOTIENT))
    else
      u64 (u64 (x +
          subU64 (u64 (common.BASE_REWARDS_PER_EPOCH * baseRewardOf common spec locals status))
            (baseRewardOf common spec locals status / spec.PROPOSER_REWARD_QUOTIENT)) +
        u64 (status.Validator.EffectiveBalance * locals.finalityDelay)
          / spec.INACTIVITY_PENALTY_QUOTIENT)
  else x

/-- The entry of a validator in `res.InclusionDelay.Rewards` after the iteration of the loop
for that validator, `x` being the entry before it, when the validator is not the proposer
that its own status names: the attester share of the inclusion-delay bonus. -/
def inclusionEntry (common : Common) (spec : Spec) (locals : LoopLocals) (x : Nat)
    (status : AttesterStatus) : Nat :=
  if HasMarkers status.Flags (common.PrevSourceAttester ||| common.UnslashedAttester)
      = true then
    u64 (x +
      subU64 (baseRewardOf common spec locals status)
        (baseRewardOf common spec locals status / spec.PROPOSER_REWARD_QUOTIENT)
        / status.InclusionDelay)
  else x

/-- The sum of the entries of the five ledgers, as the successive `sum.Add` compute it from
zero in `uint64`. -/
def sumOfFive (a b c d e : Nat) : Nat :=
  u64 (u64 (u64 (u64 (u64 (0 + a) + b) + c) + d) + e)

/-- All ten sequences of a result have the length `n`. -/
def ledgerLengths (rp : RewardsAndPenalties) (n : Nat) : Prop :=
  rp.Source.Rewards.length = n ∧ rp.Source.Penalties.length = n ∧
  rp.Target.Rewards.length = n ∧ rp.Target.Penalties.length = n ∧
  rp.Head.Rewards.length = n ∧ rp.Head.Penalties.length = n ∧
  rp.InclusionDelay.Rewards.length = n ∧ rp.InclusionDelay.Penalties.length = n ∧
  rp.Inactivity.Rewards.length = n ∧ rp.Inactivity.Penalties.length = n

instance (rp : RewardsAndPenalties) (n : Nat) : Decidable (ledgerLengths rp n) := by
  unfold ledgerLengths
  infer_instance

/-- The constants of the worked examples: four base rewards per epoch and the attester flags
as successive bits, with `UnslashedAttester` and `EligibleAttester` the two highest of a
byte. -/
def rewardsCommon : Common where
  GENESIS_EPOCH := 0
  BASE_REWARDS_PER_EPOCH := 4
  PrevSourceAttester := 1
  PrevTargetAttester := 2
  PrevHeadAttester := 4
  UnslashedAttester := 64
  EligibleAttester := 128

/-- The configuration of the worked examples. -/
def rewardsSpec : Spec where
  EFFECTIVE_BALANCE_INCREMENT := 1000000000
  BASE_REWARD_FACTOR := 64
  PROPOSER_REWARD_QUOTIENT := 8
  INACTIVITY_PENALTY_QUOTIENT := 33554432
  MIN_EPOCHS_TO_INACTIVITY_PENALTY := 4

/-- A status with the given flags and proposer, an effective balance of 32 ETH and an
inclusion delay of one slot. -/
def statusOf (flags proposer : Nat) : AttesterStatus where
  Flags := flags
  Validator := { EffectiveBalance := 32000000000 }
  AttestedProposer := proposer
  InclusionDelay := 1

/-- Four validators: one that attested source, target and head, one that missed the head,
one that is eligible and did not attest, and one that attested the source and is not
eligible. -/
def rewardsProcess : EpochProcess where
  Statuses := [statusOf 199 1, statusOf 195 0, statusOf 128 0, statusOf 65 2]
  TotalActiveStake := 128000000000
  PrevEpochUnslashedStake :=
    { SourceStake := 96000000000, TargetStake := 64000000000, HeadStake := 32000000000 }

/-- A single validator that attested the source, unslashed, without the `EligibleAttester`
flag. -/
def loneProcess : EpochProcess where
  Statuses := [statusOf 65 0]
  TotalActiveStake := 32000000000
  PrevEpochUnslashedStake :=
    { SourceStake := 32000000000, TargetStake := 0, HeadStake := 0 }

/-- The epochs context of the epoch after `previousEpoch`. -/
def epochsAt (previousEpoch : Nat) : EpochsContext where
  PreviousEpoch := { Epoch := previousEpoch }
  CurrentEpoch := { Epoch := previousEpoch + 1 }

/-- A state finalized at epoch 0 with four balances of 32 ETH. -/
def rewardsState : Beacon.BeaconStateView :=
  { Beacon.sampleState with
    Balances := [32000000000, 32000000000, 32000000000, 32000000000] }

/-- The result for `rewardsProcess` when finality is three epochs behind (no leak). -/
def normalResult : RewardsAndPenalties where
  Source := { Rewards := [1073315, 1073315, 0, 0], Penalties := [0, 0, 1431087, 0] }
  Target := { Rewards := [715543, 715543, 0, 0], Penalties := [0, 0, 1431087, 0] }
  Head := { Rewards := [357771, 0, 0, 0], Penalties := [0, 1431087, 1431087, 0] }
  InclusionDelay := { Rewards := [1431087, 1431087, 178885, 1252202], Penalties := [0, 0, 0, 0] }
  Inactivity := { Rewards := [0, 0, 0, 0], Penalties := [0, 0, 0, 0] }

/-- The result for `rewardsProcess` when finality is nine epochs behind (inactivity leak). -/
def leakResult : RewardsAndPenalties where
  Source := { Rewards := [1431087, 1431087, 0, 0], Penalties := [0, 0, 1431087, 0] }
  Target := { Rewards := [1431087, 1431087, 0, 0], Penalties := [0, 0, 1431087, 0] }
  Head := { Rewards := [1431087, 0, 0, 0], Penalties := [0, 1431087, 1431087, 0] }
  InclusionDelay := { Rewards := [1431087, 1431087, 178885, 1252202], Penalties := [0, 0, 0, 0] }
  Inactivity := { Rewards := [0, 0, 0, 0], Penalties := [5545463, 5545463, 5554046, 0] }

end Phase0

namespace Components

/-- A state at slot 24 whose block-root history holds the root `100 + k` at position `k`. -/
def historyState : BeaconState :=
  { thresholdState with LatestBlockRoots := (List.range 64).map (fun k => 100 + k) }

end Components

namespace Finality

structure Checkpoint where
  Epoch : Nat
  Root : Nat
deriving DecidableEq, Repr

structure FinalityState where
  JustificationBits : JustificationBits
  PreviousJustifiedCheckpoint : Checkpoint
  CurrentJustifiedCheckpoint : Checkpoint
  FinalizedCheckpoint : Checkpoint
deriving DecidableEq, Repr

/-- The method `FinalityState.Justify` (finality.go, 15-19); `metaEpoch` is the value of the
collaborator call `meta.Epoch()`, and the shift is the shift of a byte. -/
def FinalityState.Justify (state : FinalityState) (metaEpoch : Nat) (checkpoint : Checkpoint) :
    FinalityState :=
  let epochsAgo := subU64 metaEpoch checkpoint.Epoch
  { state with
    CurrentJustifiedCheckpoint := checkpoint
    JustificationBits :=
      { byte0 := state.JustificationBits.byte0 ||| ((1 <<< epochsAgo) % 2 ^ 8) } }

/-- The method `JustificationBits.IsJustified` (finality.go, 33-40), on the list of its
variadic arguments. -/
def JustificationBits.IsJustified (jb : JustificationBits) : List Nat → Bool
  | [] => true
  | t :: epochsAgo =>
    if jb.byte0 &&& ((1 <<< t) % 2 ^ 8) ≠ 0 then false
    else jb.IsJustified epochsAgo

/-- The finality state of genesis: no justification bit, all checkpoints at epoch 0. -/
def genesisState : FinalityState where
  JustificationBits := { byte0 := 0 }
  PreviousJustifiedCheckpoint := { Epoch := 0, Root := 0 }
  CurrentJustifiedCheckpoint := { Epoch := 0, Root := 0 }
  FinalizedCheckpoint := { Epoch := 0, Root := 0 }

end Finality

namespace Shuffling

/-! Seeds and proposers (shuffling.go, 12-69; components/randao.go, 13-24). A root is the
list of its 32 bytes. -/

/-- The constants of the `core` package read by `GetSeed` and `GetBeaconProposerIndex`, next
to those of `Core`; their declarations are not among the sources. -/
structure SeedConstants where
  EPOCHS_PER_HISTORICAL_VECTOR : Nat
  MIN_SEED_LOOKAHEAD : Nat
  MAX_EFFECTIVE_BALANCE : Nat

/-- The type `RandaoState` (randao.go, 13-15): the array of mixes as the list of its
elements. -/
structure RandaoState where
  RandaoMixes : List (List Nat)

/-- The method `RandaoState.GetRandaoMix` (randao.go, 17-19). -/
def RandaoState.GetRandaoMix (consts : SeedConstants) (state : RandaoState) (epoch : Nat) :
    List Nat :=
  state.RandaoMixes.getD (epoch % consts.EPOCHS_PER_HISTORICAL_VECTOR) (List.replicate 32 0)

/-- The method `RandaoState.GetRandomMix` (randao.go, 21-24). -/
def RandaoState.GetRandomMix (consts : SeedConstants) (state : RandaoState) (epoch : Nat) :
    List Nat :=
  state.GetRandaoMix consts epoch

/-- The type `ShufflingState` (shuffling.go, 12-14). -/
structure ShufflingState where
  LatestActiveIndexRoots : List (List Nat)

/-- The method `ShufflingState.GetActiveIndexRoot` (shuffling.go, 17-19). -/
def ShufflingState.GetActiveIndexRoot (consts : SeedConstants) (state : ShufflingState)
    (epoch : Nat) : List Nat :=
  state.LatestActiveIndexRoots.getD (epoch % consts.EPOCHS_PER_HISTORICAL_VECTOR)
    (List.replicate 32 0)

/-- Go `copy(buf[offset:offset+width], src)`: the first `width` bytes of `src`, as many as
there are, overwrite the bytes of the buffer from `offset` on. -/
def copyAt (buf : List Nat) (offset width : Nat) (src : List Nat) : List Nat :=
  buf.take offset ++ src.take width ++ buf.drop (offset + min width src.length)

/-- The eight bytes that `binary.LittleEndian.PutUint64` writes for a value. -/
def littleEndian64 (v : Nat) : List Nat :=
  (List.range 8).map (fun k => (v >>> (8 * k)) % 256)

/-- The method `ShufflingState.GetSeed` (shuffling.go, 26-35); `Hash` is the hash function of
the `hashing` package and `GetRandomMix` the method of the interface `RandomnessMeta`. -/
def ShufflingState.GetSeed (consts : SeedConstants) (Hash : List Nat → List Nat)
    (state : ShufflingState) (GetRandomMix : Nat → List Nat) (epoch : Nat) : List Nat :=
  let buf := List.replicate (32 * 3) 0
  -- Avoid underflow
  let mix := GetRandomMix
    (subU64 (u64 (epoch + consts.EPOCHS_PER_HISTORICAL_VECTOR)) consts.MIN_SEED_LOOKAHEAD)
  let buf := copyAt buf 0 32 mix
  let activeIndexRoot := state.GetActiveIndexRoot consts epoch
  let buf := copyAt buf 32 32 activeIndexRoot
  let buf := copyAt buf 64 8 (littleEndian64 epoch)
  Hash buf

/-- The methods of the interface `ProposingReq` (shuffling.go, 37-44) called by
`GetBeaconProposerIndex`; collaborators. -/
structure ProposingReq where
  CurrentEpoch : Nat
  CurrentSlot : Nat
  GetCommitteeCount : Nat → Nat
  GetStartShard : Nat → Nat
  GetCrosslinkCommittee : Nat → Nat → List Nat
  EffectiveBalance : Nat → Nat
  GetRandomMix : Nat → List Nat

/-- What a run of `GetBeaconProposerIndex` has come to after a number of rounds of its
loop: it has returned a validator index, it has panicked on the remainder by the length of an
empty committee, or it is still running. -/
inductive ProposerOutcome where
  | index (v : Nat)
  | divideByZero
  | running
deriving DecidableEq, Repr

/-- The local `firstCommittee` of `GetBeaconProposerIndex` (shuffling.go, 47-51). -/
def firstCommitteeOf (core : Core) (m : ProposingReq) : List Nat :=
  let epoch := m.CurrentEpoch
  let committeesPerSlot := m.GetCommitteeCount epoch / core.SLOTS_PER_EPOCH
  let offset := u64 (committeesPerSlot * (m.CurrentSlot % core.SLOTS_PER_EPOCH))
  let shard := u64 (m.GetStartShard epoch + offset) % core.SHARD_COUNT
  m.GetCrosslinkCommittee epoch shard

/-- The hash `h` of the round `i` (shuffling.go, 53-57): the hash of the seed followed by the
little-endian bytes of `i`. -/
def roundHash (Hash : List Nat → List Nat) (seed : List Nat) (i : Nat) : List Nat :=
  let buf := List.replicate (32 + 8) 0
  let buf := copyAt buf 0 32 seed
  let buf := copyAt buf 32 8 (littleEndian64 i)
  Hash buf

/-- The local `candidateIndex` for the round `i` and the byte `j` (shuffling.go, 60), for a
committee that is not empty. -/
def candidateIndex (epoch : Nat) (firstCommittee : List Nat) (i j : Nat) : Nat :=
  firstCommittee.getD (u64 (epoch + (u64 (i <<< 5) ||| j)) % firstCommittee.length) 0

/-- The test of the candidate of the round `i` and the byte `j` (shuffling.go, 58-62). -/
def accepts (consts : SeedConstants) (Hash : List Nat → List Nat) (m : ProposingReq)
    (seed : List Nat) (firstCommittee : List Nat) (i j : Nat) : Bool :=
  let randomByte := (roundHash Hash seed i).getD j 0
  let effectiveBalance := m.EffectiveBalance (candidateIndex m.CurrentEpoch firstCommittee i j)
  decide (u64 (effectiveBalance * 0xff) ≥ u64 (consts.MAX_EFFECTIVE_BALANCE * randomByte))

/-- The inner loop of `GetBeaconProposerIndex` for the round `i` (shuffling.go, 58-65): the
first candidate of the round that passes the test, if there is one. -/
def roundCandidate (consts : SeedConstants) (Hash : List Nat → List Nat) (m : ProposingReq)
    (seed : List Nat) (firstCommittee : List Nat) (i : Nat) : Option Nat :=
  (List.range 32).findSome? (fun j =>
    if accepts consts Hash m seed firstCommittee i j then
      some (candidateIndex m.CurrentEpoch firstCommittee i j)
    else none)

/-- The loop `for i := uint64(0); true; i++` of `GetBeaconProposerIndex` from the round `i`
on (shuffling.go, 55-66), followed for `rounds` rounds. -/
def proposerLoop (consts : SeedConstants) (Hash : List Nat → List Nat) (m : ProposingReq)
    (seed : List Nat) (firstCommittee : List Nat) : Nat → Nat → ProposerOutcome
  | 0, _ => .running
  | rounds + 1, i =>
    if firstCommittee.length = 0 then .divideByZero
    else
      match roundCandidate consts Hash m seed firstCommittee i with
      | some candidate => .index candidate
      | none => proposerLoop consts Hash m seed firstCommittee rounds (u64 (i + 1))

/-- The local `seed` of `GetBeaconProposerIndex` (shuffling.go, 52). -/
def seedOf (consts : SeedConstants) (Hash : List Nat → List Nat) (state : ShufflingState)
    (m : ProposingReq) : List Nat :=
  state.GetSeed consts Hash m.GetRandomMix m.CurrentEpoch

/-- The method `ShufflingState.GetBeaconProposerIndex` (shuffling.go, 46-69), followed for
`rounds` rounds of its loop. The statement `return 0` after the loop is never reached. -/
def ShufflingState.GetBeaconProposerIndex (core : Core) (consts : SeedConstants)
    (Hash : List Nat → List Nat) (state : ShufflingState) (m : ProposingReq) (rounds : Nat) :
    ProposerOutcome :=
  let firstCommittee := firstCommitteeOf core m
  let seed := seedOf consts Hash state m
  proposerLoop consts Hash m seed firstCommittee rounds 0

/-- Constants with a history of 64 epochs, a seed lookahead of one epoch and a maximum
effective balance of 32 ETH. -/
def sampleSeedConstants : SeedConstants where
  EPOCHS_PER_HISTORICAL_VECTOR := 64
  MIN_SEED_LOOKAHEAD := 1
  MAX_EFFECTIVE_BALANCE := 32000000000

/-- A randao state whose mix at the position `k` is 32 bytes equal to `k`. -/
def sampleRandao : RandaoState where
  RandaoMixes := (List.range 64).map (fun k => List.replicate 32 k)

/-- A shuffling state whose active index root at the position `k` is 32 bytes equal to
`100 + k`. -/
def sampleShuffling : ShufflingState where
  LatestActiveIndexRoots := (List.range 64).map (fun k => List.replicate 32 (100 + k))

/-- A hash function for the worked examples: 32 bytes equal to `1`. -/
def onesHash : List Nat → List Nat := fun _ => List.replicate 32 1

/-- A state of epoch 5 with one committee of four validators whose effective balances are the
given ones. -/
def sampleReq (effectiveBalance : Nat → Nat) : ProposingReq where
  CurrentEpoch := 5
  CurrentSlot := 330
  GetCommitteeCount := fun _ => 64
  GetStartShard := fun _ => 0
  GetCrosslinkCommittee := fun _ _ => [7, 3, 9, 4]
  EffectiveBalance := effectiveBalance
  GetRandomMix := sampleRandao.GetRandomMix sampleSeedConstants

end Shuffling

namespace Views

/-! The bit vector view of `experimental/views/bitfields.go`. -/

/-- The errors of the view. -/
inductive Error where
  /-- The error of `Get` for a bit index that is not below the bit length. -/
  | getIndex (bitLength i : Nat)
  /-- The error of `Set` for a bit index that is not below the bit length. -/
  | setIndex (i bitLength : Nat)
  /-- The error of a bottom node that is not a root. -/
  | notRoot (i : Nat)
  /-- An error of the subtree view. -/
  | subtree (i : Nat)
deriving DecidableEq, Repr

/-- Modelled from the spec: the nodes of the `tree` package, not among the sources, as far as
the view tells them apart; a bottom node of the "Merkleized bit-vector ... storage layer" is a
`Root` of 32 bytes, any other node is not. -/
inductive Node where
  | root (bytes : List Nat)
  | other
deriving DecidableEq, Repr

/-- Modelled from the spec: the type `SubtreeView` of the `tree` package, not among the
sources; the backing of a well-formed view of depth `depth` is given by its `2 ^ depth`
bottom nodes, in order. -/
structure SubtreeView where
  bottom : List Node
  depth : Nat
deriving DecidableEq, Repr

/-- Modelled from the spec: the method `SubtreeView.Get`, the bottom node at the position
`i`, an error when there is no such position. -/
def SubtreeView.Get (sv : SubtreeView) (i : Nat) : Except Error Node :=
  match sv.bottom[i]? with
  | some node => .ok node
  | none => .error (.subtree i)

/-- Modelled from the spec: the method `SubtreeView.Set`, which puts a node at the position
`i` of the bottom nodes, and fails, changing nothing, when there is no such position. -/
def SubtreeView.Set (sv : SubtreeView) (i : Nat) (node : Node) : Except Error SubtreeView :=
  if i < sv.bottom.length then .ok { sv with bottom := sv.bottom.set i node }
  else .error (.subtree i)

structure BitVectorType where
  BitLength : Nat
deriving DecidableEq, Repr

structure BitVectorView where
  SubtreeView : SubtreeView
  BitVectorType : BitVectorType
deriving DecidableEq, Repr

/-- The method `BitVectorView.Get` (bitfields.go, 45-59). -/
def BitVectorView.Get (cv : BitVectorView) (i : Nat) : Except Error Bool :=
  if i ≥ cv.BitVectorType.BitLength then
    .error (.getIndex cv.BitVectorType.BitLength i)
  else
    match cv.SubtreeView.Get (i >>> 8) with
    | .error err => .error err
    | .ok v =>
      match v with
      | .other => .error (.notRoot i)
      | .root r => .ok (decide (((r.getD ((i &&& 0xff) >>> 3) 0) >>> (i &&& 7)) &&& 1 = 1))

/-- The method `BitVectorView.Set` (bitfields.go, 61-82): the view after a call that returns
`nil`. The only write is the last call, `cv.SubtreeView.Set(i, &newRoot)`. -/
def BitVectorView.Set (cv : BitVectorView) (i : Nat) (value : Bool) :
    Except Error BitVectorView :=
  if i ≥ cv.BitVectorType.BitLength then
    .error (.setIndex i cv.BitVectorType.BitLength)
  else
    match cv.SubtreeView.Get (i >>> 8) with
    | .error err => .error err
    | .ok v =>
      match v with
      | .other => .error (.notRoot i)
      | .root r =>
        -- copy the old root, do not mutate the immutable.
        let newRoot :=
          if value then
            r.set ((i &&& 0xff) >>> 3)
              ((r.getD ((i &&& 0xff) >>> 3) 0 ||| (1 <<< (i &&& 7))) % 2 ^ 8)
          else
            r.set ((i &&& 0xff) >>> 3)
              (r.getD ((i &&& 0xff) >>> 3) 0 &&& (0xff ^^^ ((1 <<< (i &&& 7)) % 2 ^ 8)))
        match cv.SubtreeView.Set i (.root newRoot) with
        | .error err => .error err
        | .ok sv => .ok { cv with SubtreeView := sv }

/-- A view of 512 bits, all zero: two bottom nodes of 32 zero bytes. -/
def zeroView512 : BitVectorView where
  SubtreeView :=
    { bottom := [.root (List.replicate 32 0), .root (List.replicate 32 0)], depth := 1 }
  BitVectorType := { BitLength := 512 }

end Views

namespace Phase0

/-- The two sequences of the first ledger are as long as those of the second. -/
def sameLengths (d1 d : Deltas) : Prop :=
  d1.Rewards.length = d.Rewards.length ∧ d1.Penalties.length = d.Penalties.length

/-- Four validators as in `rewardsProcess`, none of which names the validator 0 as the
proposer that included its attestation, except one that did not attest. -/
def neutralProcess : EpochProcess where
  Statuses := [statusOf 199 1, statusOf 195 2, statusOf 128 0, statusOf 65 2]
  TotalActiveStake := 128000000000
  PrevEpochUnslashedStake :=
    { SourceStake := 96000000000, TargetStake := 64000000000, HeadStake := 32000000000 }

end Phase0

/-! ## Theorems -/

namespace Beacon

theorem foldl_collect (p : Nat → Bool) (g : Nat → Nat) (l : List Nat) (acc : List Nat) :
    l.foldl (fun participants i => if p i then participants ++ [g i] else participants) acc
      = acc ++ (l.filter p).map g := by
  induction l generalizing acc with
  | nil => simp
  | cons a l ih =>
    simp only [List.foldl_cons, ih, List.filter_cons]
    by_cases h : p a <;> simp [h]

theorem collectParticipants_eq (bits : BitList) (committee : List ValidatorIndex) (n : Nat) :
    collectParticipants bits committee n
      = ((List.range n).filter bits.GetBit).map (fun i => committee.getD i 0) := by
  unfold collectParticipants
  rw [foldl_collect bits.GetBit (fun i => committee.getD i 0)]
  simp

theorem mem_collectParticipants (bits : BitList) (committee : List ValidatorIndex) (v : Nat) :
    v ∈ collectParticipants bits committee committee.length
      ↔ ∃ i, ∃ h : i < committee.length, bits.GetBit i = true ∧ committee[i] = v := by
  rw [collectParticipants_eq]
  simp only [List.mem_map, List.mem_filter, List.mem_range]
  constructor
  · rintro ⟨i, ⟨hi, hb⟩, rfl⟩
    exact ⟨i, hi, hb, (List.getD_eq_getElem _ _ hi).symm⟩
  · rintro ⟨i, hi, hb, rfl⟩
    exact ⟨i, ⟨hi, hb⟩, List.getD_eq_getElem _ _ hi⟩

theorem nodup_collectParticipants (bits : BitList) (committee : List ValidatorIndex)
    (hnd : committee.Nodup) :
    (collectParticipants bits committee committee.length).Nodup := by
  rw [collectParticipants_eq]
  apply List.Nodup.map_on
  · intro x hx y hy hxy
    simp only [List.mem_filter, List.mem_range] at hx hy
    rw [List.getD_eq_getElem _ _ hx.1, List.getD_eq_getElem _ _ hy.1] at hxy
    exact (List.Nodup.getElem_inj_iff hnd).1 hxy
  · exact (List.nodup_range _).filter _

theorem sortSlice_sorted_lt (l : List Nat) (h : l.Nodup) :
    (sortSlice l).Sorted (fun a b => a < b) := by
  have hs : (sortSlice l).Sorted (fun a b => a ≤ b) := List.sorted_insertionSort _ l
  have hn : (sortSlice l).Nodup := (List.perm_insertionSort _ l).nodup_iff.2 h
  exact hs.lt_of_le hn

theorem mem_sortSlice (l : List Nat) (v : Nat) : v ∈ sortSlice l ↔ v ∈ l :=
  List.mem_insertionSort _

theorem ConvertToIndexed_eq_ok (attestation : Attestation) (committee : List ValidatorIndex)
    (hlen : attestation.AggregationBits.Bits.BitLen = committee.length) :
    ConvertToIndexed attestation committee = .ok {
      AttestingIndices := {
        Indices := sortSlice
          (collectParticipants attestation.AggregationBits.Bits committee committee.length)
        Limit := attestation.AggregationBits.BitLimit }
      Data := attestation.Data
      Signature := attestation.Signature } := by
  simp [ConvertToIndexed, hlen]

theorem ConvertToIndexed_eq_error (attestation : Attestation) (committee : List ValidatorIndex)
    (hlen : attestation.AggregationBits.Bits.BitLen ≠ committee.length) :
    ConvertToIndexed attestation committee
      = .error (.committeeSizeMismatch committee.length attestation.AggregationBits.Bits.BitLen) := by
  simp [ConvertToIndexed, Ne.symm hlen]

/-- C1: for every committee of pairwise distinct validator indices and every aggregation
bitfield whose bit length equals the committee size, `ConvertToIndexed` succeeds, its
`AttestingIndices` are strictly ascending, and they contain a validator index `v` exactly when
`v = committee[i]` for some position `i` whose bit is set. -/
theorem ConvertToIndexed_ascending_members (attestation : Attestation)
    (committee : List ValidatorIndex) (hnd : committee.Nodup)
    (hlen : attestation.AggregationBits.Bits.BitLen = committee.length) :
    ∃ indexed, ConvertToIndexed attestation committee = .ok indexed ∧
      indexed.AttestingIndices.Indices.Sorted (fun a b => a < b) ∧
      ∀ v, v ∈ indexed.AttestingIndices.Indices ↔
        ∃ i, ∃ h : i < committee.length,
          attestation.AggregationBits.Bits.GetBit i = true ∧ committee[i] = v := by
  refine ⟨_, ConvertToIndexed_eq_ok attestation committee hlen, ?_, ?_⟩
  · exact sortSlice_sorted_lt _ (nodup_collectParticipants _ _ hnd)
  · intro v
    exact (mem_sortSlice _ v).trans (mem_collectParticipants _ _ v)

theorem ConvertToIndexed_ascending_members_witness :
    ∃ indexed,
      ConvertToIndexed
          { AggregationBits := { Bits := { bits := [true, false, true, true] }, BitLimit := 2048 }
            Data := { Slot := 9, Index := 0, BeaconBlockRoot := 7,
                      Source := { Epoch := 0, Root := 1 }, Target := { Epoch := 1, Root := 2 } }
            Signature := 0 }
          [40, 12, 7, 25] = .ok indexed ∧
      indexed.AttestingIndices.Indices.Sorted (fun a b => a < b) ∧
      ∀ v, v ∈ indexed.AttestingIndices.Indices ↔
        ∃ i, ∃ h : i < [40, 12, 7, 25].length,
          (BitList.mk [true, false, true, true]).GetBit i = true ∧ [40, 12, 7, 25][i] = v :=
  ConvertToIndexed_ascending_members _ [40, 12, 7, 25] (by decide) (by decide)

/-- C2: for every committee of pairwise distinct validator indices and every aggregation
bitfield of matching bit length, the bitfield re-derived from the output of `ConvertToIndexed`
(bit `i` set exactly when `committee[i]` is among `AttestingIndices`) is the original
aggregation bitfield. -/
theorem ConvertToIndexed_roundtrip (attestation : Attestation)
    (committee : List ValidatorIndex) (hnd : committee.Nodup)
    (hlen : attestation.AggregationBits.Bits.BitLen = committee.length) :
    ∃ indexed, ConvertToIndexed attestation committee = .ok indexed ∧
      bitfieldOfIndices committee indexed.AttestingIndices.Indices
        = attestation.AggregationBits.Bits := by
  refine ⟨_, ConvertToIndexed_eq_ok attestation committee hlen, ?_⟩
  obtain ⟨⟨⟨bits⟩, limit⟩, data, signature⟩ := attestation
  simp only [BitList.BitLen] at hlen
  simp only [bitfieldOfIndices, BitList.mk.injEq]
  apply List.ext_getElem
  · simp [hlen]
  · intro i h1 h2
    have hi : i < committee.length := by simpa using h1
    have hget : (BitList.mk bits).GetBit i = bits[i] := by
      simp only [BitList.GetBit]
      exact List.getD_eq_getElem _ _ h2
    simp only [List.getElem_map]
    rw [Bool.eq_iff_iff, decide_eq_true_iff, mem_sortSlice, mem_collectParticipants]
    constructor
    · rintro ⟨j, hj, hb, hji⟩
      have : j = i := (List.Nodup.getElem_inj_iff hnd).1 hji
      subst this
      rw [← hget]
      exact hb
    · intro hb
      exact ⟨i, hi, hget.trans hb, rfl⟩

theorem ConvertToIndexed_roundtrip_witness :
    ∃ indexed,
      ConvertToIndexed
          { AggregationBits := { Bits := { bits := [false, true, true, false, true] }, BitLimit := 2048 }
            Data := { Slot := 9, Index := 0, BeaconBlockRoot := 7,
                      Source := { Epoch := 0, Root := 1 }, Target := { Epoch := 1, Root := 2 } }
            Signature := 0 }
          [31, 4, 15, 9, 2] = .ok indexed ∧
      bitfieldOfIndices [31, 4, 15, 9, 2] indexed.AttestingIndices.Indices
        = { bits := [false, true, true, false, true] } :=
  ConvertToIndexed_roundtrip _ [31, 4, 15, 9, 2] (by decide) (by decide)

/-- C3: `ConvertToIndexed` returns an error exactly when the bit length of the aggregation
bitfield differs from `len(committee)`, and returns an indexed attestation exactly when the two
are equal. -/
theorem ConvertToIndexed_error_iff (attestation : Attestation)
    (committee : List ValidatorIndex) :
    ((∃ err, ConvertToIndexed attestation committee = .error err)
        ↔ attestation.AggregationBits.Bits.BitLen ≠ committee.length) ∧
    ((∃ indexed, ConvertToIndexed attestation committee = .ok indexed)
        ↔ attestation.AggregationBits.Bits.BitLen = committee.length) := by
  by_cases hlen : attestation.AggregationBits.Bits.BitLen = committee.length
  · rw [ConvertToIndexed_eq_ok attestation committee hlen]
    simp [hlen]
  · rw [ConvertToIndexed_eq_error attestation committee hlen]
    simp [hlen]

/-- Every call of `ProcessAttestation` either returns an error with the state of entry, or
passes every check and appends to one of the two sequences. -/
theorem ProcessAttestation_cases (spec : Spec) (state : BeaconStateView)
    (epc : EpochsContext) (attestation : Attestation) :
    (∃ err, ProcessAttestation spec state epc attestation = (state, some err)) ∨
    (state.Slot ≤ u64 (attestation.Data.Slot + spec.SLOTS_PER_EPOCH) ∧
      u64 (attestation.Data.Slot + spec.MIN_ATTESTATION_INCLUSION_DELAY) ≤ state.Slot ∧
      spec.Previous (spec.SlotToEpoch state.Slot) ≤ attestation.Data.Target.Epoch ∧
      attestation.Data.Target.Epoch ≤ spec.SlotToEpoch state.Slot ∧
      attestation.Data.Target.Epoch = spec.SlotToEpoch attestation.Data.Slot ∧
      (∃ commCount, epc.GetCommitteeCountAtSlot attestation.Data.Slot = .ok commCount ∧
        attestation.Data.Index < commCount) ∧
      (attestation.Data.Target.Epoch = spec.SlotToEpoch state.Slot →
        attestation.Data.Source = state.CurrentJustifiedCheckpoint) ∧
      (attestation.Data.Target.Epoch ≠ spec.SlotToEpoch state.Slot →
        attestation.Data.Source = state.PreviousJustifiedCheckpoint) ∧
      ∃ committee indexedAtt proposerIndex atts,
        epc.GetBeaconCommittee attestation.Data.Slot attestation.Data.Index = .ok committee ∧
        ConvertToIndexed attestation committee = .ok indexedAtt ∧
        spec.ValidateIndexedAttestation epc state indexedAtt = none ∧
        epc.GetBeaconProposer state.Slot = .ok proposerIndex ∧
        ((attestation.Data.Target.Epoch = spec.SlotToEpoch state.Slot ∧
            state.CurrentEpochAttestations.Append
              { Data := attestation.Data, AggregationBits := attestation.AggregationBits,
                InclusionDelay := subU64 state.Slot attestation.Data.Slot,
                ProposerIndex := proposerIndex } = .ok atts ∧
            ProcessAttestation spec state epc attestation
              = ({ state with CurrentEpochAttestations := atts }, none)) ∨
         (attestation.Data.Target.Epoch ≠ spec.SlotToEpoch state.Slot ∧
            state.PreviousEpochAttestations.Append
              { Data := attestation.Data, AggregationBits := attestation.AggregationBits,
                InclusionDelay := subU64 state.Slot attestation.Data.Slot,
                ProposerIndex := proposerIndex } = .ok atts ∧
            ProcessAttestation spec state epc attestation
              = ({ state with PreviousEpochAttestations := atts }, none)))) := by
  unfold ProcessAttestation
  simp only []
  by_cases h1 : state.Slot ≤ u64 (attestation.Data.Slot + spec.SLOTS_PER_EPOCH)
  swap
  · left; rw [if_pos h1]; exact ⟨_, rfl⟩
  rw [if_neg (not_not.2 h1)]
  by_cases h2 : u64 (attestation.Data.Slot + spec.MIN_ATTESTATION_INCLUSION_DELAY) ≤ state.Slot
  swap
  · left; rw [if_pos h2]; exact ⟨_, rfl⟩
  rw [if_neg (not_not.2 h2)]
  by_cases h3 : attestation.Data.Target.Epoch < spec.Previous (spec.SlotToEpoch state.Slot)
  · left; rw [if_pos h3]; exact ⟨_, rfl⟩
  rw [if_neg h3]
  by_cases h4 : attestation.Data.Target.Epoch > spec.SlotToEpoch state.Slot
  · left; rw [if_pos h4]; exact ⟨_, rfl⟩
  rw [if_neg h4]
  by_cases h5 : attestation.Data.Target.Epoch ≠ spec.SlotToEpoch attestation.Data.Slot
  · left; rw [if_pos h5]; exact ⟨_, rfl⟩
  rw [if_neg h5]
  cases hcc : epc.GetCommitteeCountAtSlot attestation.Data.Slot with
  | error err => left; exact ⟨_, rfl⟩
  | ok commCount =>
  simp only []
  by_cases h6 : attestation.Data.Index ≥ commCount
  · left; rw [if_pos h6]; exact ⟨_, rfl⟩
  rw [if_neg h6]
  by_cases h7 : attestation.Data.Target.Epoch = spec.SlotToEpoch state.Slot ∧
      attestation.Data.Source ≠ state.CurrentJustifiedCheckpoint
  · left; rw [if_pos h7]; exact ⟨_, rfl⟩
  rw [if_neg h7]
  by_cases h8 : attestation.Data.Target.Epoch ≠ spec.SlotToEpoch state.Slot ∧
      attestation.Data.Source ≠ state.PreviousJustifiedCheckpoint
  · left; rw [if_pos h8]; exact ⟨_, rfl⟩
  rw [if_neg h8]
  cases hbc : epc.GetBeaconCommittee attestation.Data.Slot attestation.Data.Index with
  | error err => left; exact ⟨_, rfl⟩
  | ok committee =>
  simp only []
  cases hci : ConvertToIndexed attestation committee with
  | error err => left; exact ⟨_, rfl⟩
  | ok indexedAtt =>
  simp only []
  cases hv : spec.ValidateIndexedAttestation epc state indexedAtt with
  | some err => left; exact ⟨_, rfl⟩
  | none =>
  simp only []
  cases hp : epc.GetBeaconProposer state.Slot with
  | error err => left; exact ⟨_, rfl⟩
  | ok proposerIndex =>
  simp only []
  have b1 := h1
  have b2 := h2
  have b3 := not_lt.1 h3
  have b4 := not_lt.1 h4
  have b5 := not_not.1 h5
  have b6 : ∃ c, (Except.ok commCount : Except Error Nat) = .ok c ∧ attestation.Data.Index < c :=
    ⟨commCount, rfl, not_le.1 h6⟩
  have b7 : attestation.Data.Target.Epoch = spec.SlotToEpoch state.Slot →
      attestation.Data.Source = state.CurrentJustifiedCheckpoint :=
    fun h => by_contra fun hne => h7 ⟨h, hne⟩
  have b8 : attestation.Data.Target.Epoch ≠ spec.SlotToEpoch state.Slot →
      attestation.Data.Source = state.PreviousJustifiedCheckpoint :=
    fun h => by_contra fun hne => h8 ⟨h, hne⟩
  by_cases h9 : attestation.Data.Target.Epoch = spec.SlotToEpoch state.Slot
  · rw [if_pos h9]
    cases hap : state.CurrentEpochAttestations.Append
        { Data := attestation.Data, AggregationBits := attestation.AggregationBits,
          InclusionDelay := subU64 state.Slot attestation.Data.Slot,
          ProposerIndex := proposerIndex } with
    | error err => left; exact ⟨_, rfl⟩
    | ok atts =>
      right
      exact ⟨b1, b2, b3, b4, b5, b6, b7, b8, committee, indexedAtt, proposerIndex, atts,
        rfl, hci, hv, rfl, Or.inl ⟨h9, hap, rfl⟩⟩
  · rw [if_neg h9]
    cases hap : state.PreviousEpochAttestations.Append
        { Data := attestation.Data, AggregationBits := attestation.AggregationBits,
          InclusionDelay := subU64 state.Slot attestation.Data.Slot,
          ProposerIndex := proposerIndex } with
    | error err => left; exact ⟨_, rfl⟩
    | ok atts =>
      right
      exact ⟨b1, b2, b3, b4, b5, b6, b7, b8, committee, indexedAtt, proposerIndex, atts,
        rfl, hci, hv, rfl, Or.inr ⟨h9, hap, rfl⟩⟩

theorem subU64_eq_sub (a b : Nat) (hle : b ≤ a) (hlt : a < 2 ^ 64) : subU64 a b = a - b := by
  unfold subU64
  omega

theorem Append_eq_ok (atts atts1 : PendingAttestations) (v : PendingAttestation)
    (h : atts.Append v = .ok atts1) :
    atts1 = { atts with Items := atts.Items ++ [v] } := by
  unfold PendingAttestations.Append at h
  split at h
  · cases h
  · cases h; rfl

theorem ProcessAttestation_error_state (spec : Spec) (state : BeaconStateView)
    (epc : EpochsContext) (attestation : Attestation) (err : Error)
    (herr : (ProcessAttestation spec state epc attestation).2 = some err) :
    (ProcessAttestation spec state epc attestation).1 = state := by
  rcases ProcessAttestation_cases spec state epc attestation with
    ⟨e, he⟩ | ⟨-, -, -, -, -, -, -, -, _, _, _, _, -, -, -, -, ⟨-, -, hr⟩ | ⟨-, -, hr⟩⟩
  · rw [he]
  · rw [hr] at herr; cases herr
  · rw [hr] at herr; cases herr

/-- C4: if `ProcessAttestation` returns without error, then on entry
`currentSlot <= data.Slot + SLOTS_PER_EPOCH` and
`data.Slot + MIN_ATTESTATION_INCLUSION_DELAY <= currentSlot` (the sums being the `uint64` sums
of the code, equal to the exact sums when these are below `2^64`),
`previousEpoch <= data.Target.Epoch <= currentEpoch`, `data.Target.Epoch` is the epoch of
`data.Slot`, `data.Index` is below the committee count at `data.Slot`, and `data.Source` is the
current-justified checkpoint of the state when the target epoch is the current epoch and the
previous-justified checkpoint otherwise. -/
theorem ProcessAttestation_accepted_checks (spec : Spec) (state : BeaconStateView)
    (epc : EpochsContext) (attestation : Attestation)
    (hok : (ProcessAttestation spec state epc attestation).2 = none) :
    state.Slot ≤ u64 (attestation.Data.Slot + spec.SLOTS_PER_EPOCH) ∧
    u64 (attestation.Data.Slot + spec.MIN_ATTESTATION_INCLUSION_DELAY) ≤ state.Slot ∧
    (attestation.Data.Slot + spec.SLOTS_PER_EPOCH < 2 ^ 64 →
      state.Slot ≤ attestation.Data.Slot + spec.SLOTS_PER_EPOCH) ∧
    (attestation.Data.Slot + spec.MIN_ATTESTATION_INCLUSION_DELAY < 2 ^ 64 →
      attestation.Data.Slot + spec.MIN_ATTESTATION_INCLUSION_DELAY ≤ state.Slot) ∧
    spec.Previous (spec.SlotToEpoch state.Slot) ≤ attestation.Data.Target.Epoch ∧
    attestation.Data.Target.Epoch ≤ spec.SlotToEpoch state.Slot ∧
    attestation.Data.Target.Epoch = spec.SlotToEpoch attestation.Data.Slot ∧
    (∃ commCount, epc.GetCommitteeCountAtSlot attestation.Data.Slot = .ok commCount ∧
      attestation.Data.Index < commCount) ∧
    attestation.Data.Source =
      (if attestation.Data.Target.Epoch = spec.SlotToEpoch state.Slot
        then state.CurrentJustifiedCheckpoint else state.PreviousJustifiedCheckpoint) := by
  rcases ProcessAttestation_cases spec state epc attestation with
    ⟨e, he⟩ | ⟨b1, b2, b3, b4, b5, b6, b7, b8, -⟩
  · rw [he] at hok; cases hok
  · refine ⟨b1, b2, ?_, ?_, b3, b4, b5, b6, ?_⟩
    · intro h
      rwa [u64, Nat.mod_eq_of_lt h] at b1
    · intro h
      rwa [u64, Nat.mod_eq_of_lt h] at b2
    · by_cases h : attestation.Data.Target.Epoch = spec.SlotToEpoch state.Slot
      · rw [if_pos h]; exact b7 h
      · rw [if_neg h]; exact b8 h

theorem ProcessAttestation_accepted_checks_witness :
    (ProcessAttestation sampleSpec sampleState sampleEpc sampleAttestation).2 = none ∧
    sampleState.Slot ≤ u64 (sampleAttestation.Data.Slot + sampleSpec.SLOTS_PER_EPOCH) ∧
    u64 (sampleAttestation.Data.Slot + sampleSpec.MIN_ATTESTATION_INCLUSION_DELAY)
      ≤ sampleState.Slot :=
  ⟨rfl,
    (ProcessAttestation_accepted_checks sampleSpec sampleState sampleEpc sampleAttestation rfl).1,
    (ProcessAttestation_accepted_checks sampleSpec sampleState sampleEpc sampleAttestation rfl).2.1⟩

/-- C5: when `ProcessAttestation` succeeds, the state after the call is the state of entry with
exactly one `PendingAttestation` (`Data` the data of the attestation, `AggregationBits` its
bits, `InclusionDelay = currentSlot - data.Slot`, `ProposerIndex` the proposer of the current
slot) put at the end of `CurrentEpochAttestations` if `data.Target.Epoch == currentEpoch` and
at the end of `PreviousEpochAttestations` otherwise; the other sequence and every other field
of the state are those of entry. The difference is the `uint64` difference of the code, which
is the exact one when `data.Slot <= currentSlot < 2^64`. -/
theorem ProcessAttestation_appends_one (spec : Spec) (state : BeaconStateView)
    (epc : EpochsContext) (attestation : Attestation)
    (hok : (ProcessAttestation spec state epc attestation).2 = none) :
    ∃ proposerIndex pending,
      epc.GetBeaconProposer state.Slot = .ok proposerIndex ∧
      pending = ({ Data := attestation.Data, AggregationBits := attestation.AggregationBits,
                   InclusionDelay := subU64 state.Slot attestation.Data.Slot,
                   ProposerIndex := proposerIndex } : PendingAttestation) ∧
      (attestation.Data.Slot ≤ state.Slot → state.Slot < 2 ^ 64 →
        pending.InclusionDelay = state.Slot - attestation.Data.Slot) ∧
      (ProcessAttestation spec state epc attestation).1 =
        (if attestation.Data.Target.Epoch = spec.SlotToEpoch state.Slot then
          { state with
            CurrentEpochAttestations :=
              { state.CurrentEpochAttestations with
                Items := state.CurrentEpochAttestations.Items ++ [pending] } }
        else
          { state with
            PreviousEpochAttestations :=
              { state.PreviousEpochAttestations with
                Items := state.PreviousEpochAttestations.Items ++ [pending] } }) := by
  rcases ProcessAttestation_cases spec state epc attestation with
    ⟨e, he⟩ | ⟨-, -, -, -, -, -, -, -, committee, indexedAtt, proposerIndex, atts, -, -, -, hp,
      ⟨h9, hap, hr⟩ | ⟨h9, hap, hr⟩⟩
  · rw [he] at hok; cases hok
  · refine ⟨proposerIndex, _, hp, rfl, ?_, ?_⟩
    · intro hle hlt
      exact subU64_eq_sub _ _ hle hlt
    · rw [hr, if_pos h9, Append_eq_ok _ _ _ hap]
  · refine ⟨proposerIndex, _, hp, rfl, ?_, ?_⟩
    · intro hle hlt
      exact subU64_eq_sub _ _ hle hlt
    · rw [hr, if_neg h9, Append_eq_ok _ _ _ hap]

theorem ProcessAttestation_appends_one_witness :
    (ProcessAttestation sampleSpec sampleState sampleEpc sampleAttestation).2 = none ∧
    ∃ proposerIndex pending,
      sampleEpc.GetBeaconProposer sampleState.Slot = .ok proposerIndex ∧
      pending = ({ Data := sampleAttestation.Data,
                   AggregationBits := sampleAttestation.AggregationBits,
                   InclusionDelay := subU64 sampleState.Slot sampleAttestation.Data.Slot,
                   ProposerIndex := proposerIndex } : PendingAttestation) ∧
      (sampleAttestation.Data.Slot ≤ sampleState.Slot → sampleState.Slot < 2 ^ 64 →
        pending.InclusionDelay = sampleState.Slot - sampleAttestation.Data.Slot) ∧
      (ProcessAttestation sampleSpec sampleState sampleEpc sampleAttestation).1 =
        (if sampleAttestation.Data.Target.Epoch = sampleSpec.SlotToEpoch sampleState.Slot then
          { sampleState with
            CurrentEpochAttestations :=
              { sampleState.CurrentEpochAttestations with
                Items := sampleState.CurrentEpochAttestations.Items ++ [pending] } }
        else
          { sampleState with
            PreviousEpochAttestations :=
              { sampleState.PreviousEpochAttestations with
                Items := sampleState.PreviousEpochAttestations.Items ++ [pending] } }) :=
  ⟨rfl, ProcessAttestation_appends_one sampleSpec sampleState sampleEpc sampleAttestation rfl⟩

theorem ProcessAttestation_too_old (spec : Spec) (state : BeaconStateView)
    (epc : EpochsContext) (attestation : Attestation)
    (h : ¬ state.Slot ≤ u64 (attestation.Data.Slot + spec.SLOTS_PER_EPOCH)) :
    ProcessAttestation spec state epc attestation
      = (state, some (.new "attestation slot is too old")) := by
  unfold ProcessAttestation
  simp only []
  rw [if_pos h]

/-- C6: whenever `ProcessAttestation` returns an error, the state after the call is the state
of entry; in particular an attestation with `data.Slot + SLOTS_PER_EPOCH < currentSlot` (the
slot of the state being a `uint64`) is rejected with the reason "attestation slot is too old"
and neither pending-attestation sequence changes. -/
theorem ProcessAttestation_error_leaves_state (spec : Spec) (state : BeaconStateView)
    (epc : EpochsContext) (attestation : Attestation) :
    (∀ err, (ProcessAttestation spec state epc attestation).2 = some err →
      (ProcessAttestation spec state epc attestation).1 = state) ∧
    (state.Slot < 2 ^ 64 → attestation.Data.Slot + spec.SLOTS_PER_EPOCH < state.Slot →
      (ProcessAttestation spec state epc attestation).2
          = some (.new "attestation slot is too old") ∧
      (ProcessAttestation spec state epc attestation).1 = state ∧
      (ProcessAttestation spec state epc attestation).1.CurrentEpochAttestations
          = state.CurrentEpochAttestations ∧
      (ProcessAttestation spec state epc attestation).1.PreviousEpochAttestations
          = state.PreviousEpochAttestations) := by
  refine ⟨fun err herr => ProcessAttestation_error_state spec state epc attestation err herr, ?_⟩
  intro hslot hold
  have hlt : attestation.Data.Slot + spec.SLOTS_PER_EPOCH < 2 ^ 64 := lt_trans hold hslot
  have h : ¬ state.Slot ≤ u64 (attestation.Data.Slot + spec.SLOTS_PER_EPOCH) := by
    rw [u64, Nat.mod_eq_of_lt hlt]
    exact not_le.2 hold
  rw [ProcessAttestation_too_old spec state epc attestation h]
  exact ⟨rfl, rfl, rfl, rfl⟩

theorem ProcessAttestation_error_leaves_state_witness :
    (ProcessAttestation sampleSpec sampleState sampleEpc oldAttestation).2
        = some (.new "attestation slot is too old") ∧
    (ProcessAttestation sampleSpec sampleState sampleEpc oldAttestation).1 = sampleState ∧
    (ProcessAttestation sampleSpec sampleState sampleEpc shortAttestation).1 = sampleState :=
  ⟨((ProcessAttestation_error_leaves_state sampleSpec sampleState sampleEpc oldAttestation).2
      (by decide) (by decide)).1,
    ((ProcessAttestation_error_leaves_state sampleSpec sampleState sampleEpc oldAttestation).2
      (by decide) (by decide)).2.1,
    (ProcessAttestation_error_leaves_state sampleSpec sampleState sampleEpc shortAttestation).1
      _ rfl⟩

/-- C7: for every state and attestation that pass the slot, target, committee-index and source
checks and whose aggregation bit length differs from the size of the assigned committee,
`ProcessAttestation` returns the conversion error and leaves the state as it was, and it does
so before any signature check: the result is the same for every
`ValidateIndexedAttestation`. -/
theorem ProcessAttestation_length_mismatch (spec : Spec) (state : BeaconStateView)
    (epc : EpochsContext) (attestation : Attestation)
    (commCount : Nat) (committee : List ValidatorIndex)
    (validate : EpochsContext → BeaconStateView → IndexedAttestation → Option Error)
    (h1 : state.Slot ≤ u64 (attestation.Data.Slot + spec.SLOTS_PER_EPOCH))
    (h2 : u64 (attestation.Data.Slot + spec.MIN_ATTESTATION_INCLUSION_DELAY) ≤ state.Slot)
    (h3 : spec.Previous (spec.SlotToEpoch state.Slot) ≤ attestation.Data.Target.Epoch)
    (h4 : attestation.Data.Target.Epoch ≤ spec.SlotToEpoch state.Slot)
    (h5 : attestation.Data.Target.Epoch = spec.SlotToEpoch attestation.Data.Slot)
    (hcc : epc.GetCommitteeCountAtSlot attestation.Data.Slot = .ok commCount)
    (h6 : attestation.Data.Index < commCount)
    (h7 : attestation.Data.Source =
      (if attestation.Data.Target.Epoch = spec.SlotToEpoch state.Slot
        then state.CurrentJustifiedCheckpoint else state.PreviousJustifiedCheckpoint))
    (hbc : epc.GetBeaconCommittee attestation.Data.Slot attestation.Data.Index = .ok committee)
    (hlen : attestation.AggregationBits.Bits.BitLen ≠ committee.length) :
    ProcessAttestation spec state epc attestation
      = (state, some (.wrapped "attestation could not be converted to an indexed attestation"
          (.committeeSizeMismatch committee.length attestation.AggregationBits.Bits.BitLen))) ∧
    ProcessAttestation { spec with ValidateIndexedAttestation := validate } state epc attestation
      = ProcessAttestation spec state epc attestation := by
  have key : ∀ v : EpochsContext → BeaconStateView → IndexedAttestation → Option Error,
      ProcessAttestation { spec with ValidateIndexedAttestation := v } state epc attestation
        = (state, some (.wrapped "attestation could not be converted to an indexed attestation"
          (.committeeSizeMismatch committee.length
            attestation.AggregationBits.Bits.BitLen))) := by
    intro v
    unfold ProcessAttestation
    simp only []
    rw [if_neg (not_not.2 h1), if_neg (not_not.2 h2), if_neg (not_lt.2 h3),
      if_neg (not_lt.2 h4), if_neg (not_not.2 h5), hcc]
    simp only []
    rw [if_neg (not_le.2 h6)]
    by_cases h9 : attestation.Data.Target.Epoch = spec.SlotToEpoch state.Slot
    · rw [if_pos h9] at h7
      rw [if_neg (fun h => h.2 h7), if_neg (fun h => h.1 h9), hbc]
      simp only []
      rw [ConvertToIndexed_eq_error attestation committee hlen]
    · rw [if_neg h9] at h7
      rw [if_neg (fun h => h9 h.1), if_neg (fun h => h.2 h7), hbc]
      simp only []
      rw [ConvertToIndexed_eq_error attestation committee hlen]
  have hself := key spec.ValidateIndexedAttestation
  exact ⟨hself, (key validate).trans hself.symm⟩

theorem ProcessAttestation_length_mismatch_witness :
    shortAttestation.AggregationBits.Bits.BitLen ≠ [3, 1, 2, 0].length ∧
    ProcessAttestation sampleSpec sampleState sampleEpc shortAttestation
      = (sampleState,
          some (.wrapped "attestation could not be converted to an indexed attestation"
            (.committeeSizeMismatch 4 3))) ∧
    ProcessAttestation
        { sampleSpec with ValidateIndexedAttestation := fun _ _ _ => some (.collaborator 1) }
        sampleState sampleEpc shortAttestation
      = ProcessAttestation sampleSpec sampleState sampleEpc shortAttestation :=
  ⟨by decide,
    ProcessAttestation_length_mismatch sampleSpec sampleState sampleEpc shortAttestation
      1 [3, 1, 2, 0] (fun _ _ _ => some (.collaborator 1))
      (by decide) (by decide) (by decide) (by decide) (by decide) rfl (by decide) (by decide)
      rfl (by decide)⟩

theorem ProcessAttestationsFrom_all (ctxDone : Nat → Bool) (hctx : ∀ i, ctxDone i = false)
    (spec : Spec) (epc : EpochsContext) (ops : List Attestation) :
    ∀ (i : Nat) (state stateAll : BeaconStateView),
      applyInOrder spec epc state ops = some stateAll →
      ProcessAttestationsFrom ctxDone spec epc i state ops = (stateAll, none) := by
  induction ops with
  | nil =>
    intro i state stateAll h
    simp only [applyInOrder, Option.some.injEq] at h
    simp [ProcessAttestationsFrom, h]
  | cons op ops ih =>
    intro i state stateAll h
    cases hpa : ProcessAttestation spec state epc op with
    | mk state1 e =>
      cases e with
      | some err => simp [applyInOrder, hpa] at h
      | none =>
        simp only [applyInOrder, hpa] at h
        simp only [ProcessAttestationsFrom, hctx, hpa]
        exact ih (i + 1) state1 stateAll h

theorem ProcessAttestationsFrom_first_rejected (ctxDone : Nat → Bool)
    (hctx : ∀ i, ctxDone i = false) (spec : Spec) (epc : EpochsContext)
    (before : List Attestation) (op : Attestation) (after : List Attestation) :
    ∀ (i : Nat) (state stateBefore : BeaconStateView) (err : Error),
      applyInOrder spec epc state before = some stateBefore →
      (ProcessAttestation spec stateBefore epc op).2 = some err →
      ProcessAttestationsFrom ctxDone spec epc i state (before ++ op :: after)
        = (stateBefore, some err) := by
  induction before with
  | nil =>
    intro i state stateBefore err h herr
    simp only [applyInOrder, Option.some.injEq] at h
    subst h
    have hst := ProcessAttestation_error_state spec state epc op err herr
    cases hpa : ProcessAttestation spec state epc op with
    | mk state1 e =>
      rw [hpa] at herr hst
      simp only at herr hst
      subst herr
      subst hst
      simp [ProcessAttestationsFrom, hctx, hpa]
  | cons b before ih =>
    intro i state stateBefore err h herr
    cases hpa : ProcessAttestation spec state epc b with
    | mk state1 e =>
      cases e with
      | some err1 => simp [applyInOrder, hpa] at h
      | none =>
        simp only [applyInOrder, hpa] at h
        simp only [List.cons_append, ProcessAttestationsFrom, hctx, hpa]
        exact ih (i + 1) state1 stateBefore err h herr

theorem applyInOrder_total (spec : Spec) (epc : EpochsContext) (ops : List Attestation) :
    ∀ state : BeaconStateView,
      (∃ stateAll, applyInOrder spec epc state ops = some stateAll) ∨
      (∃ before op after stateBefore err, ops = before ++ op :: after ∧
        applyInOrder spec epc state before = some stateBefore ∧
        (ProcessAttestation spec stateBefore epc op).2 = some err) := by
  induction ops with
  | nil => intro state; exact Or.inl ⟨state, rfl⟩
  | cons op ops ih =>
    intro state
    cases hpa : ProcessAttestation spec state epc op with
    | mk state1 e =>
      cases e with
      | some err =>
        right
        exact ⟨[], op, ops, state, err, rfl, rfl, by rw [hpa]⟩
      | none =>
        rcases ih state1 with ⟨stateAll, hall⟩ | ⟨before, o, after, stateBefore, err, hsplit, hb, herr⟩
        · left
          exact ⟨stateAll, by simp only [applyInOrder, hpa]; exact hall⟩
        · right
          refine ⟨op :: before, o, after, stateBefore, err, by rw [hsplit]; rfl, ?_, herr⟩
          simp only [applyInOrder, hpa]
          exact hb

/-- C8: for every batch and a context that is never cancelled, `ProcessAttestations` applies
`ProcessAttestation` to the attestations in index order and stops at the first one that is
rejected: it returns the error of that attestation and the state obtained by applying
`ProcessAttestation` to the attestations before it in order, whatever attestations come
after it; if none is rejected it returns `nil` and the state obtained by applying all of them
in order. One of the two cases arises for every batch. -/
theorem ProcessAttestations_ordered_fold (ctxDone : Nat → Bool)
    (hctx : ∀ i, ctxDone i = false) (spec : Spec) (epc : EpochsContext)
    (state : BeaconStateView) (ops : List Attestation) :
    (∀ before op after stateBefore err, ops = before ++ op :: after →
      applyInOrder spec epc state before = some stateBefore →
      (ProcessAttestation spec stateBefore epc op).2 = some err →
      ProcessAttestations ctxDone spec epc state ops = (stateBefore, some err)) ∧
    (∀ stateAll, applyInOrder spec epc state ops = some stateAll →
      ProcessAttestations ctxDone spec epc state ops = (stateAll, none)) ∧
    ((∃ stateAll, applyInOrder spec epc state ops = some stateAll) ∨
      (∃ before op after stateBefore err, ops = before ++ op :: after ∧
        applyInOrder spec epc state before = some stateBefore ∧
        (ProcessAttestation spec stateBefore epc op).2 = some err)) := by
  refine ⟨?_, ?_, applyInOrder_total spec epc ops state⟩
  · intro before op after stateBefore err hsplit hb herr
    rw [hsplit]
    exact ProcessAttestationsFrom_first_rejected ctxDone hctx spec epc before op after 0 state
      stateBefore err hb herr
  · intro stateAll hall
    exact ProcessAttestationsFrom_all ctxDone hctx spec epc ops 0 state stateAll hall

theorem ProcessAttestations_ordered_fold_witness :
    (∀ i : Nat, (fun _ => false : Nat → Bool) i = false) ∧
    ProcessAttestations (fun _ => false) sampleSpec sampleEpc sampleState
        [sampleAttestation, shortAttestation, sampleAttestation]
      = ((ProcessAttestation sampleSpec sampleState sampleEpc sampleAttestation).1,
          some (.wrapped "attestation could not be converted to an indexed attestation"
            (.committeeSizeMismatch 4 3))) ∧
    ProcessAttestations (fun _ => false) sampleSpec sampleEpc sampleState
        [sampleAttestation, sampleAttestation]
      = ((ProcessAttestation sampleSpec
            (ProcessAttestation sampleSpec sampleState sampleEpc sampleAttestation).1
            sampleEpc sampleAttestation).1, none) :=
  ⟨fun _ => rfl,
    (ProcessAttestations_ordered_fold (fun _ => false) (fun _ => rfl) sampleSpec sampleEpc
      sampleState [sampleAttestation, shortAttestation, sampleAttestation]).1
      [sampleAttestation] shortAttestation [sampleAttestation] _ _ rfl rfl rfl,
    (ProcessAttestations_ordered_fold (fun _ => false) (fun _ => rfl) sampleSpec sampleEpc
      sampleState [sampleAttestation, sampleAttestation]).2.1 _ rfl⟩

end Beacon

namespace Components

theorem setFinalized_bitfield (c : Prop) [Decidable c] (env : Env) (state : BeaconState)
    (epoch : Nat) :
    (if c then setFinalized env state epoch else state).JustificationBitfield
      = state.JustificationBitfield := by
  split <;> rfl

theorem setFinalized_currentJustified (c : Prop) [Decidable c] (env : Env)
    (state : BeaconState) (epoch : Nat) :
    (if c then setFinalized env state epoch else state).CurrentJustifiedEpoch
        = state.CurrentJustifiedEpoch ∧
    (if c then setFinalized env state epoch else state).CurrentJustifiedRoot
        = state.CurrentJustifiedRoot := by
  split <;> exact ⟨rfl, rfl⟩

theorem finalize_bitfield (env : Env) (e p c : Nat) (state : BeaconState) :
    (finalize env e p c state).JustificationBitfield = state.JustificationBitfield := by
  unfold finalize
  simp only [setFinalized_bitfield]

theorem finalize_currentJustified (env : Env) (e p c : Nat) (state : BeaconState) :
    (finalize env e p c state).CurrentJustifiedEpoch = state.CurrentJustifiedEpoch ∧
    (finalize env e p c state).CurrentJustifiedRoot = state.CurrentJustifiedRoot := by
  unfold finalize
  simp only [setFinalized_currentJustified, and_self]

theorem ProcessEpochJustification_eq (env : Env) (state : BeaconState)
    (hepoch : env.GENESIS_EPOCH + 1 < env.StateEpoch state) :
    ProcessEpochJustification env state
      = finalize env (env.StateEpoch state) state.PreviousJustifiedEpoch
          state.CurrentJustifiedEpoch (justify env state (rotate env state)) := by
  unfold ProcessEpochJustification
  simp only []
  rw [if_neg (not_le.2 hepoch)]

theorem testBit_one_or_two (b : Nat) : (b ||| (1 <<< 1)).testBit 1 = true := by
  rw [Nat.testBit_or, Bool.or_eq_true]
  right
  decide

/-- C9: in `ProcessEpochJustification` with current epoch above `GENESIS_EPOCH+1`, if the
previous-epoch boundary attesting balance `B` and the previous-epoch total active balance `T`
satisfy `B*3 == T*2` (exact products, so in particular products that do not overflow), the
previous epoch is justified: bit 1 of the justification bitfield is set after the pass and,
unless the current epoch is also justified in the same pass, the current-justified checkpoint
is (previousEpoch, previous boundary block root). -/
theorem ProcessEpochJustification_threshold_inclusive (env : Env) (state : BeaconState)
    (hepoch : env.GENESIS_EPOCH + 1 < env.StateEpoch state)
    (hthreshold : previousEpochBoundaryAttestingBalance env state * 3
      = previousTotalBalance env state * 2) :
    (ProcessEpochJustification env state).JustificationBitfield.testBit 1 = true ∧
    (¬ (u64 (currentEpochBoundaryAttestingBalance env state * 3)
          ≥ u64 (currentTotalBalance env state * 2)) →
      (ProcessEpochJustification env state).CurrentJustifiedEpoch = env.StatePreviousEpoch state ∧
      (ProcessEpochJustification env state).CurrentJustifiedRoot
        = previousBoundaryBlockRoot env state) := by
  have hprev : u64 (previousEpochBoundaryAttestingBalance env state * 3)
      ≥ u64 (previousTotalBalance env state * 2) := by
    rw [hthreshold]
  rw [ProcessEpochJustification_eq env state hepoch]
  refine ⟨?_, ?_⟩
  · rw [finalize_bitfield]
    unfold justify
    simp only []
    rw [if_pos hprev]
    split
    · show (_ ||| (1 <<< 0)).testBit 1 = true
      rw [Nat.testBit_or, Bool.or_eq_true]
      left
      exact testBit_one_or_two _
    · exact testBit_one_or_two _
  · intro hcur
    rw [(finalize_currentJustified _ _ _ _ _).1, (finalize_currentJustified _ _ _ _ _).2]
    unfold justify
    simp only []
    rw [if_pos hprev, if_neg hcur]
    exact ⟨rfl, rfl⟩

theorem ProcessEpochJustification_threshold_inclusive_witness :
    previousEpochBoundaryAttestingBalance sampleEnv thresholdState = 64 ∧
    previousTotalBalance sampleEnv thresholdState = 96 ∧
    (ProcessEpochJustification sampleEnv thresholdState).JustificationBitfield.testBit 1 = true ∧
    (ProcessEpochJustification sampleEnv thresholdState).CurrentJustifiedEpoch = 2 :=
  ⟨by decide, by decide,
    (ProcessEpochJustification_threshold_inclusive sampleEnv thresholdState
      (by decide) (by decide)).1,
    ((ProcessEpochJustification_threshold_inclusive sampleEnv thresholdState
      (by decide) (by decide)).2 (by decide)).1⟩

/-- C10: at a state of epoch 5 whose justification bitfield is `0b1000` and in which neither
epoch gets justified, the bitfield after `ProcessEpochJustification` is `0b10000`: bit 4 is
set, where the shift masked to 4 bits gives `0`. The same holds when the field is one byte
wide. -/
theorem ProcessEpochJustification_bitfield_unmasked :
    sampleEnv.GENESIS_EPOCH + 1 < sampleEnv.StateEpoch staleState ∧
    staleState.JustificationBitfield = 8 ∧
    (ProcessEpochJustification sampleEnv staleState).JustificationBitfield = 16 ∧
    (ProcessEpochJustification sampleEnv staleState).JustificationBitfield.testBit 4 = true ∧
    (ProcessEpochJustification { sampleEnv with JustificationBitfieldWidth := 8 }
      staleState).JustificationBitfield = 16 ∧
    (staleState.JustificationBitfield <<< 1) &&& 15 = 0 := by
  decide

end Components

namespace Finality

theorem testBit_shift_mask (b k : Nat) :
    (((b <<< 1) % 2 ^ 8) &&& 0x0f).testBit k
      = (decide (1 ≤ k) && decide (k < 4) && b.testBit (k - 1)) := by
  rw [Nat.testBit_and, Nat.testBit_mod_two_pow, Nat.testBit_shiftLeft,
    show (0x0f : Nat) = 2 ^ 4 - 1 by norm_num, Nat.testBit_two_pow_sub_one]
  by_cases h1 : 1 ≤ k <;> by_cases h4 : k < 4 <;> simp [h1, h4]
  omega

/-- C11: for every `JustificationBits` value, after `NextEpoch` bit 0 (the newest) is 0,
bit `k` equals bit `k-1` of the prior value for `k = 1, 2, 3`, and bits 4 to 7 of the byte
are 0. -/
theorem NextEpoch_shift_truncate (jb : JustificationBits) :
    jb.NextEpoch.byte0.testBit 0 = false ∧
    jb.NextEpoch.byte0.testBit 1 = jb.byte0.testBit 0 ∧
    jb.NextEpoch.byte0.testBit 2 = jb.byte0.testBit 1 ∧
    jb.NextEpoch.byte0.testBit 3 = jb.byte0.testBit 2 ∧
    jb.NextEpoch.byte0.testBit 4 = false ∧
    jb.NextEpoch.byte0.testBit 5 = false ∧
    jb.NextEpoch.byte0.testBit 6 = false ∧
    jb.NextEpoch.byte0.testBit 7 = false := by
  simp only [JustificationBits.NextEpoch, testBit_shift_mask]
  simp

end Finality

namespace Components

/-- C12: in the chain of four validators with unanimous participation, the justification pass
of epoch 3 starts with current-justified epoch 2 and justifies epochs 2 and 3, so that bits 0
and 1 are set after the justification step and old-current-justified + 1 is the current
epoch; the finalized epoch after the pass is still 0, not 2. -/
theorem ProcessEpochJustification_rule_D_missed :
    sampleEnv.GENESIS_EPOCH + 1 < sampleEnv.StateEpoch unanimousEpoch3 ∧
    sampleEnv.StateEpoch unanimousEpoch3 = 3 ∧
    unanimousEpoch3.CurrentJustifiedEpoch = 2 ∧
    unanimousEpoch3.FinalizedEpoch = 0 ∧
    (justify sampleEnv unanimousEpoch3
      (rotate sampleEnv unanimousEpoch3)).JustificationBitfield.testBit 0 = true ∧
    (justify sampleEnv unanimousEpoch3
      (rotate sampleEnv unanimousEpoch3)).JustificationBitfield.testBit 1 = true ∧
    (ProcessEpochJustification sampleEnv unanimousEpoch3).FinalizedEpoch = 0 := by
  decide

/-- C13: in the same chain, the pass of epoch 4 (no attestation of epoch 4) starts with
previous-justified epoch 2 and current-justified epoch 3; after the justification step bits 1
and 2 are set and bit 0 is not, and old-previous-justified + 2 is the current epoch; the
finalized epoch after the pass is still 0, not 2, the test of the code being made on the
rotated previous-justified epoch 3. -/
theorem ProcessEpochJustification_rule_B_missed :
    sampleEnv.GENESIS_EPOCH + 1 < sampleEnv.StateEpoch quietEpoch4 ∧
    sampleEnv.StateEpoch quietEpoch4 = 4 ∧
    quietEpoch4.PreviousJustifiedEpoch = 2 ∧
    quietEpoch4.CurrentJustifiedEpoch = 3 ∧
    quietEpoch4.FinalizedEpoch = 0 ∧
    (justify sampleEnv quietEpoch4
      (rotate sampleEnv quietEpoch4)).JustificationBitfield.testBit 0 = false ∧
    (justify sampleEnv quietEpoch4
      (rotate sampleEnv quietEpoch4)).JustificationBitfield.testBit 1 = true ∧
    (justify sampleEnv quietEpoch4
      (rotate sampleEnv quietEpoch4)).JustificationBitfield.testBit 2 = true ∧
    (justify sampleEnv quietEpoch4
      (rotate sampleEnv quietEpoch4)).PreviousJustifiedEpoch = 3 ∧
    (ProcessEpochJustification sampleEnv quietEpoch4).FinalizedEpoch = 0 := by
  decide

theorem setFinalized_previousJustified (c : Prop) [Decidable c] (env : Env)
    (state : BeaconState) (epoch : Nat) :
    (if c then setFinalized env state epoch else state).PreviousJustifiedEpoch
      = state.PreviousJustifiedEpoch := by
  split <;> rfl

theorem setFinalized_finalized (c : Prop) [Decidable c] (env : Env)
    (state : BeaconState) (epoch : Nat) :
    (if c then setFinalized env state epoch else state).FinalizedEpoch
        = state.FinalizedEpoch ∨
    (if c then setFinalized env state epoch else state).FinalizedEpoch = epoch := by
  split
  · right; rfl
  · left; rfl

theorem finalize_previousJustified (env : Env) (e p c : Nat) (state : BeaconState) :
    (finalize env e p c state).PreviousJustifiedEpoch = state.PreviousJustifiedEpoch := by
  unfold finalize
  simp only [setFinalized_previousJustified]

theorem setFinalized_among (cnd : Prop) [Decidable cnd] (env : Env) (t : BeaconState)
    (x f p c : Nat)
    (ht : t.FinalizedEpoch = f ∨ t.FinalizedEpoch = p ∨ t.FinalizedEpoch = c)
    (hx : x = p ∨ x = c) :
    (if cnd then setFinalized env t x else t).FinalizedEpoch = f ∨
    (if cnd then setFinalized env t x else t).FinalizedEpoch = p ∨
    (if cnd then setFinalized env t x else t).FinalizedEpoch = c := by
  split
  · right
    exact hx
  · exact ht

theorem finalize_finalized (env : Env) (e p c : Nat) (state : BeaconState) :
    (finalize env e p c state).FinalizedEpoch = state.FinalizedEpoch ∨
    (finalize env e p c state).FinalizedEpoch = p ∨
    (finalize env e p c state).FinalizedEpoch = c := by
  unfold finalize
  simp only []
  refine setFinalized_among _ env _ c state.FinalizedEpoch p c ?_ (Or.inr rfl)
  refine setFinalized_among _ env _ c state.FinalizedEpoch p c ?_ (Or.inr rfl)
  refine setFinalized_among _ env _ p state.FinalizedEpoch p c ?_ (Or.inl rfl)
  refine setFinalized_among _ env _ p state.FinalizedEpoch p c ?_ (Or.inl rfl)
  exact Or.inl rfl

theorem justify_frame (env : Env) (state0 state : BeaconState) :
    (justify env state0 state).PreviousJustifiedEpoch = state.PreviousJustifiedEpoch ∧
    (justify env state0 state).FinalizedEpoch = state.FinalizedEpoch ∧
    ((justify env state0 state).CurrentJustifiedEpoch = state.CurrentJustifiedEpoch ∨
      (justify env state0 state).CurrentJustifiedEpoch = env.StatePreviousEpoch state0 ∨
      (justify env state0 state).CurrentJustifiedEpoch = env.StateEpoch state0) := by
  unfold justify
  simp only []
  split_ifs <;> simp

theorem rotate_frame (env : Env) (state : BeaconState) :
    (rotate env state).PreviousJustifiedEpoch = state.CurrentJustifiedEpoch ∧
    (rotate env state).CurrentJustifiedEpoch = state.CurrentJustifiedEpoch ∧
    (rotate env state).FinalizedEpoch = state.FinalizedEpoch :=
  ⟨rfl, rfl, rfl⟩

/-- The finality fields after a pass in an epoch above `GENESIS_EPOCH + 1`. -/
theorem ProcessEpochJustification_fields (env : Env) (state : BeaconState)
    (hepoch : env.GENESIS_EPOCH + 1 < env.StateEpoch state) :
    (ProcessEpochJustification env state).PreviousJustifiedEpoch
        = state.CurrentJustifiedEpoch ∧
    ((ProcessEpochJustification env state).CurrentJustifiedEpoch = state.CurrentJustifiedEpoch ∨
      (ProcessEpochJustification env state).CurrentJustifiedEpoch
        = env.StatePreviousEpoch state ∨
      (ProcessEpochJustification env state).CurrentJustifiedEpoch = env.StateEpoch state) ∧
    ((ProcessEpochJustification env state).FinalizedEpoch = state.FinalizedEpoch ∨
      (ProcessEpochJustification env state).FinalizedEpoch = state.PreviousJustifiedEpoch ∨
      (ProcessEpochJustification env state).FinalizedEpoch = state.CurrentJustifiedEpoch) := by
  rw [ProcessEpochJustification_eq env state hepoch]
  obtain ⟨j1, j2, j3⟩ := justify_frame env state (rotate env state)
  obtain ⟨r1, r2, r3⟩ := rotate_frame env state
  refine ⟨?_, ?_, ?_⟩
  · rw [finalize_previousJustified, j1, r1]
  · rw [(finalize_currentJustified _ _ _ _ _).1]
    rw [r2] at j3
    exact j3
  · have h := finalize_finalized env (env.StateEpoch state) state.PreviousJustifiedEpoch
      state.CurrentJustifiedEpoch (justify env state (rotate env state))
    rw [j2, r3] at h
    exact h

/-- The invariant of the finality fields at the entry of a call: the three checkpoints are
ordered, and the current-justified epoch is the genesis epoch or an epoch before the
current one. -/
theorem ProcessEpochJustification_step (env : Env)
    (hprev : ∀ s, env.GENESIS_EPOCH + 1 < env.StateEpoch s →
      env.StatePreviousEpoch s + 1 = env.StateEpoch s)
    (a : BeaconState)
    (h1 : a.FinalizedEpoch ≤ a.PreviousJustifiedEpoch)
    (h2 : a.PreviousJustifiedEpoch ≤ a.CurrentJustifiedEpoch)
    (h3 : a.CurrentJustifiedEpoch ≤ env.GENESIS_EPOCH ∨
      a.CurrentJustifiedEpoch < env.StateEpoch a) :
    a.FinalizedEpoch ≤ (ProcessEpochJustification env a).FinalizedEpoch ∧
    (ProcessEpochJustification env a).FinalizedEpoch
      ≤ (ProcessEpochJustification env a).PreviousJustifiedEpoch ∧
    (ProcessEpochJustification env a).PreviousJustifiedEpoch
      ≤ (ProcessEpochJustification env a).CurrentJustifiedEpoch ∧
    ((ProcessEpochJustification env a).CurrentJustifiedEpoch ≤ env.GENESIS_EPOCH ∨
      (ProcessEpochJustification env a).CurrentJustifiedEpoch ≤ env.StateEpoch a) := by
  by_cases hepoch : env.GENESIS_EPOCH + 1 < env.StateEpoch a
  · obtain ⟨f1, f2, f3⟩ := ProcessEpochJustification_fields env a hepoch
    have hp := hprev a hepoch
    rw [f1]
    refine ⟨?_, ?_, ?_, ?_⟩
    · rcases f3 with h | h | h <;> rw [h] <;> omega
    · rcases f3 with h | h | h <;> rw [h] <;> omega
    · rcases f2 with h | h | h <;> rw [h] <;> omega
    · right
      rcases f2 with h | h | h <;> rw [h] <;> omega
  · have hid : ProcessEpochJustification env a = a := by
      unfold ProcessEpochJustification
      simp only []
      rw [if_pos (not_lt.1 hepoch)]
    rw [hid]
    refine ⟨le_refl _, h1, h2, ?_⟩
    rcases h3 with h | h
    · exact Or.inl h
    · exact Or.inr (le_of_lt h)

theorem finality_monotonic_chain (env : Env)
    (hprev : ∀ s, env.GENESIS_EPOCH + 1 < env.StateEpoch s →
      env.StatePreviousEpoch s + 1 = env.StateEpoch s)
    (rest : List BeaconState) :
    ∀ first : BeaconState,
      first.FinalizedEpoch ≤ first.PreviousJustifiedEpoch →
      first.PreviousJustifiedEpoch ≤ first.CurrentJustifiedEpoch →
      (first.CurrentJustifiedEpoch ≤ env.GENESIS_EPOCH ∨
        first.CurrentJustifiedEpoch < env.StateEpoch first) →
      List.Chain (nextCall env) first rest →
      ∀ s ∈ first :: rest, s.FinalizedEpoch ≤ (ProcessEpochJustification env s).FinalizedEpoch := by
  induction rest with
  | nil =>
    intro first h1 h2 h3 _ s hs
    simp only [List.mem_singleton] at hs
    subst hs
    exact (ProcessEpochJustification_step env hprev s h1 h2 h3).1
  | cons b rest ih =>
    intro first h1 h2 h3 hchain s hs
    obtain ⟨g1, g2, g3, g4⟩ := ProcessEpochJustification_step env hprev first h1 h2 h3
    rw [List.chain_cons] at hchain
    obtain ⟨⟨hlt, hp, -, hc, -, -, hf, -⟩, hrest⟩ := hchain
    rcases List.mem_cons.1 hs with hs | hs
    · subst hs
      exact g1
    · refine ih b ?_ ?_ ?_ hrest s hs
      · rw [hf, hp]; exact g2
      · rw [hp, hc]; exact g3
      · rw [hc]
        rcases g4 with h | h
        · exact Or.inl h
        · exact Or.inr (lt_of_le_of_lt h hlt)

/-- C14: finality is monotonic. Along every sequence of calls of `ProcessEpochJustification`
with increasing current epoch that starts from the genesis finality fields (all checkpoints at
the genesis epoch, justification bits zero), each call taking over the finality fields left by
the one before it, the finalized epoch after each call is greater than or equal to the
finalized epoch before it. The previous epoch of a state is the epoch before its current
epoch. -/
theorem finality_monotonic (env : Env)
    (hprev : ∀ s, env.GENESIS_EPOCH + 1 < env.StateEpoch s →
      env.StatePreviousEpoch s + 1 = env.StateEpoch s)
    (first : BeaconState) (rest : List BeaconState)
    (hgenesis : genesisFinality env first)
    (hcalls : List.Chain (nextCall env) first rest) :
    ∀ s ∈ first :: rest,
      s.FinalizedEpoch ≤ (ProcessEpochJustification env s).FinalizedEpoch := by
  obtain ⟨hp, hc, hf, -⟩ := hgenesis
  refine finality_monotonic_chain env hprev rest first ?_ ?_ ?_ hcalls
  · rw [hf, hp]
  · rw [hp, hc]
  · left
    rw [hc]

theorem sampleEnv_previousEpoch (s : BeaconState)
    (h : sampleEnv.GENESIS_EPOCH + 1 < sampleEnv.StateEpoch s) :
    sampleEnv.StatePreviousEpoch s + 1 = sampleEnv.StateEpoch s := by
  simp only [sampleEnv] at h ⊢
  split <;> omega

theorem finality_monotonic_witness :
    genesisFinality sampleEnv unanimousEpoch2 ∧
    List.Chain (nextCall sampleEnv) unanimousEpoch2 [unanimousEpoch3, quietEpoch4] ∧
    ∀ s ∈ [unanimousEpoch2, unanimousEpoch3, quietEpoch4],
      s.FinalizedEpoch ≤ (ProcessEpochJustification sampleEnv s).FinalizedEpoch :=
  ⟨by decide,
    List.Chain.cons (And.intro (by decide) (by decide))
      (List.Chain.cons (And.intro (by decide) (by decide)) List.Chain.nil),
    finality_monotonic sampleEnv sampleEnv_previousEpoch unanimousEpoch2
      [unanimousEpoch3, quietEpoch4] (by decide)
      (List.Chain.cons (And.intro (by decide) (by decide))
        (List.Chain.cons (And.intro (by decide) (by decide)) List.Chain.nil))⟩

end Components

namespace Shuffling

/-- C20: for every active validator count, `GetCommitteeCount` returns
`max(1, min(SHARD_COUNT / SLOTS_PER_EPOCH, activeCount / SLOTS_PER_EPOCH / TARGET_COMMITTEE_SIZE))
* SLOTS_PER_EPOCH`; hence the result is a multiple of `SLOTS_PER_EPOCH`, is at least
`SLOTS_PER_EPOCH`, and is at most `SHARD_COUNT` whenever `SHARD_COUNT >= SLOTS_PER_EPOCH`. The
two constants are `uint64` values. -/
theorem GetCommitteeCount_clamped (core : Core) (m : CommitteeCountCalc) (epoch : Nat)
    (hshard : core.SHARD_COUNT < 2 ^ 64) (hslots : core.SLOTS_PER_EPOCH < 2 ^ 64) :
    m.GetCommitteeCount core epoch
      = max 1 (min (core.SHARD_COUNT / core.SLOTS_PER_EPOCH)
          (m.GetActiveValidatorCount epoch / core.SLOTS_PER_EPOCH
            / core.TARGET_COMMITTEE_SIZE)) * core.SLOTS_PER_EPOCH ∧
    core.SLOTS_PER_EPOCH ∣ m.GetCommitteeCount core epoch ∧
    core.SLOTS_PER_EPOCH ≤ m.GetCommitteeCount core epoch ∧
    (core.SLOTS_PER_EPOCH ≤ core.SHARD_COUNT →
      m.GetCommitteeCount core epoch ≤ core.SHARD_COUNT) := by
  obtain ⟨shard, slots, target⟩ := core
  simp only at hshard hslots
  simp only [CommitteeCountCalc.GetCommitteeCount, MaxU64, MinU64]
  generalize m.GetActiveValidatorCount epoch / slots / target = raw
  have hdiv : shard / slots * slots ≤ shard := Nat.div_mul_le_self shard slots
  have hmin : min (shard / slots) raw ≤ shard / slots := Nat.min_le_left _ _
  have hmul : min (shard / slots) raw * slots ≤ shard :=
    le_trans (Nat.mul_le_mul_right slots hmin) hdiv
  have hbound : max 1 (min (shard / slots) raw) * slots < 2 ^ 64 := by
    rcases le_total 1 (min (shard / slots) raw) with h | h
    · rw [max_eq_right h]
      exact lt_of_le_of_lt hmul hshard
    · rw [max_eq_left h, one_mul]
      exact hslots
  have heq : u64 (max 1 (min (shard / slots) raw) * slots)
      = max 1 (min (shard / slots) raw) * slots := by
    unfold u64
    exact Nat.mod_eq_of_lt hbound
  rw [heq]
  refine ⟨rfl, Dvd.intro_left _ rfl, ?_, ?_⟩
  · exact Nat.le_mul_of_pos_left slots (lt_of_lt_of_le Nat.zero_lt_one (le_max_left _ _))
  · intro hle
    rcases le_total 1 (min (shard / slots) raw) with h | h
    · rw [max_eq_right h]
      exact hmul
    · rw [max_eq_left h, one_mul]
      exact hle

theorem GetCommitteeCount_clamped_witness :
    CommitteeCountCalc.GetCommitteeCount sampleCore { GetActiveValidatorCount := fun _ => 100000 } 7
      = 768 ∧
    sampleCore.SLOTS_PER_EPOCH ∣
      CommitteeCountCalc.GetCommitteeCount sampleCore
        { GetActiveValidatorCount := fun _ => 100000 } 7 ∧
    CommitteeCountCalc.GetCommitteeCount sampleCore { GetActiveValidatorCount := fun _ => 5 } 7
      = 64 :=
  ⟨(GetCommitteeCount_clamped sampleCore { GetActiveValidatorCount := fun _ => 100000 } 7
      (by decide) (by decide)).1,
    (GetCommitteeCount_clamped sampleCore { GetActiveValidatorCount := fun _ => 100000 } 7
      (by decide) (by decide)).2.1,
    (GetCommitteeCount_clamped sampleCore { GetActiveValidatorCount := fun _ => 5 } 7
      (by decide) (by decide)).1⟩

end Shuffling

namespace Phase0

theorem divU64_ok (a b q : Nat) (h : divU64 a b = .ok q) : b ≠ 0 ∧ q = a / b := by
  unfold divU64 at h
  split at h
  · cases h
  · rename_i hb
    cases h
    exact ⟨hb, rfl⟩

theorem addAt_ok (l l1 : List Nat) (k v : Nat) (h : addAt l k v = .ok l1) :
    k < l.length ∧ l1.length = l.length ∧
    ∀ t, l1.getD t 0 = if k = t then u64 (l.getD t 0 + v) else l.getD t 0 := by
  unfold addAt at h
  split at h
  · rename_i hk
    cases h
    refine ⟨hk, List.length_set _ _ _, ?_⟩
    intro t
    by_cases hkt : k = t
    · subst hkt
      rw [if_pos rfl, List.getD_eq_getElem?_getD, List.getElem?_set_self hk]
      rfl
    · rw [if_neg hkt, List.getD_eq_getElem?_getD, List.getElem?_set_ne hkt,
        ← List.getD_eq_getElem?_getD]
  · cases h

theorem bind_ok {α β : Type} (x : Except Fault α) (f : α → Except Fault β) (b : β)
    (h : (x >>= f) = .ok b) : ∃ a, x = .ok a ∧ f a = .ok b := by
  cases x with
  | error e => cases h
  | ok a => exact ⟨a, rfl, h⟩

theorem expectedVoteBlock_ok (attested isInactivityLeak : Bool)
    (baseReward stake totalBalance i : Nat) (d d1 : Deltas)
    (h : expectedVoteBlock attested isInactivityLeak baseReward stake totalBalance i d = .ok d1) :
    d1.Rewards.length = d.Rewards.length ∧ d1.Penalties.length = d.Penalties.length ∧
    (∀ t, d1.Rewards.getD t 0 =
      if i = t ∧ attested = true then
        u64 (d.Rewards.getD t 0 +
          (if isInactivityLeak = true then baseReward
            else u64 (baseReward * stake) / totalBalance))
      else d.Rewards.getD t 0) ∧
    (∀ t, d1.Penalties.getD t 0 =
      if i = t ∧ attested = false then u64 (d.Penalties.getD t 0 + baseReward)
      else d.Penalties.getD t 0) := by
  unfold expectedVoteBlock at h
  cases attested
  · simp only [Bool.false_eq_true, if_false] at h
    obtain ⟨p, hp, hd⟩ := bind_ok _ _ _ h
    obtain ⟨-, hlen, hget⟩ := addAt_ok _ _ _ _ hp
    cases hd
    refine ⟨rfl, hlen, fun t => ?_, fun t => ?_⟩
    · simp
    · simp only [hget t, and_true]
  · simp only [if_true] at h
    cases isInactivityLeak
    · simp only [Bool.false_eq_true, if_false] at h
      obtain ⟨q, hq, h2⟩ := bind_ok _ _ _ h
      obtain ⟨r, hr, hd⟩ := bind_ok _ _ _ h2
      obtain ⟨-, hqv⟩ := divU64_ok _ _ _ hq
      obtain ⟨-, hlen, hget⟩ := addAt_ok _ _ _ _ hr
      cases hd
      refine ⟨hlen, rfl, fun t => ?_, fun t => ?_⟩
      · simp only [hget t, hqv, and_true, Bool.false_eq_true, if_false]
      · simp
    · simp only [if_true] at h
      obtain ⟨r, hr, hd⟩ := bind_ok _ _ _ h
      obtain ⟨-, hlen, hget⟩ := addAt_ok _ _ _ _ hr
      cases hd
      refine ⟨hlen, rfl, fun t => ?_, fun t => ?_⟩
      · simp only [hget t, and_true, if_true]
      · simp

theorem inclusionDelayBlock_ok (spec : Spec) (status : AttesterStatus) (baseReward i : Nat)
    (d d1 : Deltas) (h : inclusionDelayBlock spec status baseReward i d = .ok d1) :
    d1.Penalties = d.Penalties ∧ d1.Rewards.length = d.Rewards.length ∧
    status.AttestedProposer < d.Rewards.length ∧ i < d.Rewards.length ∧
    ∀ t, d1.Rewards.getD t 0 =
      if i = t then
        u64 ((if status.AttestedProposer = t then
              u64 (d.Rewards.getD t 0 + baseReward / spec.PROPOSER_REWARD_QUOTIENT)
            else d.Rewards.getD t 0) +
          subU64 baseReward (baseReward / spec.PROPOSER_REWARD_QUOTIENT) / status.InclusionDelay)
      else if status.AttestedProposer = t then
        u64 (d.Rewards.getD t 0 + baseReward / spec.PROPOSER_REWARD_QUOTIENT)
      else d.Rewards.getD t 0 := by
  unfold inclusionDelayBlock at h
  obtain ⟨pr, hpr, h2⟩ := bind_ok _ _ _ h
  obtain ⟨r1, hr1, h3⟩ := bind_ok _ _ _ h2
  obtain ⟨ar, har, h4⟩ := bind_ok _ _ _ h3
  obtain ⟨r2, hr2, hd⟩ := bind_ok _ _ _ h4
  obtain ⟨-, hprv⟩ := divU64_ok _ _ _ hpr
  obtain ⟨-, harv⟩ := divU64_ok _ _ _ har
  obtain ⟨hk1, hlen1, hget1⟩ := addAt_ok _ _ _ _ hr1
  obtain ⟨hk2, hlen2, hget2⟩ := addAt_ok _ _ _ _ hr2
  cases hd
  subst hprv
  subst harv
  refine ⟨rfl, hlen2.trans hlen1, hk1, hlen1 ▸ hk2, fun t => ?_⟩
  simp only [hget2 t, hget1 t]

theorem inactivityBlock_ok (common : Common) (spec : Spec) (status : AttesterStatus)
    (effBalance baseReward finalityDelay i : Nat) (d d1 : Deltas)
    (h : inactivityBlock common spec status effBalance baseReward finalityDelay i d = .ok d1) :
    d1.Rewards = d.Rewards ∧ d1.Penalties.length = d.Penalties.length ∧
    ∀ t, d1.Penalties.getD t 0 =
      if i = t then
        if HasMarkers status.Flags (common.PrevTargetAttester ||| common.UnslashedAttester)
            = true then
          u64 (d.Penalties.getD t 0 +
            subU64 (u64 (common.BASE_REWARDS_PER_EPOCH * baseReward))
              (baseReward / spec.PROPOSER_REWARD_QUOTIENT))
        else
          u64 (u64 (d.Penalties.getD t 0 +
              subU64 (u64 (common.BASE_REWARDS_PER_EPOCH * baseReward))
                (baseReward / spec.PROPOSER_REWARD_QUOTIENT)) +
            u64 (effBalance * finalityDelay) / spec.INACTIVITY_PENALTY_QUOTIENT)
      else d.Penalties.getD t 0 := by
  unfold inactivityBlock at h
  obtain ⟨pr, hpr, h2⟩ := bind_ok _ _ _ h
  obtain ⟨p1, hp1, h3⟩ := bind_ok _ _ _ h2
  obtain ⟨-, hprv⟩ := divU64_ok _ _ _ hpr
  obtain ⟨-, hlen1, hget1⟩ := addAt_ok _ _ _ _ hp1
  subst hprv
  by_cases hm : HasMarkers status.Flags (common.PrevTargetAttester ||| common.UnslashedAttester)
      = true
  · simp only [hm, not_true_eq_false, if_false] at h3
    cases h3
    refine ⟨rfl, hlen1, fun t => ?_⟩
    simp only [hget1 t, hm, if_true]
  · simp only [hm, not_false_eq_true, if_true] at h3
    obtain ⟨q, hq, h4⟩ := bind_ok _ _ _ h3
    obtain ⟨p2, hp2, hd⟩ := bind_ok _ _ _ h4
    obtain ⟨-, hqv⟩ := divU64_ok _ _ _ hq
    obtain ⟨-, hlen2, hget2⟩ := addAt_ok _ _ _ _ hp2
    cases hd
    subst hqv
    refine ⟨rfl, hlen2.trans hlen1, fun t => ?_⟩
    simp only [hget2 t, hget1 t, hm, Bool.false_eq_true, if_false]
    by_cases hit : i = t <;> simp [hit]

/-- A run of the loop body that returns has run each block on its own ledger, with the base
reward of the status. -/
theorem loopBody_ok (common : Common) (spec : Spec) (locals : LoopLocals) (i : Nat)
    (status : AttesterStatus) (res res1 : RewardsAndPenalties)
    (h : loopBody common spec locals i status res = .ok res1) :
    (if HasMarkers status.Flags (common.PrevSourceAttester ||| common.UnslashedAttester)
        = true then
      inclusionDelayBlock spec status (baseRewardOf common spec locals status) i
        res.InclusionDelay = .ok res1.InclusionDelay
    else res1.InclusionDelay = res.InclusionDelay) ∧
    (if status.Flags &&& common.EligibleAttester ≠ 0 then
      expectedVoteBlock
        (HasMarkers status.Flags (common.PrevSourceAttester ||| common.UnslashedAttester))
        locals.isInactivityLeak (baseRewardOf common spec locals status)
        locals.prevEpochSourceStake locals.totalBalance i res.Source = .ok res1.Source ∧
      expectedVoteBlock
        (HasMarkers status.Flags (common.PrevTargetAttester ||| common.UnslashedAttester))
        locals.isInactivityLeak (baseRewardOf common spec locals status)
        locals.prevEpochTargetStake locals.totalBalance i res.Target = .ok res1.Target ∧
      expectedVoteBlock
        (HasMarkers status.Flags (common.PrevHeadAttester ||| common.UnslashedAttester))
        locals.isInactivityLeak (baseRewardOf common spec locals status)
        locals.prevEpochHeadStake locals.totalBalance i res.Head = .ok res1.Head ∧
      (if locals.isInactivityLeak = true then
        inactivityBlock common spec status status.Validator.EffectiveBalance
          (baseRewardOf common spec locals status) locals.finalityDelay i res.Inactivity
          = .ok res1.Inactivity
      else res1.Inactivity = res.Inactivity)
    else
      res1.Source = res.Source ∧ res1.Target = res.Target ∧ res1.Head = res.Head ∧
      res1.Inactivity = res.Inactivity) := by
  unfold loopBody at h
  obtain ⟨perRoot, hroot, h2⟩ := bind_ok _ _ _ h
  obtain ⟨baseReward, hbase, h3⟩ := bind_ok _ _ _ h2
  obtain ⟨incl, hincl, h4⟩ := bind_ok _ _ _ h3
  obtain ⟨-, hrootv⟩ := divU64_ok _ _ _ hroot
  obtain ⟨-, hbasev⟩ := divU64_ok _ _ _ hbase
  have hb : baseReward = baseRewardOf common spec locals status := by
    rw [hbasev, hrootv]
    rfl
  subst hb
  by_cases helig : status.Flags &&& common.EligibleAttester ≠ 0
  · rw [if_pos helig] at h4
    obtain ⟨source, hsource, h5⟩ := bind_ok _ _ _ h4
    obtain ⟨target, htarget, h6⟩ := bind_ok _ _ _ h5
    obtain ⟨head, hhead, h7⟩ := bind_ok _ _ _ h6
    obtain ⟨inactivity, hinact, h8⟩ := bind_ok _ _ _ h7
    cases h8
    rw [if_pos helig]
    refine ⟨?_, hsource, htarget, hhead, ?_⟩
    · split at hincl
      · rename_i hm
        rw [if_pos hm]
        exact hincl
      · rename_i hm
        rw [if_neg hm]
        cases hincl
        rfl
    · split at hinact
      · rename_i hl
        rw [if_pos hl]
        exact hinact
      · rename_i hl
        rw [if_neg hl]
        cases hinact
        rfl
  · rw [if_neg helig] at h4
    cases h4
    rw [if_neg helig]
    refine ⟨?_, rfl, rfl, rfl, rfl⟩
    split at hincl
    · rename_i hm
      rw [if_pos hm]
      exact hincl
    · rename_i hm
      rw [if_neg hm]
      cases hincl
      rfl

/-- The invariant of the loop for one entry `t` of one ledger `sel`: an iteration `i` whose
status satisfies `P` leaves the entry as it is unless `i = t`, where it becomes `g` of the
entry and the status. After the loop from `i` over `rest`, the entry has been changed by the
status of the validator `t`, if it is among those of the loop. -/
theorem rewardsLoop_entry (ctxDone : Nat → Bool) (common : Common) (spec : Spec)
    (locals : LoopLocals) (sel : RewardsAndPenalties → List Nat)
    (g : Nat → AttesterStatus → Nat) (P : AttesterStatus → Prop) (t : Nat)
    (hbody : ∀ i status res res1, P status →
      loopBody common spec locals i status res = .ok res1 →
      (sel res1).length = (sel res).length ∧
      (sel res1).getD t 0
        = if i = t then g ((sel res).getD t 0) status else (sel res).getD t 0)
    (rest : List AttesterStatus) :
    ∀ (i : Nat) (res res1 : RewardsAndPenalties), (∀ s ∈ rest, P s) →
      rewardsLoop ctxDone common spec locals i rest res = .ok res1 →
      (sel res1).length = (sel res).length ∧
      (sel res1).getD t 0 =
        (match rest[t - i]? with
          | some status => if i ≤ t then g ((sel res).getD t 0) status else (sel res).getD t 0
          | none => (sel res).getD t 0) := by
  induction rest with
  | nil =>
    intro i res res1 _ h
    simp only [rewardsLoop, pure, Except.pure, Except.ok.injEq] at h
    subst h
    simp
  | cons status rest ih =>
    intro i res res1 hP h
    unfold rewardsLoop at h
    split at h
    · cases h
    · obtain ⟨res2, hres2, hloop⟩ := bind_ok _ _ _ h
      obtain ⟨hlen2, hget2⟩ := hbody i status res res2 (hP status (List.mem_cons_self _ _)) hres2
      obtain ⟨hlen1, hget1⟩ := ih (i + 1) res2 res1
        (fun s hs => hP s (List.mem_cons_of_mem _ hs)) hloop
      refine ⟨hlen1.trans hlen2, ?_⟩
      rw [hget1, hget2]
      rcases Nat.lt_trichotomy t i with hlt | heq | hgt
      · have h1 : t - (i + 1) = 0 := by omega
        have h2 : t - i = 0 := by omega
        have h3 : ¬ i + 1 ≤ t := by omega
        have h4 : ¬ i ≤ t := by omega
        have h5 : ¬ i = t := by omega
        rw [h1, h2]
        simp only [List.getElem?_cons_zero, h3, h4, h5, if_false]
        cases rest[0]? <;> rfl
      · subst heq
        have h1 : t - (t + 1) = 0 := by omega
        have h3 : ¬ t + 1 ≤ t := by omega
        rw [h1, Nat.sub_self]
        simp only [List.getElem?_cons_zero, h3, if_false, le_refl, if_true]
        cases rest[0]? <;> rfl
      · have h1 : t - i = (t - (i + 1)) + 1 := by omega
        have h3 : i + 1 ≤ t := by omega
        have h4 : i ≤ t := by omega
        have h5 : ¬ i = t := by omega
        rw [h1, List.getElem?_cons_succ]
        simp only [h3, h4, h5, if_true, if_false]

theorem loopLocals_ok (spec : Spec) (epc : EpochsContext) (process : EpochProcess)
    (state : Beacon.BeaconStateView) (locals : LoopLocals)
    (h : loopLocals spec epc process state = .ok locals) :
    locals = localsOf spec epc process state := by
  unfold loopLocals at h
  obtain ⟨t, ht, h2⟩ := bind_ok _ _ _ h
  obtain ⟨a, ha, h3⟩ := bind_ok _ _ _ h2
  obtain ⟨b, hb, h4⟩ := bind_ok _ _ _ h3
  obtain ⟨c, hc, h5⟩ := bind_ok _ _ _ h4
  obtain ⟨-, htv⟩ := divU64_ok _ _ _ ht
  obtain ⟨-, hav⟩ := divU64_ok _ _ _ ha
  obtain ⟨-, hbv⟩ := divU64_ok _ _ _ hb
  obtain ⟨-, hcv⟩ := divU64_ok _ _ _ hc
  cases h5
  subst htv hav hbv hcv
  rfl

theorem AttestationRewardsAndPenalties_ok (ctxDone : Nat → Bool) (common : Common)
    (spec : Spec) (epc : EpochsContext) (process : EpochProcess)
    (state : Beacon.BeaconStateView) (res : RewardsAndPenalties)
    (h : AttestationRewardsAndPenalties ctxDone common spec epc process state = .ok res) :
    rewardsLoop ctxDone common spec (localsOf spec epc process state) 0 process.Statuses
      (NewRewardsAndPenalties process.Statuses.length) = .ok res := by
  unfold AttestationRewardsAndPenalties at h
  obtain ⟨locals, hlocals, hloop⟩ := bind_ok _ _ _ h
  rw [← loopLocals_ok spec epc process state locals hlocals]
  exact hloop

theorem getD_replicate_zero (n t : Nat) : (List.replicate n 0).getD t 0 = 0 := by
  rw [List.getD_eq_getElem?_getD, List.getElem?_replicate]
  split <;> rfl

theorem entry_of_getD (l : List Nat) (t v : Nat) (hlen : t < l.length)
    (h : l.getD t 0 = v) : l[t]? = some v := by
  rw [List.getElem?_eq_getElem hlen, ← h, List.getD_eq_getElem _ _ hlen]

theorem u64_zero_add (v : Nat) (h : v < 2 ^ 64) : u64 (0 + v) = v := by
  unfold u64
  rw [Nat.zero_add, Nat.mod_eq_of_lt h]

theorem u64_lt (n : Nat) : u64 n < 2 ^ 64 := Nat.mod_lt _ (by decide)

theorem subU64_lt (a b : Nat) : subU64 a b < 2 ^ 64 := Nat.mod_lt _ (by decide)

theorem baseRewardOf_lt (common : Common) (spec : Spec) (locals : LoopLocals)
    (status : AttesterStatus) : baseRewardOf common spec locals status < 2 ^ 64 :=
  lt_of_le_of_lt (le_trans (Nat.div_le_self _ _) (Nat.div_le_self _ _)) (u64_lt _)

/-- The entry of the validator `t` in a ledger after the whole loop, for a ledger whose entry
`i` is changed to `g` of it by the iteration `i` and by no other. -/
theorem rewardsLoop_result_entry (ctxDone : Nat → Bool) (common : Common) (spec : Spec)
    (locals : LoopLocals) (sel : RewardsAndPenalties → List Nat)
    (g : Nat → AttesterStatus → Nat) (P : AttesterStatus → Prop) (t : Nat)
    (hbody : ∀ i status res res1, P status →
      loopBody common spec locals i status res = .ok res1 →
      (sel res1).length = (sel res).length ∧
      (sel res1).getD t 0
        = if i = t then g ((sel res).getD t 0) status else (sel res).getD t 0)
    (statuses : List AttesterStatus) (res : RewardsAndPenalties)
    (hinit : sel (NewRewardsAndPenalties statuses.length) = List.replicate statuses.length 0)
    (hP : ∀ s ∈ statuses, P s)
    (h : rewardsLoop ctxDone common spec locals 0 statuses
      (NewRewardsAndPenalties statuses.length) = .ok res)
    (status : AttesterStatus) (hstatus : statuses[t]? = some status) :
    (sel res)[t]? = some (g 0 status) := by
  obtain ⟨hlen, hget⟩ := rewardsLoop_entry ctxDone common spec locals sel g P t hbody statuses 0
    _ res hP h
  have ht : t < statuses.length := by
    rcases Nat.lt_or_ge t statuses.length with h1 | h1
    · exact h1
    · rw [List.getElem?_eq_none h1] at hstatus
      cases hstatus
  apply entry_of_getD
  · rw [hlen, hinit, List.length_replicate]
    exact ht
  · rw [hget, Nat.sub_zero, hstatus, hinit, getD_replicate_zero]
    simp

/-- The entries of an eligible validator in the ledger `selD` of a category, given that
every iteration of an eligible status runs `expectedVoteBlock` on that ledger and that an
iteration of another status leaves it as it is. -/
theorem rewardsLoop_vote (ctxDone : Nat → Bool) (common : Common) (spec : Spec)
    (locals : LoopLocals) (selD : RewardsAndPenalties → Deltas) (marker stake : Nat)
    (hsel : ∀ i status res res1, loopBody common spec locals i status res = .ok res1 →
      if status.Flags &&& common.EligibleAttester ≠ 0 then
        expectedVoteBlock (HasMarkers status.Flags (marker ||| common.UnslashedAttester))
          locals.isInactivityLeak (baseRewardOf common spec locals status) stake
          locals.totalBalance i (selD res) = .ok (selD res1)
      else selD res1 = selD res)
    (hinit : ∀ n, selD (NewRewardsAndPenalties n) = NewDeltas n)
    (statuses : List AttesterStatus) (res : RewardsAndPenalties)
    (h : rewardsLoop ctxDone common spec locals 0 statuses
      (NewRewardsAndPenalties statuses.length) = .ok res)
    (i : Nat) (status : AttesterStatus) (hstatus : statuses[i]? = some status)
    (helig : status.Flags &&& common.EligibleAttester ≠ 0) :
    expectedVoteEntry (selD res) i
      (HasMarkers status.Flags (marker ||| common.UnslashedAttester))
      locals.isInactivityLeak (baseRewardOf common spec locals status) stake
      locals.totalBalance := by
  have hR := rewardsLoop_result_entry ctxDone common spec locals (fun r => (selD r).Rewards)
    (fun x s =>
      if s.Flags &&& common.EligibleAttester ≠ 0 ∧
          HasMarkers s.Flags (marker ||| common.UnslashedAttester) = true then
        u64 (x + (if locals.isInactivityLeak = true then baseRewardOf common spec locals s
          else u64 (baseRewardOf common spec locals s * stake) / locals.totalBalance))
      else x)
    (fun _ => True) i
    (by
      intro j st r r1 _ hb
      have hs := hsel j st r r1 hb
      by_cases he : st.Flags &&& common.EligibleAttester ≠ 0
      · rw [if_pos he] at hs
        obtain ⟨hl, -, hg, -⟩ := expectedVoteBlock_ok _ _ _ _ _ _ _ _ hs
        refine ⟨hl, ?_⟩
        rw [hg i]
        by_cases hji : j = i <;> simp [hji, he]
      · rw [if_neg he] at hs
        simp only [hs, he, false_and, if_false, ite_self, and_self])
    statuses res (by show (selD _).Rewards = _; rw [hinit]; rfl) (fun _ _ => trivial) h status hstatus
  have hP := rewardsLoop_result_entry ctxDone common spec locals (fun r => (selD r).Penalties)
    (fun x s =>
      if s.Flags &&& common.EligibleAttester ≠ 0 ∧
          HasMarkers s.Flags (marker ||| common.UnslashedAttester) = false then
        u64 (x + baseRewardOf common spec locals s)
      else x)
    (fun _ => True) i
    (by
      intro j st r r1 _ hb
      have hs := hsel j st r r1 hb
      by_cases he : st.Flags &&& common.EligibleAttester ≠ 0
      · rw [if_pos he] at hs
        obtain ⟨-, hl, -, hg⟩ := expectedVoteBlock_ok _ _ _ _ _ _ _ _ hs
        refine ⟨hl, ?_⟩
        rw [hg i]
        by_cases hji : j = i <;> simp [hji, he]
      · rw [if_neg he] at hs
        simp only [hs, he, false_and, if_false, ite_self, and_self])
    statuses res (by show (selD _).Penalties = _; rw [hinit]; rfl) (fun _ _ => trivial) h status hstatus
  simp only at hR hP
  unfold expectedVoteEntry
  have hbr := baseRewardOf_lt common spec locals status
  have hq : u64 (baseRewardOf common spec locals status * stake) / locals.totalBalance < 2 ^ 64 :=
    lt_of_le_of_lt (Nat.div_le_self _ _) (u64_lt _)
  cases hm : HasMarkers status.Flags (marker ||| common.UnslashedAttester)
  · rw [hm] at hR hP
    simp only [Bool.false_eq_true, and_false, if_false, helig, ne_eq, not_false_eq_true,
      and_self, if_true] at hR hP ⊢
    rw [u64_zero_add _ hbr] at hP
    exact ⟨hP, hR⟩
  · rw [hm] at hR hP
    simp only [helig, ne_eq, not_false_eq_true, and_self, if_true, Bool.true_eq_false,
      and_false, if_false] at hR hP ⊢
    refine ⟨?_, hP⟩
    rw [hR]
    cases locals.isInactivityLeak
    · simp only [Bool.false_eq_true, if_false]
      rw [u64_zero_add _ hq]
    · simp only [if_true]
      rw [u64_zero_add _ hbr]

theorem loopBody_source (common : Common) (spec : Spec) (locals : LoopLocals) (i : Nat)
    (status : AttesterStatus) (res res1 : RewardsAndPenalties)
    (h : loopBody common spec locals i status res = .ok res1) :
    if status.Flags &&& common.EligibleAttester ≠ 0 then
      expectedVoteBlock
        (HasMarkers status.Flags (common.PrevSourceAttester ||| common.UnslashedAttester))
        locals.isInactivityLeak (baseRewardOf common spec locals status)
        locals.prevEpochSourceStake locals.totalBalance i res.Source = .ok res1.Source
    else res1.Source = res.Source := by
  have hd := (loopBody_ok common spec locals i status res res1 h).2
  split at hd
  · rename_i he
    rw [if_pos he]
    exact hd.1
  · rename_i he
    rw [if_neg he]
    exact hd.1

theorem loopBody_target (common : Common) (spec : Spec) (locals : LoopLocals) (i : Nat)
    (status : AttesterStatus) (res res1 : RewardsAndPenalties)
    (h : loopBody common spec locals i status res = .ok res1) :
    if status.Flags &&& common.EligibleAttester ≠ 0 then
      expectedVoteBlock
        (HasMarkers status.Flags (common.PrevTargetAttester ||| common.UnslashedAttester))
        locals.isInactivityLeak (baseRewardOf common spec locals status)
        locals.prevEpochTargetStake locals.totalBalance i res.Target = .ok res1.Target
    else res1.Target = res.Target := by
  have hd := (loopBody_ok common spec locals i status res res1 h).2
  split at hd
  · rename_i he
    rw [if_pos he]
    exact hd.2.1
  · rename_i he
    rw [if_neg he]
    exact hd.2.1

theorem loopBody_head (common : Common) (spec : Spec) (locals : LoopLocals) (i : Nat)
    (status : AttesterStatus) (res res1 : RewardsAndPenalties)
    (h : loopBody common spec locals i status res = .ok res1) :
    if status.Flags &&& common.EligibleAttester ≠ 0 then
      expectedVoteBlock
        (HasMarkers status.Flags (common.PrevHeadAttester ||| common.UnslashedAttester))
        locals.isInactivityLeak (baseRewardOf common spec locals status)
        locals.prevEpochHeadStake locals.totalBalance i res.Head = .ok res1.Head
    else res1.Head = res.Head := by
  have hd := (loopBody_ok common spec locals i status res res1 h).2
  split at hd
  · rename_i he
    rw [if_pos he]
    exact hd.2.2.1
  · rename_i he
    rw [if_neg he]
    exact hd.2.2.1

/-- A part of the result that no iteration of a status satisfying `P` changes is, after the
loop over such statuses, what it was before. -/
theorem rewardsLoop_frozen {α : Type} (ctxDone : Nat → Bool) (common : Common) (spec : Spec)
    (locals : LoopLocals) (sel : RewardsAndPenalties → α) (P : AttesterStatus → Prop)
    (hbody : ∀ i status res res1, P status →
      loopBody common spec locals i status res = .ok res1 → sel res1 = sel res)
    (rest : List AttesterStatus) :
    ∀ (i : Nat) (res res1 : RewardsAndPenalties), (∀ s ∈ rest, P s) →
      rewardsLoop ctxDone common spec locals i rest res = .ok res1 → sel res1 = sel res := by
  induction rest with
  | nil =>
    intro i res res1 _ h
    simp only [rewardsLoop, pure, Except.pure, Except.ok.injEq] at h
    rw [h]
  | cons status rest ih =>
    intro i res res1 hP h
    unfold rewardsLoop at h
    split at h
    · cases h
    · obtain ⟨res2, hres2, hloop⟩ := bind_ok _ _ _ h
      rw [ih (i + 1) res2 res1 (fun s hs => hP s (List.mem_cons_of_mem _ hs)) hloop]
      exact hbody i status res res2 (hP status (List.mem_cons_self _ _)) hres2

theorem inactivity_body (common : Common) (spec : Spec) (locals : LoopLocals) (t : Nat)
    (i : Nat) (status : AttesterStatus) (res res1 : RewardsAndPenalties)
    (h : loopBody common spec locals i status res = .ok res1) :
    res1.Inactivity.Rewards = res.Inactivity.Rewards ∧
    res1.Inactivity.Penalties.length = res.Inactivity.Penalties.length ∧
    res1.Inactivity.Penalties.getD t 0 =
      if i = t then inactivityEntry common spec locals (res.Inactivity.Penalties.getD t 0) status
      else res.Inactivity.Penalties.getD t 0 := by
  have hd := (loopBody_ok common spec locals i status res res1 h).2
  unfold inactivityEntry
  by_cases he : status.Flags &&& common.EligibleAttester ≠ 0
  · rw [if_pos he] at hd
    have hi := hd.2.2.2
    by_cases hl : locals.isInactivityLeak = true
    · rw [if_pos hl] at hi
      obtain ⟨hr, hlen, hget⟩ := inactivityBlock_ok _ _ _ _ _ _ _ _ _ hi
      refine ⟨hr, hlen, ?_⟩
      rw [hget t]
      simp only [he, hl, ne_eq, not_false_eq_true, and_self, if_true]
    · rw [if_neg hl] at hi
      rw [hi]
      simp [hl]
  · rw [if_neg he] at hd
    rw [hd.2.2.2]
    simp only [he, false_and, if_false, ite_self, and_self]

theorem IntegerSquareroot_sample : IntegerSquareroot 128000000000 = 357770 :=
  (Nat.eq_sqrt.2 ⟨by norm_num, by norm_num⟩).symm

theorem IntegerSquareroot_lone : IntegerSquareroot 32000000000 = 178885 :=
  (Nat.eq_sqrt.2 ⟨by norm_num, by norm_num⟩).symm

theorem rewards_normal :
    AttestationRewardsAndPenalties (fun _ => false) rewardsCommon rewardsSpec (epochsAt 3)
      rewardsProcess rewardsState = .ok normalResult := by
  unfold AttestationRewardsAndPenalties loopLocals
  simp only []
  rw [show IntegerSquareroot rewardsProcess.TotalActiveStake = 357770
    from IntegerSquareroot_sample]
  rfl

theorem rewards_leak :
    AttestationRewardsAndPenalties (fun _ => false) rewardsCommon rewardsSpec (epochsAt 9)
      rewardsProcess rewardsState = .ok leakResult := by
  unfold AttestationRewardsAndPenalties loopLocals
  simp only []
  rw [show IntegerSquareroot rewardsProcess.TotalActiveStake = 357770
    from IntegerSquareroot_sample]
  rfl

theorem rewards_lone :
    AttestationRewardsAndPenalties (fun _ => false) rewardsCommon rewardsSpec (epochsAt 3)
      loneProcess rewardsState
      = .ok { Source := { Rewards := [0], Penalties := [0] },
              Target := { Rewards := [0], Penalties := [0] },
              Head := { Rewards := [0], Penalties := [0] },
              InclusionDelay := { Rewards := [2862174], Penalties := [0] },
              Inactivity := { Rewards := [0], Penalties := [0] } } := by
  unfold AttestationRewardsAndPenalties loopLocals
  simp only []
  rw [show IntegerSquareroot loneProcess.TotalActiveStake = 178885
    from IntegerSquareroot_lone]
  rfl

theorem inclusion_body (common : Common) (spec : Spec) (locals : LoopLocals) (t : Nat)
    (i : Nat) (status : AttesterStatus) (res res1 : RewardsAndPenalties)
    (hP : HasMarkers status.Flags (common.PrevSourceAttester ||| common.UnslashedAttester)
      = true → status.AttestedProposer ≠ t)
    (h : loopBody common spec locals i status res = .ok res1) :
    res1.InclusionDelay.Penalties = res.InclusionDelay.Penalties ∧
    res1.InclusionDelay.Rewards.length = res.InclusionDelay.Rewards.length ∧
    res1.InclusionDelay.Rewards.getD t 0 =
      if i = t then inclusionEntry common spec locals (res.InclusionDelay.Rewards.getD t 0) status
      else res.InclusionDelay.Rewards.getD t 0 := by
  have hd := (loopBody_ok common spec locals i status res res1 h).1
  unfold inclusionEntry
  by_cases hm : HasMarkers status.Flags (common.PrevSourceAttester ||| common.UnslashedAttester)
      = true
  · rw [if_pos hm] at hd
    obtain ⟨hp, hlen, -, -, hget⟩ := inclusionDelayBlock_ok _ _ _ _ _ _ hd
    refine ⟨hp, hlen, ?_⟩
    rw [hget t]
    simp only [hP hm, hm, if_false, if_true]
  · rw [if_neg hm] at hd
    rw [hd]
    simp only [hm, Bool.false_eq_true, if_false, ite_self, and_self]

/-- C16, as amended: for every input in which no validator status has `EligibleAttester`, a
result returned by `AttestationRewardsAndPenalties` has every entry of the Source, Target,
Head and Inactivity ledgers equal to zero, and every InclusionDelay penalty; the InclusionDelay
rewards are all zero when, besides, no status has `PrevSourceAttester` and
`UnslashedAttester`, the inclusion-delay bonus being computed for every status with these two
flags, eligible or not. -/
theorem AttestationRewardsAndPenalties_no_eligible (ctxDone : Nat → Bool) (common : Common)
    (spec : Spec) (epc : EpochsContext) (process : EpochProcess)
    (state : Beacon.BeaconStateView) (res : RewardsAndPenalties)
    (hret : AttestationRewardsAndPenalties ctxDone common spec epc process state = .ok res)
    (hnone : ∀ s ∈ process.Statuses, ¬ s.Flags &&& common.EligibleAttester ≠ 0) :
    res.Source = NewDeltas process.Statuses.length ∧
    res.Target = NewDeltas process.Statuses.length ∧
    res.Head = NewDeltas process.Statuses.length ∧
    res.Inactivity = NewDeltas process.Statuses.length ∧
    res.InclusionDelay.Penalties = List.replicate process.Statuses.length 0 ∧
    ((∀ s ∈ process.Statuses,
        ¬ HasMarkers s.Flags (common.PrevSourceAttester ||| common.UnslashedAttester) = true) →
      res.InclusionDelay.Rewards = List.replicate process.Statuses.length 0) := by
  have hloop := AttestationRewardsAndPenalties_ok ctxDone common spec epc process state res hret
  have hfour : ∀ (i : Nat) (status : AttesterStatus) (r r1 : RewardsAndPenalties),
      ¬ status.Flags &&& common.EligibleAttester ≠ 0 →
      loopBody common spec (localsOf spec epc process state) i status r = .ok r1 →
      r1.Source = r.Source ∧ r1.Target = r.Target ∧ r1.Head = r.Head ∧
      r1.Inactivity = r.Inactivity := by
    intro i status r r1 he hb
    have hd := (loopBody_ok common spec _ i status r r1 hb).2
    rw [if_neg he] at hd
    exact hd
  refine ⟨?_, ?_, ?_, ?_, ?_, ?_⟩
  · exact rewardsLoop_frozen ctxDone common spec _ (fun r => r.Source)
      (fun s => ¬ s.Flags &&& common.EligibleAttester ≠ 0)
      (fun i status r r1 he hb => (hfour i status r r1 he hb).1)
      process.Statuses 0 _ res hnone hloop
  · exact rewardsLoop_frozen ctxDone common spec _ (fun r => r.Target)
      (fun s => ¬ s.Flags &&& common.EligibleAttester ≠ 0)
      (fun i status r r1 he hb => (hfour i status r r1 he hb).2.1)
      process.Statuses 0 _ res hnone hloop
  · exact rewardsLoop_frozen ctxDone common spec _ (fun r => r.Head)
      (fun s => ¬ s.Flags &&& common.EligibleAttester ≠ 0)
      (fun i status r r1 he hb => (hfour i status r r1 he hb).2.2.1)
      process.Statuses 0 _ res hnone hloop
  · exact rewardsLoop_frozen ctxDone common spec _ (fun r => r.Inactivity)
      (fun s => ¬ s.Flags &&& common.EligibleAttester ≠ 0)
      (fun i status r r1 he hb => (hfour i status r r1 he hb).2.2.2)
      process.Statuses 0 _ res hnone hloop
  · exact rewardsLoop_frozen ctxDone common spec _ (fun r => r.InclusionDelay.Penalties)
      (fun _ => True)
      (fun i status r r1 _ hb => by
        show r1.InclusionDelay.Penalties = r.InclusionDelay.Penalties
        have hd := (loopBody_ok common spec _ i status r r1 hb).1
        split at hd
        · exact (inclusionDelayBlock_ok _ _ _ _ _ _ hd).1
        · rw [hd])
      process.Statuses 0 _ res (fun _ _ => trivial) hloop
  · intro hnomark
    exact rewardsLoop_frozen ctxDone common spec _ (fun r => r.InclusionDelay.Rewards)
      (fun s =>
        ¬ HasMarkers s.Flags (common.PrevSourceAttester ||| common.UnslashedAttester) = true)
      (fun i status r r1 hm hb => by
        show r1.InclusionDelay.Rewards = r.InclusionDelay.Rewards
        have hd := (loopBody_ok common spec _ i status r r1 hb).1
        rw [if_neg hm] at hd
        rw [hd])
      process.Statuses 0 _ res hnomark hloop

theorem AttestationRewardsAndPenalties_no_eligible_witness :
    AttestationRewardsAndPenalties (fun _ => false) rewardsCommon rewardsSpec (epochsAt 3)
      loneProcess rewardsState
      = .ok { Source := { Rewards := [0], Penalties := [0] },
              Target := { Rewards := [0], Penalties := [0] },
              Head := { Rewards := [0], Penalties := [0] },
              InclusionDelay := { Rewards := [2862174], Penalties := [0] },
              Inactivity := { Rewards := [0], Penalties := [0] } } ∧
    (∀ s ∈ loneProcess.Statuses, ¬ s.Flags &&& rewardsCommon.EligibleAttester ≠ 0) ∧
    ({ Rewards := [0], Penalties := [0] } : Deltas) = NewDeltas loneProcess.Statuses.length :=
  ⟨rewards_lone, by decide,
    (AttestationRewardsAndPenalties_no_eligible (fun _ => false) rewardsCommon rewardsSpec
      (epochsAt 3) loneProcess rewardsState _ rewards_lone (by decide)).1⟩

/-- C16, as stated, fails: for a single validator whose status has `PrevSourceAttester` and
`UnslashedAttester` and not `EligibleAttester`, no status has `EligibleAttester` and the entry
of the validator in the InclusionDelay rewards is 2862174, not zero. -/
theorem AttestationRewardsAndPenalties_not_only_eligible :
    (∀ s ∈ loneProcess.Statuses, s.Flags &&& rewardsCommon.EligibleAttester = 0) ∧
    ∃ res, AttestationRewardsAndPenalties (fun _ => false) rewardsCommon rewardsSpec
        (epochsAt 3) loneProcess rewardsState = .ok res ∧
      res.InclusionDelay.Rewards[0]? = some 2862174 ∧
      res.InclusionDelay.Rewards ≠ List.replicate loneProcess.Statuses.length 0 :=
  ⟨by decide, _, rewards_lone, rfl, by decide⟩

theorem vote_reward_leak (ctxDone : Nat → Bool) (common : Common) (spec : Spec)
    (locals : LoopLocals) (selD : RewardsAndPenalties → Deltas) (marker stake : Nat)
    (hsel : ∀ i status res res1, loopBody common spec locals i status res = .ok res1 →
      if status.Flags &&& common.EligibleAttester ≠ 0 then
        expectedVoteBlock (HasMarkers status.Flags (marker ||| common.UnslashedAttester))
          locals.isInactivityLeak (baseRewardOf common spec locals status) stake
          locals.totalBalance i (selD res) = .ok (selD res1)
      else selD res1 = selD res)
    (hinit : ∀ n, selD (NewRewardsAndPenalties n) = NewDeltas n)
    (statuses : List AttesterStatus) (res : RewardsAndPenalties)
    (h : rewardsLoop ctxDone common spec locals 0 statuses
      (NewRewardsAndPenalties statuses.length) = .ok res)
    (i : Nat) (status : AttesterStatus) (hstatus : statuses[i]? = some status)
    (helig : status.Flags &&& common.EligibleAttester ≠ 0)
    (hleak : locals.isInactivityLeak = true)
    (hm : HasMarkers status.Flags (marker ||| common.UnslashedAttester) = true) :
    (selD res).Rewards[i]? = some (baseRewardOf common spec locals status) := by
  have hv := rewardsLoop_vote ctxDone common spec locals selD marker stake hsel hinit statuses
    res h i status hstatus helig
  unfold expectedVoteEntry at hv
  rw [hm, hleak] at hv
  simp only [if_true] at hv
  exact hv.1

theorem four_baseReward (a b q : Nat) (ha : a < 2 ^ 64) :
    subU64 (u64 (4 * (a / b / 4))) (a / b / 4 / q)
      = a / b / 4 + a / b / 4 + a / b / 4 + (a / b / 4 - a / b / 4 / q) := by
  have h1 : 4 * (a / b / 4) ≤ a / b := Nat.mul_div_le _ _
  have h2 : a / b ≤ a := Nat.div_le_self _ _
  have h3 : a / b / 4 / q ≤ a / b / 4 := Nat.div_le_self _ _
  have h4 : u64 (4 * (a / b / 4)) = 4 * (a / b / 4) := by
    unfold u64
    exact Nat.mod_eq_of_lt (by omega)
  rw [h4, Beacon.subU64_eq_sub _ _ (by omega) (by omega)]
  omega

theorem getD_zipWith_add (l1 l2 : List Nat) (i : Nat) (h1 : i < l1.length)
    (h2 : i < l2.length) :
    (List.zipWith (fun a b => u64 (a + b)) l1 l2).getD i 0
      = u64 (l1.getD i 0 + l2.getD i 0) := by
  have h : i < (List.zipWith (fun a b => u64 (a + b)) l1 l2).length := by
    rw [List.length_zipWith]
    exact lt_min h1 h2
  rw [List.getD_eq_getElem _ _ h, List.getElem_zipWith, List.getD_eq_getElem _ _ h1,
    List.getD_eq_getElem _ _ h2]

theorem length_zipWith_add (l1 l2 : List Nat) (n : Nat) (h1 : l1.length = n)
    (h2 : l2.length = n) :
    (List.zipWith (fun a b => u64 (a + b)) l1 l2).length = n := by
  rw [List.length_zipWith, h1, h2, min_self]

/-- The sum of the five ledgers of a result whose sequences all have the length `n`. -/
theorem sum_of_ledgers (rp : RewardsAndPenalties) (n : Nat) (hlen : ledgerLengths rp n) :
    ((((((NewDeltas n).Add rp.Source).Add rp.Target).Add rp.Head).Add rp.InclusionDelay).Add
        rp.Inactivity).Rewards.length = n ∧
    ((((((NewDeltas n).Add rp.Source).Add rp.Target).Add rp.Head).Add rp.InclusionDelay).Add
        rp.Inactivity).Penalties.length = n ∧
    ∀ i, i < n →
      ((((((NewDeltas n).Add rp.Source).Add rp.Target).Add rp.Head).Add rp.InclusionDelay).Add
          rp.Inactivity).Rewards.getD i 0
        = sumOfFive (rp.Source.Rewards.getD i 0) (rp.Target.Rewards.getD i 0)
            (rp.Head.Rewards.getD i 0) (rp.InclusionDelay.Rewards.getD i 0)
            (rp.Inactivity.Rewards.getD i 0) ∧
      ((((((NewDeltas n).Add rp.Source).Add rp.Target).Add rp.Head).Add rp.InclusionDelay).Add
          rp.Inactivity).Penalties.getD i 0
        = sumOfFive (rp.Source.Penalties.getD i 0) (rp.Target.Penalties.getD i 0)
            (rp.Head.Penalties.getD i 0) (rp.InclusionDelay.Penalties.getD i 0)
            (rp.Inactivity.Penalties.getD i 0) := by
  obtain ⟨a1, a2, b1, b2, c1, c2, d1, d2, e1, e2⟩ := hlen
  have z : (List.replicate n 0 : List Nat).length = n := List.length_replicate _ _
  have r1 := length_zipWith_add _ _ n z a1
  have r2 := length_zipWith_add _ _ n r1 b1
  have r3 := length_zipWith_add _ _ n r2 c1
  have r4 := length_zipWith_add _ _ n r3 d1
  have r5 := length_zipWith_add _ _ n r4 e1
  have p1 := length_zipWith_add _ _ n z a2
  have p2 := length_zipWith_add _ _ n p1 b2
  have p3 := length_zipWith_add _ _ n p2 c2
  have p4 := length_zipWith_add _ _ n p3 d2
  have p5 := length_zipWith_add _ _ n p4 e2
  refine ⟨r5, p5, ?_⟩
  intro i hi
  constructor
  · simp only [Deltas.Add, NewDeltas, sumOfFive]
    rw [getD_zipWith_add _ _ i (lt_of_lt_of_eq hi r4.symm) (lt_of_lt_of_eq hi e1.symm), getD_zipWith_add _ _ i (lt_of_lt_of_eq hi r3.symm) (lt_of_lt_of_eq hi d1.symm),
      getD_zipWith_add _ _ i (lt_of_lt_of_eq hi r2.symm) (lt_of_lt_of_eq hi c1.symm), getD_zipWith_add _ _ i (lt_of_lt_of_eq hi r1.symm) (lt_of_lt_of_eq hi b1.symm),
      getD_zipWith_add _ _ i (lt_of_lt_of_eq hi z.symm) (lt_of_lt_of_eq hi a1.symm), getD_replicate_zero]
  · simp only [Deltas.Add, NewDeltas, sumOfFive]
    rw [getD_zipWith_add _ _ i (lt_of_lt_of_eq hi p4.symm) (lt_of_lt_of_eq hi e2.symm), getD_zipWith_add _ _ i (lt_of_lt_of_eq hi p3.symm) (lt_of_lt_of_eq hi d2.symm),
      getD_zipWith_add _ _ i (lt_of_lt_of_eq hi p2.symm) (lt_of_lt_of_eq hi c2.symm), getD_zipWith_add _ _ i (lt_of_lt_of_eq hi p1.symm) (lt_of_lt_of_eq hi b2.symm),
      getD_zipWith_add _ _ i (lt_of_lt_of_eq hi z.symm) (lt_of_lt_of_eq hi a2.symm), getD_replicate_zero]

theorem sumOfFive_eq (a b c d e : Nat) (h : a + b + c + d + e < 2 ^ 64) :
    sumOfFive a b c d e = a + b + c + d + e := by
  unfold sumOfFive u64
  rw [Nat.zero_add, Nat.mod_eq_of_lt (show a < 2 ^ 64 by omega),
    Nat.mod_eq_of_lt (show a + b < 2 ^ 64 by omega),
    Nat.mod_eq_of_lt (show a + b + c < 2 ^ 64 by omega),
    Nat.mod_eq_of_lt (show a + b + c + d < 2 ^ 64 by omega), Nat.mod_eq_of_lt h]

theorem applyDelta_eq (bal reward penalty : Nat) :
    applyDelta bal reward penalty
      = if u64 (bal + reward) ≥ penalty then u64 (bal + reward) - penalty else 0 := by
  unfold applyDelta
  simp only []
  split
  · rename_i h
    exact Beacon.subU64_eq_sub _ _ h (u64_lt _)
  · rfl

/-- C18: `ProcessEpochRewardsAndPenalties`, in an epoch that is not `GENESIS_EPOCH`, with a
context that is not cancelled and ledgers of the length of the balance list, returns without
error and replaces each balance `b_i` by `(b_i + rewards_i) - penalties_i` when
`b_i + rewards_i >= penalties_i` and by 0 otherwise, where `rewards_i` and `penalties_i` are
the sums over the five categories; every other field of the state is as it was. The sums are
those of `uint64`, equal to the exact sums when these are below `2^64`. No balance underflows
and a penalty larger than the balance does not make the call fail. -/
theorem ProcessEpochRewardsAndPenalties_balances (ctxDone : Nat → Bool) (common : Common)
    (spec : Spec) (epc : EpochsContext) (process : EpochProcess)
    (state : Beacon.BeaconStateView) (rp : RewardsAndPenalties)
    (hctx : ctxDone 0 = false)
    (hepoch : epc.CurrentEpoch.Epoch ≠ common.GENESIS_EPOCH)
    (hrp : AttestationRewardsAndPenalties (fun k => ctxDone (k + 1)) common spec epc process
      state = .ok rp)
    (hcount : process.Statuses.length = state.Balances.length)
    (hlen : ledgerLengths rp state.Balances.length) :
    ∃ balances,
      ProcessEpochRewardsAndPenalties ctxDone common spec epc process state
        = .ok { state with Balances := balances } ∧
      balances.length = state.Balances.length ∧
      ∀ (i b : Nat), state.Balances[i]? = some b →
        ∃ rewards penalties,
          rewards = sumOfFive (rp.Source.Rewards.getD i 0) (rp.Target.Rewards.getD i 0)
            (rp.Head.Rewards.getD i 0) (rp.InclusionDelay.Rewards.getD i 0)
            (rp.Inactivity.Rewards.getD i 0) ∧
          penalties = sumOfFive (rp.Source.Penalties.getD i 0) (rp.Target.Penalties.getD i 0)
            (rp.Head.Penalties.getD i 0) (rp.InclusionDelay.Penalties.getD i 0)
            (rp.Inactivity.Penalties.getD i 0) ∧
          balances[i]? = some
            (if u64 (b + rewards) ≥ penalties then u64 (b + rewards) - penalties else 0) ∧
          (rp.Source.Rewards.getD i 0 + rp.Target.Rewards.getD i 0 + rp.Head.Rewards.getD i 0
              + rp.InclusionDelay.Rewards.getD i 0 + rp.Inactivity.Rewards.getD i 0 < 2 ^ 64 →
            rewards = rp.Source.Rewards.getD i 0 + rp.Target.Rewards.getD i 0
              + rp.Head.Rewards.getD i 0 + rp.InclusionDelay.Rewards.getD i 0
              + rp.Inactivity.Rewards.getD i 0) ∧
          (rp.Source.Penalties.getD i 0 + rp.Target.Penalties.getD i 0
              + rp.Head.Penalties.getD i 0 + rp.InclusionDelay.Penalties.getD i 0
              + rp.Inactivity.Penalties.getD i 0 < 2 ^ 64 →
            penalties = rp.Source.Penalties.getD i 0 + rp.Target.Penalties.getD i 0
              + rp.Head.Penalties.getD i 0 + rp.InclusionDelay.Penalties.getD i 0
              + rp.Inactivity.Penalties.getD i 0) ∧
          (b + rewards < 2 ^ 64 → u64 (b + rewards) = b + rewards) := by
  obtain ⟨hR, hP, hget⟩ := sum_of_ledgers rp state.Balances.length hlen
  refine ⟨(List.range state.Balances.length).map (fun i =>
    applyDelta (state.Balances.getD i 0)
      (sumOfFive (rp.Source.Rewards.getD i 0) (rp.Target.Rewards.getD i 0)
        (rp.Head.Rewards.getD i 0) (rp.InclusionDelay.Rewards.getD i 0)
        (rp.Inactivity.Rewards.getD i 0))
      (sumOfFive (rp.Source.Penalties.getD i 0) (rp.Target.Penalties.getD i 0)
        (rp.Head.Penalties.getD i 0) (rp.InclusionDelay.Penalties.getD i 0)
        (rp.Inactivity.Penalties.getD i 0))), ?_, ?_, ?_⟩
  · unfold ProcessEpochRewardsAndPenalties
    simp only []
    rw [if_neg (by rw [hctx]; exact Bool.false_ne_true), if_neg hepoch, hrp, hcount]
    show (if _ then _ else _) = _
    rw [if_neg (by rw [hR, hP]; exact fun h => h.elim (fun h => h rfl) (fun h => h rfl))]
    congr 2
    apply List.map_congr_left
    intro i hi
    have hi2 : i < state.Balances.length := List.mem_range.1 hi
    rw [(hget i hi2).1, (hget i hi2).2]
  · rw [List.length_map, List.length_range]
  · intro i b hb
    have hi : i < state.Balances.length := by
      rcases Nat.lt_or_ge i state.Balances.length with h1 | h1
      · exact h1
      · rw [List.getElem?_eq_none h1] at hb
        cases hb
    have hbd : state.Balances.getD i 0 = b := by
      rw [List.getD_eq_getElem?_getD, hb]
      rfl
    refine ⟨_, _, rfl, rfl, ?_, fun h => sumOfFive_eq _ _ _ _ _ h,
      fun h => sumOfFive_eq _ _ _ _ _ h, fun h => Nat.mod_eq_of_lt h⟩
    rw [List.getElem?_map, List.getElem?_range hi]
    simp only [Option.map_some', hbd, applyDelta_eq]

theorem ProcessEpochRewardsAndPenalties_balances_witness :
    (epochsAt 9).CurrentEpoch.Epoch ≠ rewardsCommon.GENESIS_EPOCH ∧
    rewardsProcess.Statuses.length = rewardsState.Balances.length ∧
    ledgerLengths leakResult rewardsState.Balances.length ∧
    ∃ balances,
      ProcessEpochRewardsAndPenalties (fun _ => false) rewardsCommon rewardsSpec (epochsAt 9)
        rewardsProcess rewardsState = .ok { rewardsState with Balances := balances } ∧
      balances.length = rewardsState.Balances.length :=
  ⟨by decide, rfl, by decide,
    match ProcessEpochRewardsAndPenalties_balances (fun _ => false) rewardsCommon rewardsSpec
      (epochsAt 9) rewardsProcess rewardsState leakResult rfl (by decide) rewards_leak rfl
      (by decide) with
    | ⟨balances, h1, h2, _⟩ => ⟨balances, h1, h2⟩⟩

end Phase0

namespace Components

/-- C24: at a state of slot 24 with `SLOTS_PER_HISTORICAL_ROOT = 64`, the slot 16 is recent
(`16 < 24 <= 16 + 64`) and the root stored for it is `116`; `GetBlockRootAtSlot` returns the
zero root and the error "cannot get block root for given slot", and so does `GetBlockRoot` for
the previous epoch 2, whose start slot is 16. -/
theorem GetBlockRootAtSlot_recent_rejected :
    16 < historyState.Slot ∧
    historyState.Slot ≤ 16 + sampleEnv.SLOTS_PER_HISTORICAL_ROOT ∧
    historyState.LatestBlockRoots.getD (16 % sampleEnv.SLOTS_PER_HISTORICAL_ROOT) 0 = 116 ∧
    GetBlockRootAtSlot sampleEnv historyState 16
      = (0, some "cannot get block root for given slot") ∧
    sampleEnv.StatePreviousEpoch historyState = 2 ∧
    GetBlockRoot sampleEnv historyState 2
      = (0, some "cannot get block root for given slot") :=
  ⟨by decide, by decide, by decide, rfl, by decide, rfl⟩

end Components

namespace Finality

/-- C25: on the all-zero bitfield `IsJustified(0)` and `IsJustified(1)` return true, and right
after `Justify` has recorded a checkpoint one epoch ago, which sets bit 1, `IsJustified(1)`
returns false and `IsJustified(0)` returns true: the method answers true when none of the
listed bits is set. -/
theorem IsJustified_inverted :
    genesisState.JustificationBits.IsJustified [0] = true ∧
    genesisState.JustificationBits.IsJustified [1] = true ∧
    (genesisState.Justify 5 { Epoch := 4, Root := 9 }).JustificationBits.byte0.testBit 1
      = true ∧
    (genesisState.Justify 5 { Epoch := 4, Root := 9 }).JustificationBits.IsJustified [1]
      = false ∧
    (genesisState.Justify 5 { Epoch := 4, Root := 9 }).JustificationBits.IsJustified [0]
      = true := by
  decide

end Finality

namespace Views

/-- C27: on the all-zero view of 512 bits, `Set(1, true)` succeeds; after it `Get(1)` still
returns false, and `Get(257)`, which returned false, returns true: the new root, computed from
the bottom node `1 >> 8 = 0`, has been written to the bottom node 1. -/
theorem BitVectorView_set_then_get :
    zeroView512.Get 1 = .ok false ∧
    zeroView512.Get 257 = .ok false ∧
    ∃ cv, zeroView512.Set 1 true = .ok cv ∧
      cv.Get 1 = .ok false ∧
      cv.Get 257 = .ok true :=
  ⟨rfl, rfl, _, rfl, rfl, rfl⟩

end Views

namespace Shuffling

/-- Writing a source of the full width over a buffer, right after a prefix. -/
theorem copyAt_append (pre rest src : List Nat) (w : Nat) (hsrc : src.length = w) :
    copyAt (pre ++ rest) pre.length w src = pre ++ src ++ rest.drop w := by
  unfold copyAt
  rw [List.take_left, List.take_of_length_le (le_of_eq hsrc), hsrc, Nat.min_self,
    List.drop_append]

/-- The position of the mix requested by `GetSeed`: the sum with the length of the history
does not change the position, when it does not pass `2 ^ 64` or when the length of the history
divides `2 ^ 64`. -/
theorem seedIndex_eq (e V L : Nat) (hL : L ≤ e) (he : e < 2 ^ 64)
    (h : e + V < 2 ^ 64 ∨ V ∣ 2 ^ 64) :
    subU64 (u64 (e + V)) L % V = (e - L) % V := by
  unfold subU64 u64
  rcases h with h | ⟨c, hc⟩
  · rw [Nat.mod_eq_of_lt h]
    have h1 : e + V + 2 ^ 64 - L = (e - L + V) + 2 ^ 64 := by omega
    rw [h1, Nat.add_mod_right, Nat.mod_eq_of_lt (show e - L + V < 2 ^ 64 by omega),
      Nat.add_mod_right]
  · have hV : V ≤ 2 ^ 64 := by
      rcases Nat.eq_zero_or_pos c with h0 | hpos
      · rw [h0] at hc
        simp at hc
      · calc V = V * 1 := (Nat.mul_one V).symm
          _ ≤ V * c := Nat.mul_le_mul_left V hpos
          _ = 2 ^ 64 := hc.symm
    have hdvd : V ∣ 2 ^ 64 := ⟨c, hc⟩
    rw [Nat.mod_mod_of_dvd _ hdvd]
    rcases Nat.lt_or_ge (e + V) (2 ^ 64) with hlt | hge
    · rw [Nat.mod_eq_of_lt hlt]
      have h1 : e + V + 2 ^ 64 - L = (e - L) + V * (1 + c) := by
        rw [Nat.mul_add, ← hc]
        omega
      rw [h1, Nat.add_mul_mod_self_left]
    · have h2 : (e + V) % 2 ^ 64 = e + V - 2 ^ 64 := by
        rw [Nat.mod_eq_sub_mod hge, Nat.mod_eq_of_lt (show e + V - 2 ^ 64 < 2 ^ 64 by omega)]
      rw [h2]
      have h1 : e + V - 2 ^ 64 + 2 ^ 64 - L = (e - L) + V * 1 := by omega
      rw [h1, Nat.add_mul_mod_self_left]

/-- The eight bytes of `littleEndian64` are the digits of the value in base 256, the least
significant first. -/
theorem littleEndian64_digits (v : Nat) (hv : v < 2 ^ 64) :
    (littleEndian64 v).length = 8 ∧
    (∀ b ∈ littleEndian64 v, b < 256) ∧
    (littleEndian64 v).foldr (fun b acc => b + 256 * acc) 0 = v := by
  have hlist : littleEndian64 v
      = [v % 256, v / 2 ^ 8 % 256, v / 2 ^ 16 % 256, v / 2 ^ 24 % 256, v / 2 ^ 32 % 256,
          v / 2 ^ 40 % 256, v / 2 ^ 48 % 256, v / 2 ^ 56 % 256] := by
    simp [littleEndian64, List.range_succ, Nat.shiftRight_eq_div_pow]
  rw [hlist]
  refine ⟨rfl, ?_, ?_⟩
  · intro b hb
    simp only [List.mem_cons, List.mem_singleton, List.not_mem_nil, or_false] at hb
    rcases hb with h | h | h | h | h | h | h | h <;> rw [h] <;> exact Nat.mod_lt _ (by decide)
  · simp only [List.foldr]
    norm_num at hv ⊢
    omega

/-- C21: for an epoch not before `MIN_SEED_LOOKAHEAD`, the mix that `GetSeed` requests at
`epoch + EPOCHS_PER_HISTORICAL_VECTOR - MIN_SEED_LOOKAHEAD` is the stored mix that
`GetRandaoMix` returns for `epoch - MIN_SEED_LOOKAHEAD`, and `GetSeed` is the hash of the buffer
of 96 bytes made of that mix, the active index root at the epoch, the eight little-endian
bytes of the epoch and 24 zero bytes. The epoch is a `uint64` value, the sum does not pass
`2 ^ 64` or the length of the history divides `2 ^ 64`, and the two roots have 32 bytes. -/
theorem GetSeed_buffer (consts : SeedConstants) (Hash : List Nat → List Nat)
    (state : ShufflingState) (randao : RandaoState) (epoch : Nat)
    (hlook : consts.MIN_SEED_LOOKAHEAD ≤ epoch) (hepoch : epoch < 2 ^ 64)
    (hwrap : epoch + consts.EPOCHS_PER_HISTORICAL_VECTOR < 2 ^ 64
      ∨ consts.EPOCHS_PER_HISTORICAL_VECTOR ∣ 2 ^ 64)
    (hmix : (randao.GetRandaoMix consts (epoch - consts.MIN_SEED_LOOKAHEAD)).length = 32)
    (hroot : (state.GetActiveIndexRoot consts epoch).length = 32) :
    randao.GetRandomMix consts
        (subU64 (u64 (epoch + consts.EPOCHS_PER_HISTORICAL_VECTOR)) consts.MIN_SEED_LOOKAHEAD)
      = randao.GetRandaoMix consts (epoch - consts.MIN_SEED_LOOKAHEAD) ∧
    state.GetSeed consts Hash (randao.GetRandomMix consts) epoch
      = Hash (randao.GetRandaoMix consts (epoch - consts.MIN_SEED_LOOKAHEAD)
          ++ state.GetActiveIndexRoot consts epoch
          ++ littleEndian64 epoch ++ List.replicate 24 0) ∧
    (randao.GetRandaoMix consts (epoch - consts.MIN_SEED_LOOKAHEAD)
        ++ state.GetActiveIndexRoot consts epoch
        ++ littleEndian64 epoch ++ List.replicate 24 0).length = 96 ∧
    (littleEndian64 epoch).length = 8 ∧
    (littleEndian64 epoch).foldr (fun b acc => b + 256 * acc) 0 = epoch := by
  have hsame : randao.GetRandomMix consts
        (subU64 (u64 (epoch + consts.EPOCHS_PER_HISTORICAL_VECTOR)) consts.MIN_SEED_LOOKAHEAD)
      = randao.GetRandaoMix consts (epoch - consts.MIN_SEED_LOOKAHEAD) := by
    unfold RandaoState.GetRandomMix RandaoState.GetRandaoMix
    rw [seedIndex_eq epoch _ _ hlook hepoch hwrap]
  have hdigits := littleEndian64_digits epoch hepoch
  refine ⟨hsame, ?_, ?_, hdigits.1, hdigits.2.2⟩
  · unfold ShufflingState.GetSeed
    simp only []
    rw [hsame]
    generalize randao.GetRandaoMix consts (epoch - consts.MIN_SEED_LOOKAHEAD) = mix at hmix ⊢
    generalize state.GetActiveIndexRoot consts epoch = root at hroot ⊢
    generalize littleEndian64 epoch = le at hdigits ⊢
    have h1 : copyAt (List.replicate (32 * 3) 0) 0 32 mix = mix ++ List.replicate 64 0 := by
      have := copyAt_append [] (List.replicate (32 * 3) 0) mix 32 hmix
      simpa using this
    have h2 : copyAt (mix ++ List.replicate 64 0) 32 32 root
        = mix ++ root ++ List.replicate 32 0 := by
      have := copyAt_append mix (List.replicate 64 0) root 32 hroot
      rw [hmix] at this
      simpa using this
    have h3 : copyAt (mix ++ root ++ List.replicate 32 0) 64 8 le
        = mix ++ root ++ le ++ List.replicate 24 0 := by
      have := copyAt_append (mix ++ root) (List.replicate 32 0) le 8 hdigits.1
      rw [List.length_append, hmix, hroot] at this
      simpa using this
    rw [h1, h2, h3]
  · simp [hmix, hroot, hdigits.1]

theorem GetSeed_buffer_witness :
    sampleRandao.GetRandomMix sampleSeedConstants (subU64 (u64 (5 + 64)) 1)
      = List.replicate 32 4 ∧
    sampleShuffling.GetSeed sampleSeedConstants id
        (sampleRandao.GetRandomMix sampleSeedConstants) 5
      = List.replicate 32 4 ++ List.replicate 32 105 ++ [5, 0, 0, 0, 0, 0, 0, 0]
          ++ List.replicate 24 0 :=
  ⟨(GetSeed_buffer sampleSeedConstants id sampleShuffling sampleRandao 5
      (by decide) (by decide) (Or.inl (by decide)) (by decide) (by decide)).1,
    (GetSeed_buffer sampleSeedConstants id sampleShuffling sampleRandao 5
      (by decide) (by decide) (Or.inl (by decide)) (by decide) (by decide)).2.1⟩

end Shuffling

namespace Shuffling

/-- Nothing is found over `List.range n` exactly when nothing is found at any position. -/
theorem findSome_range_none {α : Type} (f : Nat → Option α) (n : Nat) :
    (List.range n).findSome? f = none ↔ ∀ j, j < n → f j = none := by
  rw [List.findSome?_eq_none_iff]
  constructor
  · intro h j hj
    exact h j (List.mem_range.2 hj)
  · intro h j hj
    exact h j (List.mem_range.1 hj)

/-- The first value found over `List.range n`: it is found at a position below which nothing
is found. -/
theorem findSome_range_some {α : Type} (f : Nat → Option α) (n : Nat) (v : α) :
    (List.range n).findSome? f = some v ↔
      ∃ j, j < n ∧ f j = some v ∧ ∀ k, k < j → f k = none := by
  induction n generalizing v with
  | zero => simp
  | succ n ih =>
    rw [List.range_succ, List.findSome?_append]
    cases hfind : (List.range n).findSome? f with
    | some w =>
      obtain ⟨j0, hj0, hfj0, hbelow0⟩ := (ih w).1 hfind
      constructor
      · intro h
        have hw : w = v := by simpa using h
        exact ⟨j0, Nat.lt_succ_of_lt hj0, hw ▸ hfj0, hbelow0⟩
      · rintro ⟨j, _, hfj, hbelow⟩
        rcases Nat.lt_trichotomy j0 j with hlt | heq | hgt
        · rw [hbelow j0 hlt] at hfj0
          cases hfj0
        · rw [heq, hfj] at hfj0
          simp [Option.some.inj hfj0]
        · rw [hbelow0 j hgt] at hfj
          cases hfj
    | none =>
      have hnone := (findSome_range_none f n).1 hfind
      constructor
      · intro h
        have hn : f n = some v := by
          cases hf : f n with
          | none => simp [hf] at h
          | some w => simpa [hf] using h
        exact ⟨n, Nat.lt_succ_self n, hn, hnone⟩
      · rintro ⟨j, hj, hfj, _⟩
        have hjn : j = n := by
          rcases Nat.lt_or_ge j n with hlt | hge
          · rw [hnone j hlt] at hfj
            cases hfj
          · omega
        rw [hjn] at hfj
        simp [hfj]

/-- A round of the inner loop returns nothing exactly when each of its 32 candidates fails the
test. -/
theorem roundCandidate_none (consts : SeedConstants) (Hash : List Nat → List Nat)
    (m : ProposingReq) (seed firstCommittee : List Nat) (i : Nat) :
    roundCandidate consts Hash m seed firstCommittee i = none ↔
      ∀ j, j < 32 → accepts consts Hash m seed firstCommittee i j = false := by
  unfold roundCandidate
  rw [findSome_range_none]
  constructor
  · intro h j hj
    have := h j hj
    cases hacc : accepts consts Hash m seed firstCommittee i j with
    | false => rfl
    | true => simp [hacc] at this
  · intro h j hj
    simp [h j hj]

/-- A round of the inner loop returns the candidate of the first byte that passes the
test. -/
theorem roundCandidate_some (consts : SeedConstants) (Hash : List Nat → List Nat)
    (m : ProposingReq) (seed firstCommittee : List Nat) (i v : Nat) :
    roundCandidate consts Hash m seed firstCommittee i = some v ↔
      ∃ j, j < 32 ∧ accepts consts Hash m seed firstCommittee i j = true ∧
        v = candidateIndex m.CurrentEpoch firstCommittee i j ∧
        ∀ k, k < j → accepts consts Hash m seed firstCommittee i k = false := by
  unfold roundCandidate
  rw [findSome_range_some]
  constructor
  · rintro ⟨j, hj, hfj, hbelow⟩
    refine ⟨j, hj, ?_, ?_, ?_⟩
    · cases hacc : accepts consts Hash m seed firstCommittee i j with
      | false => simp [hacc] at hfj
      | true => rfl
    · cases hacc : accepts consts Hash m seed firstCommittee i j with
      | false => simp [hacc] at hfj
      | true =>
        simp only [hacc, if_true] at hfj
        exact (Option.some.inj hfj).symm
    · intro k hk
      have := hbelow k hk
      cases hacc : accepts consts Hash m seed firstCommittee i k with
      | false => rfl
      | true => simp [hacc] at this
  · rintro ⟨j, hj, hacc, hv, hbelow⟩
    refine ⟨j, hj, ?_, ?_⟩
    · simp [hacc, hv]
    · intro k hk
      simp [hbelow k hk]

/-- The round counter below `2 ^ 64 - 1` is incremented without a wrap. -/
theorem u64_succ (i : Nat) (h : i + 1 < 2 ^ 64) : u64 (i + 1) = i + 1 := by
  unfold u64
  exact Nat.mod_eq_of_lt h

/-- A validator index returned by the loop is the candidate of the first pair of a round and
a byte that passes the test, and the committee is not empty. -/
theorem proposerLoop_index (consts : SeedConstants) (Hash : List Nat → List Nat)
    (m : ProposingReq) (seed firstCommittee : List Nat) :
    ∀ (rounds i v : Nat), i + rounds ≤ 2 ^ 64 →
      proposerLoop consts Hash m seed firstCommittee rounds i = .index v →
      firstCommittee ≠ [] ∧
      ∃ r j, i ≤ r ∧ r < i + rounds ∧ j < 32 ∧
        accepts consts Hash m seed firstCommittee r j = true ∧
        v = candidateIndex m.CurrentEpoch firstCommittee r j ∧
        ∀ r0 j0, i ≤ r0 → j0 < 32 → (r0 < r ∨ (r0 = r ∧ j0 < j)) →
          accepts consts Hash m seed firstCommittee r0 j0 = false := by
  intro rounds
  induction rounds with
  | zero =>
    intro i v _ h
    simp [proposerLoop] at h
  | succ rounds ih =>
    intro i v hbound h
    unfold proposerLoop at h
    by_cases hlen : firstCommittee.length = 0
    · rw [if_pos hlen] at h
      cases h
    · rw [if_neg hlen] at h
      have hne : firstCommittee ≠ [] := fun hnil => hlen (by rw [hnil]; rfl)
      cases hround : roundCandidate consts Hash m seed firstCommittee i with
      | some c =>
        rw [hround] at h
        simp only [ProposerOutcome.index.injEq] at h
        obtain ⟨j, hj, hacc, hc, hbelow⟩ :=
          (roundCandidate_some consts Hash m seed firstCommittee i c).1 hround
        refine ⟨hne, i, j, le_refl i, by omega, hj, hacc, h ▸ hc, ?_⟩
        intro r0 j0 hr0 _ hearlier
        rcases hearlier with hlt | ⟨heq, hlt⟩
        · omega
        · rw [heq]
          exact hbelow j0 hlt
      | none =>
        rw [hround] at h
        simp only [] at h
        have hfail := (roundCandidate_none consts Hash m seed firstCommittee i).1 hround
        cases rounds with
        | zero => simp [proposerLoop] at h
        | succ rounds =>
          rw [u64_succ i (by omega)] at h
          obtain ⟨_, r, j, hir, hr, hj, hacc, hv, hbelow⟩ := ih (i + 1) v (by omega) h
          refine ⟨hne, r, j, by omega, by omega, hj, hacc, hv, ?_⟩
          intro r0 j0 hr0 hj0 hearlier
          rcases Nat.eq_or_lt_of_le hr0 with heq | hlt
          · rw [← heq]
            exact hfail j0 hj0
          · exact hbelow r0 j0 hlt hj0 hearlier

/-- The loop returns the candidate of the first pair of a round and a byte that passes the
test, once it is followed beyond that round. -/
theorem proposerLoop_first (consts : SeedConstants) (Hash : List Nat → List Nat)
    (m : ProposingReq) (seed firstCommittee : List Nat) (hne : firstCommittee ≠ [])
    (r j : Nat) (hr : r < 2 ^ 64) (hj : j < 32)
    (hacc : accepts consts Hash m seed firstCommittee r j = true) :
    ∀ (rounds i : Nat), i ≤ r → r < i + rounds →
      (∀ r0 j0, i ≤ r0 → j0 < 32 → (r0 < r ∨ (r0 = r ∧ j0 < j)) →
        accepts consts Hash m seed firstCommittee r0 j0 = false) →
      proposerLoop consts Hash m seed firstCommittee rounds i
        = .index (candidateIndex m.CurrentEpoch firstCommittee r j) := by
  have hlen : ¬ firstCommittee.length = 0 := fun h => hne (List.length_eq_zero.1 h)
  intro rounds
  induction rounds with
  | zero =>
    intro i hir hrounds _
    omega
  | succ rounds ih =>
    intro i hir hrounds hearlier
    unfold proposerLoop
    rw [if_neg hlen]
    rcases Nat.eq_or_lt_of_le hir with heq | hlt
    · have hround : roundCandidate consts Hash m seed firstCommittee i
          = some (candidateIndex m.CurrentEpoch firstCommittee r j) := by
        rw [roundCandidate_some]
        refine ⟨j, hj, heq ▸ hacc, by rw [heq], ?_⟩
        intro k hk
        exact hearlier i k (le_refl i) (by omega) (Or.inr ⟨heq, hk⟩)
      rw [hround]
    · have hround : roundCandidate consts Hash m seed firstCommittee i = none := by
        rw [roundCandidate_none]
        intro k hk
        exact hearlier i k (le_refl i) hk (Or.inl hlt)
      rw [hround]
      simp only []
      rw [u64_succ i (by omega)]
      apply ih (i + 1) (by omega) (by omega)
      intro r0 j0 hr0 hj0 h
      exact hearlier r0 j0 (by omega) hj0 h

/-- The loop is still running after a number of rounds in which every candidate failed the
test. -/
theorem proposerLoop_running (consts : SeedConstants) (Hash : List Nat → List Nat)
    (m : ProposingReq) (seed firstCommittee : List Nat) (hne : firstCommittee ≠ []) :
    ∀ (rounds i : Nat), i + rounds ≤ 2 ^ 64 →
      (∀ r j, i ≤ r → r < i + rounds → j < 32 →
        accepts consts Hash m seed firstCommittee r j = false) →
      proposerLoop consts Hash m seed firstCommittee rounds i = .running := by
  have hlen : ¬ firstCommittee.length = 0 := fun h => hne (List.length_eq_zero.1 h)
  intro rounds
  induction rounds with
  | zero =>
    intro i _ _
    rfl
  | succ rounds ih =>
    intro i hbound hfail
    unfold proposerLoop
    rw [if_neg hlen]
    have hround : roundCandidate consts Hash m seed firstCommittee i = none := by
      rw [roundCandidate_none]
      intro k hk
      exact hfail i k (le_refl i) (by omega) hk
    rw [hround]
    simp only []
    cases rounds with
    | zero => rfl
    | succ rounds =>
      rw [u64_succ i (by omega)]
      apply ih (i + 1) (by omega)
      intro r j hr1 hr2 hj
      exact hfail r j (by omega) (by omega) hj

/-- The loop never stops when no candidate of any round passes the test. -/
theorem proposerLoop_forever (consts : SeedConstants) (Hash : List Nat → List Nat)
    (m : ProposingReq) (seed firstCommittee : List Nat) (hne : firstCommittee ≠ [])
    (hfail : ∀ r j, j < 32 → accepts consts Hash m seed firstCommittee r j = false) :
    ∀ (rounds i : Nat),
      proposerLoop consts Hash m seed firstCommittee rounds i = .running := by
  have hlen : ¬ firstCommittee.length = 0 := fun h => hne (List.length_eq_zero.1 h)
  intro rounds
  induction rounds with
  | zero =>
    intro i
    rfl
  | succ rounds ih =>
    intro i
    unfold proposerLoop
    rw [if_neg hlen, (roundCandidate_none consts Hash m seed firstCommittee i).2 (hfail i)]
    exact ih _

/-- The loop over a committee that is not empty does not divide by zero. -/
theorem proposerLoop_no_fault (consts : SeedConstants) (Hash : List Nat → List Nat)
    (m : ProposingReq) (seed firstCommittee : List Nat) (hne : firstCommittee ≠ []) :
    ∀ (rounds i : Nat),
      proposerLoop consts Hash m seed firstCommittee rounds i ≠ .divideByZero := by
  have hlen : ¬ firstCommittee.length = 0 := fun h => hne (List.length_eq_zero.1 h)
  intro rounds
  induction rounds with
  | zero =>
    intro i h
    simp [proposerLoop] at h
  | succ rounds ih =>
    intro i
    unfold proposerLoop
    rw [if_neg hlen]
    cases roundCandidate consts Hash m seed firstCommittee i with
    | some c =>
      intro h
      cases h
    | none => exact ih _

/-- A candidate whose effective balance is `MAX_EFFECTIVE_BALANCE` passes the test against
every byte. -/
theorem accepts_of_max (consts : SeedConstants) (Hash : List Nat → List Nat)
    (m : ProposingReq) (seed firstCommittee : List Nat) (i j : Nat)
    (hbalance : m.EffectiveBalance (candidateIndex m.CurrentEpoch firstCommittee i j)
      = consts.MAX_EFFECTIVE_BALANCE)
    (hmax : consts.MAX_EFFECTIVE_BALANCE * 255 < 2 ^ 64)
    (hbyte : (roundHash Hash seed i).getD j 0 ≤ 255) :
    accepts consts Hash m seed firstCommittee i j = true := by
  unfold accepts
  simp only [hbalance, decide_eq_true_eq, ge_iff_le]
  have hle : consts.MAX_EFFECTIVE_BALANCE * (roundHash Hash seed i).getD j 0
      ≤ consts.MAX_EFFECTIVE_BALANCE * 255 := Nat.mul_le_mul_left _ hbyte
  unfold u64
  rw [Nat.mod_eq_of_lt (lt_of_le_of_lt hle hmax), Nat.mod_eq_of_lt hmax]
  exact hle

/-- With validators of no balance and hash bytes equal to `1`, every candidate fails the
test. -/
theorem accepts_sample_zero (seed firstCommittee : List Nat) (i j : Nat) (hj : j < 32) :
    accepts sampleSeedConstants onesHash (sampleReq (fun _ => 0)) seed firstCommittee i j
      = false := by
  have hbyte : (roundHash onesHash seed i).getD j 0 = 1 := by
    unfold roundHash onesHash
    simp only []
    interval_cases j <;> rfl
  unfold accepts
  simp only [hbyte]
  show decide (u64 (0 * 0xff) ≥ u64 (32000000000 * 1)) = false
  unfold u64
  norm_num

/-- A loop that is still running has seen every candidate of its rounds fail the test. -/
theorem proposerLoop_running_fails (consts : SeedConstants) (Hash : List Nat → List Nat)
    (m : ProposingReq) (seed firstCommittee : List Nat) :
    ∀ (rounds i : Nat), i + rounds ≤ 2 ^ 64 →
      proposerLoop consts Hash m seed firstCommittee rounds i = .running →
      ∀ r j, i ≤ r → r < i + rounds → j < 32 →
        accepts consts Hash m seed firstCommittee r j = false := by
  intro rounds
  induction rounds with
  | zero =>
    intro i _ _ r j hr1 hr2 _
    omega
  | succ rounds ih =>
    intro i hbound h r j hr1 hr2 hj
    unfold proposerLoop at h
    by_cases hlen : firstCommittee.length = 0
    · rw [if_pos hlen] at h
      cases h
    · rw [if_neg hlen] at h
      cases hround : roundCandidate consts Hash m seed firstCommittee i with
      | some c =>
        rw [hround] at h
        cases h
      | none =>
        rw [hround] at h
        simp only [] at h
        rcases Nat.eq_or_lt_of_le hr1 with heq | hlt
        · rw [← heq]
          exact (roundCandidate_none consts Hash m seed firstCommittee i).1 hround j hj
        · rw [u64_succ i (by omega)] at h
          exact ih (i + 1) (by omega) h r j hlt (by omega) hj

/-- A loop that has returned a validator index returns the same index when it is followed
for more rounds. -/
theorem proposerLoop_more (consts : SeedConstants) (Hash : List Nat → List Nat)
    (m : ProposingReq) (seed firstCommittee : List Nat) (k : Nat) :
    ∀ (rounds i v : Nat),
      proposerLoop consts Hash m seed firstCommittee rounds i = .index v →
      proposerLoop consts Hash m seed firstCommittee (rounds + k) i = .index v := by
  intro rounds
  induction rounds with
  | zero =>
    intro i v h
    simp [proposerLoop] at h
  | succ rounds ih =>
    intro i v h
    rw [Nat.add_right_comm]
    unfold proposerLoop at h ⊢
    by_cases hlen : firstCommittee.length = 0
    · rw [if_pos hlen] at h
      cases h
    · rw [if_neg hlen] at h ⊢
      cases hround : roundCandidate consts Hash m seed firstCommittee i with
      | some c =>
        rw [hround] at h
        exact h
      | none =>
        rw [hround] at h
        exact ih _ v h

/-- The position of the candidate without a wrap of the 64-bit sums. -/
theorem candidateIndex_exact (epoch : Nat) (firstCommittee : List Nat) (i j : Nat)
    (hshift : i <<< 5 < 2 ^ 64) (hsum : epoch + (i <<< 5 ||| j) < 2 ^ 64) :
    candidateIndex epoch firstCommittee i j
      = firstCommittee.getD ((epoch + (i <<< 5 ||| j)) % firstCommittee.length) 0 := by
  unfold candidateIndex u64
  rw [Nat.mod_eq_of_lt hshift, Nat.mod_eq_of_lt hsum]

/-- The hash of a round is the hash of the seed of 32 bytes followed by the little-endian
bytes of the round counter. -/
theorem roundHash_eq (Hash : List Nat → List Nat) (seed : List Nat) (i : Nat)
    (hseed : seed.length = 32) :
    roundHash Hash seed i = Hash (seed ++ littleEndian64 i) := by
  unfold roundHash
  simp only []
  have hle : (littleEndian64 i).length = 8 := by simp [littleEndian64]
  have h1 : copyAt (List.replicate (32 + 8) 0) 0 32 seed = seed ++ List.replicate 8 0 := by
    have := copyAt_append [] (List.replicate (32 + 8) 0) seed 32 hseed
    simpa using this
  have h2 : copyAt (seed ++ List.replicate 8 0) 32 8 (littleEndian64 i)
      = seed ++ littleEndian64 i := by
    have := copyAt_append seed (List.replicate 8 0) (littleEndian64 i) 8 hle
    rw [hseed] at this
    simpa using this
  rw [h1, h2]

/-- The test of a candidate without a wrap of the 64-bit products. -/
theorem accepts_exact (consts : SeedConstants) (Hash : List Nat → List Nat)
    (m : ProposingReq) (seed firstCommittee : List Nat) (i j : Nat)
    (hseed : seed.length = 32)
    (hbalance : m.EffectiveBalance (candidateIndex m.CurrentEpoch firstCommittee i j) * 255
      < 2 ^ 64)
    (hmax : consts.MAX_EFFECTIVE_BALANCE * (Hash (seed ++ littleEndian64 i)).getD j 0
      < 2 ^ 64) :
    (accepts consts Hash m seed firstCommittee i j = true ↔
      m.EffectiveBalance (candidateIndex m.CurrentEpoch firstCommittee i j) * 255
        ≥ consts.MAX_EFFECTIVE_BALANCE * (Hash (seed ++ littleEndian64 i)).getD j 0) := by
  unfold accepts
  simp only [roundHash_eq Hash seed i hseed, decide_eq_true_eq]
  unfold u64
  rw [Nat.mod_eq_of_lt hbalance, Nat.mod_eq_of_lt hmax]

/-- C22: when `GetBeaconProposerIndex` returns a validator within `2 ^ 64` rounds, this
validator is the candidate `firstCommittee[(epoch + (i<<5 | j)) mod len(firstCommittee)]` of a
pair of a round `i` and a byte index `j < 32` that passes the test, and every candidate of an
earlier pair, in increasing order of `(i, j)`, failed it; when a first pair that passes the
test exists over a committee that is not empty, the method returns its candidate once followed
beyond the round `i`; a first candidate with the effective balance `MAX_EFFECTIVE_BALANCE` is
returned in the first round. Without a wrap of the 64-bit sums and products the candidate sits
at the position `(epoch + (i<<5 | j)) mod len(firstCommittee)` and the test is
`effectiveBalance * 255 >= MAX_EFFECTIVE_BALANCE * Hash(seed ++ littleEndian64 i)[j]`. -/
theorem GetBeaconProposerIndex_first_accepted (core : Core) (consts : SeedConstants)
    (Hash : List Nat → List Nat) (state : ShufflingState) (m : ProposingReq) :
    (∀ rounds v, rounds ≤ 2 ^ 64 →
      state.GetBeaconProposerIndex core consts Hash m rounds = .index v →
      ∃ i j, i < rounds ∧ j < 32 ∧
        accepts consts Hash m (seedOf consts Hash state m) (firstCommitteeOf core m) i j
          = true ∧
        v = candidateIndex m.CurrentEpoch (firstCommitteeOf core m) i j ∧
        ∀ i0 j0, j0 < 32 → (i0 < i ∨ (i0 = i ∧ j0 < j)) →
          accepts consts Hash m (seedOf consts Hash state m) (firstCommitteeOf core m) i0 j0
            = false) ∧
    (∀ i j, firstCommitteeOf core m ≠ [] → i < 2 ^ 64 → j < 32 →
      accepts consts Hash m (seedOf consts Hash state m) (firstCommitteeOf core m) i j
        = true →
      (∀ i0 j0, j0 < 32 → (i0 < i ∨ (i0 = i ∧ j0 < j)) →
        accepts consts Hash m (seedOf consts Hash state m) (firstCommitteeOf core m) i0 j0
          = false) →
      ∀ rounds, i < rounds →
        state.GetBeaconProposerIndex core consts Hash m rounds
          = .index (candidateIndex m.CurrentEpoch (firstCommitteeOf core m) i j)) ∧
    (firstCommitteeOf core m ≠ [] →
      m.EffectiveBalance (candidateIndex m.CurrentEpoch (firstCommitteeOf core m) 0 0)
        = consts.MAX_EFFECTIVE_BALANCE →
      consts.MAX_EFFECTIVE_BALANCE * 255 < 2 ^ 64 →
      (roundHash Hash (seedOf consts Hash state m) 0).getD 0 0 ≤ 255 →
      ∀ rounds, 0 < rounds →
        state.GetBeaconProposerIndex core consts Hash m rounds
          = .index (candidateIndex m.CurrentEpoch (firstCommitteeOf core m) 0 0)) ∧
    (∀ i j, i <<< 5 < 2 ^ 64 → m.CurrentEpoch + (i <<< 5 ||| j) < 2 ^ 64 →
      candidateIndex m.CurrentEpoch (firstCommitteeOf core m) i j
        = (firstCommitteeOf core m).getD
            ((m.CurrentEpoch + (i <<< 5 ||| j)) % (firstCommitteeOf core m).length) 0) ∧
    (∀ i j, (seedOf consts Hash state m).length = 32 →
      m.EffectiveBalance (candidateIndex m.CurrentEpoch (firstCommitteeOf core m) i j) * 255
        < 2 ^ 64 →
      consts.MAX_EFFECTIVE_BALANCE
          * (Hash (seedOf consts Hash state m ++ littleEndian64 i)).getD j 0 < 2 ^ 64 →
      (accepts consts Hash m (seedOf consts Hash state m) (firstCommitteeOf core m) i j
          = true ↔
        m.EffectiveBalance (candidateIndex m.CurrentEpoch (firstCommitteeOf core m) i j) * 255
          ≥ consts.MAX_EFFECTIVE_BALANCE
            * (Hash (seedOf consts Hash state m ++ littleEndian64 i)).getD j 0)) := by
  refine ⟨?_, ?_, ?_, ?_, ?_⟩
  · intro rounds v hrounds h
    obtain ⟨_, i, j, _, hi, hj, hacc, hv, hearlier⟩ :=
      proposerLoop_index consts Hash m _ _ rounds 0 v (by omega) h
    exact ⟨i, j, by omega, hj, hacc, hv, fun i0 j0 hj0 h0 =>
      hearlier i0 j0 (Nat.zero_le i0) hj0 h0⟩
  · intro i j hne hi hj hacc hearlier rounds hrounds
    exact proposerLoop_first consts Hash m _ _ hne i j hi hj hacc rounds 0 (Nat.zero_le i)
      (by omega) (fun i0 j0 _ hj0 h0 => hearlier i0 j0 hj0 h0)
  · intro hne hbalance hmax hbyte rounds hrounds
    have hacc := accepts_of_max consts Hash m (seedOf consts Hash state m)
      (firstCommitteeOf core m) 0 0 hbalance hmax hbyte
    refine proposerLoop_first consts Hash m _ _ hne 0 0 (by norm_num) (by norm_num) hacc
      rounds 0 (le_refl 0) (by omega) ?_
    intro i0 j0 _ _ h0
    omega
  · intro i j hshift hsum
    exact candidateIndex_exact _ _ i j hshift hsum
  · intro i j hseed hbalance hmax
    exact accepts_exact consts Hash m _ _ i j hseed hbalance hmax

theorem GetBeaconProposerIndex_first_accepted_witness :
    sampleShuffling.GetBeaconProposerIndex sampleCore sampleSeedConstants onesHash
        (sampleReq (fun _ => 32000000000)) 1 = .index 3 ∧
    sampleShuffling.GetBeaconProposerIndex sampleCore sampleSeedConstants onesHash
        (sampleReq (fun v => if v = 9 then 32000000000 else 0)) 1 = .index 9 :=
  ⟨(GetBeaconProposerIndex_first_accepted sampleCore sampleSeedConstants onesHash
      sampleShuffling (sampleReq (fun _ => 32000000000))).2.2.1
      (by decide) rfl (by decide) (by decide) 1 (by decide),
    (GetBeaconProposerIndex_first_accepted sampleCore sampleSeedConstants onesHash
      sampleShuffling (sampleReq (fun v => if v = 9 then 32000000000 else 0))).2.1 0 1
      (by decide) (by decide) (by decide) (by decide)
      (fun i0 j0 _ h0 => by
        rcases h0 with h | ⟨hi, hj⟩
        · omega
        · have hj0 : j0 = 0 := by omega
          subst hi
          subst hj0
          decide)
      1 (by decide)⟩

/-- C23 (the stated claim fails): over the committee `[7, 3, 9, 4]` of validators with no
effective balance and with hash bytes equal to `1`, the loop of `GetBeaconProposerIndex` is
still running after every number of rounds: it has no ceiling, and it reports nothing. -/
theorem GetBeaconProposerIndex_no_ceiling :
    firstCommitteeOf sampleCore (sampleReq (fun _ => 0)) = [7, 3, 9, 4] ∧
    ∀ rounds, sampleShuffling.GetBeaconProposerIndex sampleCore sampleSeedConstants onesHash
      (sampleReq (fun _ => 0)) rounds = .running :=
  ⟨rfl, fun rounds =>
    proposerLoop_forever sampleSeedConstants onesHash (sampleReq (fun _ => 0)) _ _
      (by decide) (fun i j hj => accepts_sample_zero _ _ i j hj) rounds 0⟩

/-- C23: over a committee that is not empty the loop of `GetBeaconProposerIndex` has no
ceiling and no exhaustion error: it is still running after `n <= 2 ^ 64` rounds whenever every
candidate of these rounds fails the test, it never stops when no candidate of any round passes
the test, it never divides by zero, and it returns a validator index once followed beyond a
round `i` in which some candidate passes the test. -/
theorem GetBeaconProposerIndex_runs_while_rejected (core : Core) (consts : SeedConstants)
    (Hash : List Nat → List Nat) (state : ShufflingState) (m : ProposingReq)
    (hne : firstCommitteeOf core m ≠ []) :
    (∀ rounds, rounds ≤ 2 ^ 64 →
      (∀ i j, i < rounds → j < 32 →
        accepts consts Hash m (seedOf consts Hash state m) (firstCommitteeOf core m) i j
          = false) →
      state.GetBeaconProposerIndex core consts Hash m rounds = .running) ∧
    ((∀ i j, j < 32 →
        accepts consts Hash m (seedOf consts Hash state m) (firstCommitteeOf core m) i j
          = false) →
      ∀ rounds, state.GetBeaconProposerIndex core consts Hash m rounds = .running) ∧
    (∀ rounds, state.GetBeaconProposerIndex core consts Hash m rounds ≠ .divideByZero) ∧
    (∀ i j, i < 2 ^ 64 → j < 32 →
      accepts consts Hash m (seedOf consts Hash state m) (firstCommitteeOf core m) i j
        = true →
      ∃ v, ∀ rounds, i < rounds →
        state.GetBeaconProposerIndex core consts Hash m rounds = .index v) := by
  refine ⟨?_, ?_, ?_, ?_⟩
  · intro rounds hrounds hfail
    exact proposerLoop_running consts Hash m _ _ hne rounds 0 (by omega)
      (fun r j _ hr hj => hfail r j (by omega) hj)
  · intro hfail rounds
    exact proposerLoop_forever consts Hash m _ _ hne hfail rounds 0
  · intro rounds
    exact proposerLoop_no_fault consts Hash m _ _ hne rounds 0
  · intro i j hi hj hacc
    have hstop : ∃ v, proposerLoop consts Hash m (seedOf consts Hash state m)
        (firstCommitteeOf core m) (i + 1) 0 = .index v := by
      cases hres : proposerLoop consts Hash m (seedOf consts Hash state m)
          (firstCommitteeOf core m) (i + 1) 0 with
      | index v => exact ⟨v, rfl⟩
      | divideByZero => exact absurd hres (proposerLoop_no_fault consts Hash m _ _ hne _ 0)
      | running =>
        have := proposerLoop_running_fails consts Hash m _ _ (i + 1) 0 (by omega) hres i j
          (Nat.zero_le i) (by omega) hj
        rw [hacc] at this
        cases this
    obtain ⟨v, hv⟩ := hstop
    refine ⟨v, fun rounds hrounds => ?_⟩
    have hsplit : rounds = (i + 1) + (rounds - (i + 1)) := by omega
    unfold ShufflingState.GetBeaconProposerIndex
    simp only []
    rw [hsplit]
    exact proposerLoop_more consts Hash m _ _ _ (i + 1) 0 v hv

theorem GetBeaconProposerIndex_runs_while_rejected_witness :
    sampleShuffling.GetBeaconProposerIndex sampleCore sampleSeedConstants onesHash
        (sampleReq (fun _ => 0)) 1000 = .running ∧
    ∃ v, ∀ rounds, 0 < rounds →
      sampleShuffling.GetBeaconProposerIndex sampleCore sampleSeedConstants onesHash
        (sampleReq (fun _ => 32000000000)) rounds = .index v :=
  ⟨(GetBeaconProposerIndex_runs_while_rejected sampleCore sampleSeedConstants onesHash
      sampleShuffling (sampleReq (fun _ => 0)) (by decide)).1 1000 (by decide)
      (fun i j _ hj => accepts_sample_zero _ _ i j hj),
    (GetBeaconProposerIndex_runs_while_rejected sampleCore sampleSeedConstants onesHash
      sampleShuffling (sampleReq (fun _ => 32000000000)) (by decide)).2.2.2 0 0
      (by decide) (by decide) (by decide)⟩

end Shuffling

namespace Phase0

/-- A division by a divisor that is not zero returns the quotient. -/
theorem divU64_total (a b : Nat) (h : b ≠ 0) : divU64 a b = .ok (a / b) := by
  unfold divU64
  rw [if_neg h]

/-- An addition at a position of the slice returns the updated slice. -/
theorem addAt_total (l : List Nat) (k v : Nat) (h : k < l.length) :
    addAt l k v = .ok (l.set k (u64 (l.getD k 0 + v))) := by
  unfold addAt
  rw [if_pos h]

/-- A block of an expected vote returns, on a ledger that has the position `i`, when the
normalised total balance is not zero. -/
theorem expectedVoteBlock_total (attested isInactivityLeak : Bool)
    (baseReward stake totalBalance i : Nat) (d : Deltas)
    (hR : i < d.Rewards.length) (hP : i < d.Penalties.length) (htotal : totalBalance ≠ 0) :
    ∃ d1, expectedVoteBlock attested isInactivityLeak baseReward stake totalBalance i d
        = .ok d1 ∧ sameLengths d1 d := by
  unfold expectedVoteBlock sameLengths
  cases attested <;> cases isInactivityLeak <;>
    simp [divU64_total _ _ htotal, addAt_total _ _ _ hR, addAt_total _ _ _ hP, bind,
      Except.bind, pure, Except.pure]

/-- The block of the inclusion delay returns, on a ledger that has the positions of the
validator and of its proposer, when neither divisor is zero. -/
theorem inclusionDelayBlock_total (spec : Spec) (status : AttesterStatus)
    (baseReward i : Nat) (d : Deltas)
    (hquot : spec.PROPOSER_REWARD_QUOTIENT ≠ 0) (hdelay : status.InclusionDelay ≠ 0)
    (hproposer : status.AttestedProposer < d.Rewards.length) (hR : i < d.Rewards.length) :
    ∃ d1, inclusionDelayBlock spec status baseReward i d = .ok d1 ∧ sameLengths d1 d := by
  unfold inclusionDelayBlock sameLengths
  have h2 : i < (d.Rewards.set status.AttestedProposer
      (u64 (d.Rewards.getD status.AttestedProposer 0
        + baseReward / spec.PROPOSER_REWARD_QUOTIENT))).length := by
    rw [List.length_set]
    exact hR
  simp only [divU64_total _ _ hquot, divU64_total _ _ hdelay, addAt_total _ _ _ hproposer,
    addAt_total _ _ _ h2, bind, Except.bind, pure, Except.pure]
  exact ⟨_, rfl, by simp, rfl⟩

/-- The block of the inactivity leak returns, on a ledger that has the position `i`, when
neither quotient is zero. -/
theorem inactivityBlock_total (common : Common) (spec : Spec) (status : AttesterStatus)
    (effBalance baseReward finalityDelay i : Nat) (d : Deltas)
    (hquot : spec.PROPOSER_REWARD_QUOTIENT ≠ 0) (hleak : spec.INACTIVITY_PENALTY_QUOTIENT ≠ 0)
    (hP : i < d.Penalties.length) :
    ∃ d1, inactivityBlock common spec status effBalance baseReward finalityDelay i d
        = .ok d1 ∧ sameLengths d1 d := by
  unfold inactivityBlock sameLengths
  have h2 : i < (d.Penalties.set i
      (u64 (d.Penalties.getD i 0
        + subU64 (u64 (common.BASE_REWARDS_PER_EPOCH * baseReward))
            (baseReward / spec.PROPOSER_REWARD_QUOTIENT)))).length := by
    rw [List.length_set]
    exact hP
  cases HasMarkers status.Flags (common.PrevTargetAttester ||| common.UnslashedAttester) <;>
    simp only [divU64_total _ _ hquot, divU64_total _ _ hleak, addAt_total _ _ _ hP,
      addAt_total _ _ _ h2, bind, Except.bind, pure, Except.pure, Bool.false_eq_true,
      not_false_eq_true, not_true_eq_false, if_true, if_false] <;>
    exact ⟨_, rfl, rfl, by simp⟩

/-- A bind after a returned value continues with that value. -/
theorem ok_bind {α β : Type} (a : α) (f : α → Except Fault β) :
    ((Except.ok a : Except Fault α) >>= f) = f a := rfl

/-- The body of the loop returns, with ledgers of the same lengths, for a validator `i` below
the number `n` of validators, when no divisor is zero and a status with `PrevSourceAttester`
and `UnslashedAttester` has an inclusion delay that is not zero and a proposer below `n`. -/
theorem loopBody_total (common : Common) (spec : Spec) (locals : LoopLocals) (i n : Nat)
    (status : AttesterStatus) (res : RewardsAndPenalties)
    (hroot : locals.balanceSqRoot ≠ 0) (hper : common.BASE_REWARDS_PER_EPOCH ≠ 0)
    (htotal : locals.totalBalance ≠ 0)
    (hquot : spec.PROPOSER_REWARD_QUOTIENT ≠ 0) (hleak : spec.INACTIVITY_PENALTY_QUOTIENT ≠ 0)
    (hstatus : HasMarkers status.Flags (common.PrevSourceAttester ||| common.UnslashedAttester)
        = true → status.InclusionDelay ≠ 0 ∧ status.AttestedProposer < n)
    (hi : i < n) (hlen : ledgerLengths res n) :
    ∃ res1, loopBody common spec locals i status res = .ok res1 ∧ ledgerLengths res1 n := by
  obtain ⟨hsr, hsp, htr, htp, hhr, hhp, hir, hip, hlr, hlp⟩ := hlen
  unfold loopBody
  simp only [divU64_total _ _ hroot, divU64_total _ _ hper, ok_bind]
  generalize u64 (status.Validator.EffectiveBalance * spec.BASE_REWARD_FACTOR)
    / locals.balanceSqRoot / common.BASE_REWARDS_PER_EPOCH = baseReward
  have hinclusion : ∃ d1,
      (if HasMarkers status.Flags (common.PrevSourceAttester ||| common.UnslashedAttester)
          = true then
        inclusionDelayBlock spec status baseReward i res.InclusionDelay
      else pure res.InclusionDelay) = Except.ok d1 ∧ sameLengths d1 res.InclusionDelay := by
    by_cases hm : HasMarkers status.Flags
        (common.PrevSourceAttester ||| common.UnslashedAttester) = true
    · rw [if_pos hm]
      exact inclusionDelayBlock_total spec status baseReward i res.InclusionDelay hquot
        (hstatus hm).1 (hir.symm ▸ (hstatus hm).2) (hir.symm ▸ hi)
    · rw [if_neg hm]
      exact ⟨_, rfl, rfl, rfl⟩
  obtain ⟨inclusion, hinclusionEq, hinclusionR, hinclusionP⟩ := hinclusion
  rw [hinclusionEq]
  simp only [ok_bind]
  by_cases heligible : status.Flags &&& common.EligibleAttester ≠ 0
  · rw [if_pos heligible]
    obtain ⟨source, hsourceEq, hsourceR, hsourceP⟩ := expectedVoteBlock_total
      (HasMarkers status.Flags (common.PrevSourceAttester ||| common.UnslashedAttester))
      locals.isInactivityLeak baseReward locals.prevEpochSourceStake locals.totalBalance i
      res.Source (hsr.symm ▸ hi) (hsp.symm ▸ hi) htotal
    obtain ⟨target, htargetEq, htargetR, htargetP⟩ := expectedVoteBlock_total
      (HasMarkers status.Flags (common.PrevTargetAttester ||| common.UnslashedAttester))
      locals.isInactivityLeak baseReward locals.prevEpochTargetStake locals.totalBalance i
      res.Target (htr.symm ▸ hi) (htp.symm ▸ hi) htotal
    obtain ⟨head, hheadEq, hheadR, hheadP⟩ := expectedVoteBlock_total
      (HasMarkers status.Flags (common.PrevHeadAttester ||| common.UnslashedAttester))
      locals.isInactivityLeak baseReward locals.prevEpochHeadStake locals.totalBalance i
      res.Head (hhr.symm ▸ hi) (hhp.symm ▸ hi) htotal
    have hinactivity : ∃ d1,
        (if locals.isInactivityLeak = true then
          inactivityBlock common spec status status.Validator.EffectiveBalance baseReward
            locals.finalityDelay i res.Inactivity
        else pure res.Inactivity) = Except.ok d1 ∧ sameLengths d1 res.Inactivity := by
      by_cases hl : locals.isInactivityLeak = true
      · rw [if_pos hl]
        exact inactivityBlock_total common spec status _ baseReward _ i res.Inactivity hquot
          hleak (hlp.symm ▸ hi)
      · rw [if_neg hl]
        exact ⟨_, rfl, rfl, rfl⟩
    obtain ⟨inactivity, hinactivityEq, hinactivityR, hinactivityP⟩ := hinactivity
    rw [hsourceEq]
    simp only [ok_bind]
    rw [htargetEq]
    simp only [ok_bind]
    rw [hheadEq]
    simp only [ok_bind]
    rw [hinactivityEq]
    simp only [ok_bind]
    exact ⟨_, rfl, hsourceR.trans hsr, hsourceP.trans hsp, htargetR.trans htr,
      htargetP.trans htp, hheadR.trans hhr, hheadP.trans hhp, hinclusionR.trans hir,
      hinclusionP.trans hip, hinactivityR.trans hlr, hinactivityP.trans hlp⟩
  · rw [if_neg heligible]
    exact ⟨_, rfl, hsr, hsp, htr, htp, hhr, hhp, hinclusionR.trans hir,
      hinclusionP.trans hip, hlr, hlp⟩

/-- The loop returns ledgers of the same lengths or ends on a cancelled context, one that a
poll has found cancelled. -/
theorem rewardsLoop_total (ctxDone : Nat → Bool) (common : Common) (spec : Spec)
    (locals : LoopLocals) (n : Nat)
    (hroot : locals.balanceSqRoot ≠ 0) (hper : common.BASE_REWARDS_PER_EPOCH ≠ 0)
    (htotal : locals.totalBalance ≠ 0)
    (hquot : spec.PROPOSER_REWARD_QUOTIENT ≠ 0)
    (hleak : spec.INACTIVITY_PENALTY_QUOTIENT ≠ 0) :
    ∀ (statuses : List AttesterStatus) (i : Nat) (res : RewardsAndPenalties),
      i + statuses.length = n → ledgerLengths res n →
      (∀ status, status ∈ statuses →
        HasMarkers status.Flags (common.PrevSourceAttester ||| common.UnslashedAttester)
          = true → status.InclusionDelay ≠ 0 ∧ status.AttestedProposer < n) →
      (∃ res1, rewardsLoop ctxDone common spec locals i statuses res = .ok res1 ∧
        ledgerLengths res1 n) ∨
      (rewardsLoop ctxDone common spec locals i statuses res = .error .TransitionCancelErr ∧
        ∃ k, ctxDone k = true) := by
  intro statuses
  induction statuses with
  | nil =>
    intro i res _ hlen _
    exact Or.inl ⟨res, rfl, hlen⟩
  | cons status rest ih =>
    intro i res hcount hlen hstatus
    unfold rewardsLoop
    by_cases hpoll : i &&& ((1 <<< 10) - 1) = 0 ∧ ctxDone (i >>> 10) = true
    · rw [if_pos hpoll]
      exact Or.inr ⟨rfl, _, hpoll.2⟩
    · rw [if_neg hpoll]
      have hi : i < n := by
        rw [List.length_cons] at hcount
        omega
      obtain ⟨res1, hbody, hlen1⟩ := loopBody_total common spec locals i n status res hroot
        hper htotal hquot hleak (hstatus status (List.mem_cons_self _ _)) hi hlen
      rw [hbody]
      simp only [ok_bind]
      apply ih (i + 1) res1 _ hlen1
      · intro s hs
        exact hstatus s (List.mem_cons_of_mem _ hs)
      · rw [List.length_cons] at hcount
        omega

/-- The locals are computed without a panic when the increment is not zero. -/
theorem loopLocals_total (spec : Spec) (epc : EpochsContext) (process : EpochProcess)
    (state : Beacon.BeaconStateView) (hinc : spec.EFFECTIVE_BALANCE_INCREMENT ≠ 0) :
    loopLocals spec epc process state = .ok (localsOf spec epc process state) := by
  unfold loopLocals
  simp only [divU64_total _ _ hinc, ok_bind]
  rfl

/-- The ten sequences of the new ledgers have the length of the validator count. -/
theorem NewRewardsAndPenalties_lengths (n : Nat) :
    ledgerLengths (NewRewardsAndPenalties n) n := by
  simp [ledgerLengths, NewRewardsAndPenalties, NewDeltas]

/-- C26: when `totalActiveStake >= EFFECTIVE_BALANCE_INCREMENT > 0`, the proposer reward
quotient and the inactivity penalty quotient are not zero, and every status with
`PrevSourceAttester` and `UnslashedAttester` has an inclusion delay of at least one and a
proposer below the number of statuses, `AttestationRewardsAndPenalties` ends neither in a
division by zero nor in an index out of range: it returns five ledgers whose rewards and
penalties have the length of the number of statuses, or the error `TransitionCancelErr` after
a poll that found the context cancelled; it returns the ledgers when the context is never
cancelled. The constant `BASE_REWARDS_PER_EPOCH` is not zero. -/
theorem AttestationRewardsAndPenalties_no_panic (ctxDone : Nat → Bool) (common : Common)
    (spec : Spec) (epc : EpochsContext) (process : EpochProcess)
    (state : Beacon.BeaconStateView)
    (hper : common.BASE_REWARDS_PER_EPOCH ≠ 0)
    (hinc : 0 < spec.EFFECTIVE_BALANCE_INCREMENT)
    (hstake : spec.EFFECTIVE_BALANCE_INCREMENT ≤ process.TotalActiveStake)
    (hquot : spec.PROPOSER_REWARD_QUOTIENT ≠ 0)
    (hleak : spec.INACTIVITY_PENALTY_QUOTIENT ≠ 0)
    (hstatus : ∀ status, status ∈ process.Statuses →
      HasMarkers status.Flags (common.PrevSourceAttester ||| common.UnslashedAttester)
        = true →
      1 ≤ status.InclusionDelay ∧ status.AttestedProposer < process.Statuses.length) :
    ((∃ res, AttestationRewardsAndPenalties ctxDone common spec epc process state = .ok res ∧
        ledgerLengths res process.Statuses.length) ∨
      (AttestationRewardsAndPenalties ctxDone common spec epc process state
          = .error .TransitionCancelErr ∧ ∃ k, ctxDone k = true)) ∧
    AttestationRewardsAndPenalties ctxDone common spec epc process state
      ≠ .error .divideByZero ∧
    AttestationRewardsAndPenalties ctxDone common spec epc process state
      ≠ .error .indexOutOfRange ∧
    ((∀ k, ctxDone k = false) →
      ∃ res, AttestationRewardsAndPenalties ctxDone common spec epc process state = .ok res ∧
        ledgerLengths res process.Statuses.length) := by
  have hroot : (localsOf spec epc process state).balanceSqRoot ≠ 0 := by
    show IntegerSquareroot process.TotalActiveStake ≠ 0
    unfold IntegerSquareroot
    exact Nat.pos_iff_ne_zero.1 (Nat.sqrt_pos.2 (lt_of_lt_of_le hinc hstake))
  have htotal : (localsOf spec epc process state).totalBalance ≠ 0 := by
    show process.TotalActiveStake / spec.EFFECTIVE_BALANCE_INCREMENT ≠ 0
    exact Nat.pos_iff_ne_zero.1 (Nat.div_pos hstake hinc)
  have hloop := rewardsLoop_total ctxDone common spec (localsOf spec epc process state)
    process.Statuses.length hroot hper htotal hquot hleak process.Statuses 0
    (NewRewardsAndPenalties process.Statuses.length) (Nat.zero_add _)
    (NewRewardsAndPenalties_lengths _)
    (fun status hmem hm => ⟨Nat.pos_iff_ne_zero.1 (hstatus status hmem hm).1,
      (hstatus status hmem hm).2⟩)
  have hrun : AttestationRewardsAndPenalties ctxDone common spec epc process state
      = rewardsLoop ctxDone common spec (localsOf spec epc process state) 0 process.Statuses
          (NewRewardsAndPenalties process.Statuses.length) := by
    unfold AttestationRewardsAndPenalties
    simp only [loopLocals_total spec epc process state (Nat.pos_iff_ne_zero.1 hinc), ok_bind]
  rw [hrun]
  refine ⟨hloop, ?_, ?_, ?_⟩
  · rcases hloop with ⟨res, hres, _⟩ | ⟨herr, _⟩
    · rw [hres]
      intro h
      cases h
    · rw [herr]
      intro h
      cases h
  · rcases hloop with ⟨res, hres, _⟩ | ⟨herr, _⟩
    · rw [hres]
      intro h
      cases h
    · rw [herr]
      intro h
      cases h
  · intro hnever
    rcases hloop with hok | ⟨_, k, hk⟩
    · exact hok
    · rw [hnever k] at hk
      cases hk

theorem AttestationRewardsAndPenalties_no_panic_witness :
    (∃ res, AttestationRewardsAndPenalties (fun _ => false) rewardsCommon rewardsSpec
        (epochsAt 3) rewardsProcess rewardsState = .ok res ∧ ledgerLengths res 4) ∧
    AttestationRewardsAndPenalties (fun k => decide (k = 0)) rewardsCommon rewardsSpec
        (epochsAt 9) rewardsProcess rewardsState ≠ .error .divideByZero :=
  ⟨(AttestationRewardsAndPenalties_no_panic (fun _ => false) rewardsCommon rewardsSpec
      (epochsAt 3) rewardsProcess rewardsState (by decide) (by decide) (by decide) (by decide)
      (by decide) (by decide)).2.2.2 (fun _ => rfl),
    (AttestationRewardsAndPenalties_no_panic (fun k => decide (k = 0)) rewardsCommon
      rewardsSpec (epochsAt 9) rewardsProcess rewardsState (by decide) (by decide) (by decide)
      (by decide) (by decide) (by decide)).2.1⟩

end Phase0

namespace Phase0

/-- With a context that is never cancelled, `AttestationRewardsAndPenalties` returns its
ledgers when no divisor is zero and every status with `PrevSourceAttester` and
`UnslashedAttester` has an inclusion delay of at least one and a proposer below the number of
statuses. -/
theorem AttestationRewardsAndPenalties_returns (ctxDone : Nat → Bool) (common : Common)
    (spec : Spec) (epc : EpochsContext) (process : EpochProcess)
    (state : Beacon.BeaconStateView)
    (hctx : ∀ k, ctxDone k = false)
    (hper : common.BASE_REWARDS_PER_EPOCH ≠ 0)
    (hinc : 0 < spec.EFFECTIVE_BALANCE_INCREMENT)
    (hstake : spec.EFFECTIVE_BALANCE_INCREMENT ≤ process.TotalActiveStake)
    (hquot : spec.PROPOSER_REWARD_QUOTIENT ≠ 0)
    (hleak : spec.INACTIVITY_PENALTY_QUOTIENT ≠ 0)
    (hstatus : ∀ s, s ∈ process.Statuses →
      HasMarkers s.Flags (common.PrevSourceAttester ||| common.UnslashedAttester) = true →
      1 ≤ s.InclusionDelay ∧ s.AttestedProposer < process.Statuses.length) :
    ∃ res, AttestationRewardsAndPenalties ctxDone common spec epc process state = .ok res ∧
      ledgerLengths res process.Statuses.length := by
  have hroot : (localsOf spec epc process state).balanceSqRoot ≠ 0 := by
    show IntegerSquareroot process.TotalActiveStake ≠ 0
    unfold IntegerSquareroot
    exact Nat.pos_iff_ne_zero.1 (Nat.sqrt_pos.2 (lt_of_lt_of_le hinc hstake))
  have htotal : (localsOf spec epc process state).totalBalance ≠ 0 := by
    show process.TotalActiveStake / spec.EFFECTIVE_BALANCE_INCREMENT ≠ 0
    exact Nat.pos_iff_ne_zero.1 (Nat.div_pos hstake hinc)
  have hloop := rewardsLoop_total ctxDone common spec (localsOf spec epc process state)
    process.Statuses.length hroot hper htotal hquot hleak process.Statuses 0
    (NewRewardsAndPenalties process.Statuses.length) (Nat.zero_add _)
    (NewRewardsAndPenalties_lengths _)
    (fun s hmem hm => ⟨Nat.pos_iff_ne_zero.1 (hstatus s hmem hm).1, (hstatus s hmem hm).2⟩)
  have hrun : AttestationRewardsAndPenalties ctxDone common spec epc process state
      = rewardsLoop ctxDone common spec (localsOf spec epc process state) 0 process.Statuses
          (NewRewardsAndPenalties process.Statuses.length) := by
    unfold AttestationRewardsAndPenalties
    simp only [loopLocals_total spec epc process state (Nat.pos_iff_ne_zero.1 hinc), ok_bind]
  rw [hrun]
  rcases hloop with hok | ⟨_, k, hk⟩
  · exact hok
  · rw [hctx k] at hk
    cases hk

/-- C15: for every validator `i` with the `EligibleAttester` flag and each category X of
Source, Target, Head, in every result returned by `AttestationRewardsAndPenalties`: if the
status has both `PrevXAttester` and `UnslashedAttester` then `X.Rewards[i]` is `baseReward`
during an inactivity leak and
`baseReward * (prevEpochXStake / EFFECTIVE_BALANCE_INCREMENT) / (totalActiveStake / EFFECTIVE_BALANCE_INCREMENT)`
otherwise, and `X.Penalties[i]` is 0; else `X.Penalties[i]` is `baseReward` and `X.Rewards[i]`
is 0; where `baseReward = effectiveBalance * BASE_REWARD_FACTOR /
integerSquareRoot(totalActiveStake) / BASE_REWARDS_PER_EPOCH` with floor divisions, the two
products being `uint64` products. And the result is returned: with a context that is never
cancelled, when `totalActiveStake >= EFFECTIVE_BALANCE_INCREMENT > 0`, the constant
`BASE_REWARDS_PER_EPOCH` and the two quotients are not zero, and every status with
`PrevSourceAttester` and `UnslashedAttester` has an inclusion delay of at least one and a
proposer below the number of statuses. -/
theorem AttestationRewardsAndPenalties_votes (ctxDone : Nat → Bool) (common : Common)
    (spec : Spec) (epc : EpochsContext) (process : EpochProcess)
    (state : Beacon.BeaconStateView)
    (i : Nat) (status : AttesterStatus) (hstatus : process.Statuses[i]? = some status)
    (helig : status.Flags &&& common.EligibleAttester ≠ 0) :
    (∀ res, AttestationRewardsAndPenalties ctxDone common spec epc process state = .ok res →
      expectedVoteEntry res.Source i
        (HasMarkers status.Flags (common.PrevSourceAttester ||| common.UnslashedAttester))
        (decide (subU64 epc.PreviousEpoch.Epoch state.FinalizedCheckpoint.Epoch
          > spec.MIN_EPOCHS_TO_INACTIVITY_PENALTY))
        (u64 (status.Validator.EffectiveBalance * spec.BASE_REWARD_FACTOR)
          / IntegerSquareroot process.TotalActiveStake / common.BASE_REWARDS_PER_EPOCH)
        (process.PrevEpochUnslashedStake.SourceStake / spec.EFFECTIVE_BALANCE_INCREMENT)
        (process.TotalActiveStake / spec.EFFECTIVE_BALANCE_INCREMENT) ∧
      expectedVoteEntry res.Target i
        (HasMarkers status.Flags (common.PrevTargetAttester ||| common.UnslashedAttester))
        (decide (subU64 epc.PreviousEpoch.Epoch state.FinalizedCheckpoint.Epoch
          > spec.MIN_EPOCHS_TO_INACTIVITY_PENALTY))
        (u64 (status.Validator.EffectiveBalance * spec.BASE_REWARD_FACTOR)
          / IntegerSquareroot process.TotalActiveStake / common.BASE_REWARDS_PER_EPOCH)
        (process.PrevEpochUnslashedStake.TargetStake / spec.EFFECTIVE_BALANCE_INCREMENT)
        (process.TotalActiveStake / spec.EFFECTIVE_BALANCE_INCREMENT) ∧
      expectedVoteEntry res.Head i
        (HasMarkers status.Flags (common.PrevHeadAttester ||| common.UnslashedAttester))
        (decide (subU64 epc.PreviousEpoch.Epoch state.FinalizedCheckpoint.Epoch
          > spec.MIN_EPOCHS_TO_INACTIVITY_PENALTY))
        (u64 (status.Validator.EffectiveBalance * spec.BASE_REWARD_FACTOR)
          / IntegerSquareroot process.TotalActiveStake / common.BASE_REWARDS_PER_EPOCH)
        (process.PrevEpochUnslashedStake.HeadStake / spec.EFFECTIVE_BALANCE_INCREMENT)
        (process.TotalActiveStake / spec.EFFECTIVE_BALANCE_INCREMENT)) ∧
    ((∀ k, ctxDone k = false) →
      common.BASE_REWARDS_PER_EPOCH ≠ 0 →
      0 < spec.EFFECTIVE_BALANCE_INCREMENT →
      spec.EFFECTIVE_BALANCE_INCREMENT ≤ process.TotalActiveStake →
      spec.PROPOSER_REWARD_QUOTIENT ≠ 0 →
      spec.INACTIVITY_PENALTY_QUOTIENT ≠ 0 →
      (∀ s, s ∈ process.Statuses →
        HasMarkers s.Flags (common.PrevSourceAttester ||| common.UnslashedAttester) = true →
        1 ≤ s.InclusionDelay ∧ s.AttestedProposer < process.Statuses.length) →
      ∃ res, AttestationRewardsAndPenalties ctxDone common spec epc process state = .ok res ∧
        ledgerLengths res process.Statuses.length) := by
  refine ⟨?_, ?_⟩
  · intro res hret
    have hloop :=
      AttestationRewardsAndPenalties_ok ctxDone common spec epc process state res hret
    refine ⟨?_, ?_, ?_⟩
    · exact rewardsLoop_vote ctxDone common spec (localsOf spec epc process state)
        (fun r => r.Source) common.PrevSourceAttester _
        (loopBody_source common spec _) (fun _ => rfl) process.Statuses res hloop i status
        hstatus helig
    · exact rewardsLoop_vote ctxDone common spec (localsOf spec epc process state)
        (fun r => r.Target) common.PrevTargetAttester _
        (loopBody_target common spec _) (fun _ => rfl) process.Statuses res hloop i status
        hstatus helig
    · exact rewardsLoop_vote ctxDone common spec (localsOf spec epc process state)
        (fun r => r.Head) common.PrevHeadAttester _
        (loopBody_head common spec _) (fun _ => rfl) process.Statuses res hloop i status
        hstatus helig
  · intro hctx hper hinc hstake hquot hleak hall
    exact AttestationRewardsAndPenalties_returns ctxDone common spec epc process state hctx
      hper hinc hstake hquot hleak hall

theorem AttestationRewardsAndPenalties_votes_witness :
    ∃ res, AttestationRewardsAndPenalties (fun _ => false) rewardsCommon rewardsSpec
        (epochsAt 3) rewardsProcess rewardsState = .ok res ∧
      ledgerLengths res 4 ∧
      (res.Source.Rewards[1]? = some 1073315 ∧ res.Source.Penalties[1]? = some 0) ∧
      (res.Target.Rewards[1]? = some 715543 ∧ res.Target.Penalties[1]? = some 0) ∧
      (res.Head.Penalties[1]? = some 1431087 ∧ res.Head.Rewards[1]? = some 0) := by
  have hthm := AttestationRewardsAndPenalties_votes (fun _ => false) rewardsCommon rewardsSpec
    (epochsAt 3) rewardsProcess rewardsState 1 (statusOf 195 0) rfl (by decide)
  obtain ⟨res, hres, hlen⟩ := hthm.2 (fun _ => rfl) (by decide) (by decide) (by decide)
    (by decide) (by decide) (by decide)
  obtain ⟨hsource, htarget, hhead⟩ := hthm.1 res hres
  rw [show IntegerSquareroot rewardsProcess.TotalActiveStake = 357770
    from IntegerSquareroot_sample] at hsource htarget hhead
  exact ⟨res, hres, hlen, hsource, htarget, hhead⟩

/-- C17: `AttestationRewardsAndPenalties` treats the inactivity leak as active exactly when
`previousEpoch - finalizedEpoch > MIN_EPOCHS_TO_INACTIVITY_PENALTY`: in every returned result,
when the leak is not active every Inactivity penalty is 0; when it is active the Inactivity
penalty of each eligible validator is
`BASE_REWARDS_PER_EPOCH * baseReward - baseReward / PROPOSER_REWARD_QUOTIENT`, plus
`effectiveBalance * finalityDelay / INACTIVITY_PENALTY_QUOTIENT` if its status lacks
`PrevTargetAttester` or `UnslashedAttester`. The subtraction, the products and the sum are
those of `uint64`. And the result is returned: with a context that is never cancelled, when
`totalActiveStake >= EFFECTIVE_BALANCE_INCREMENT > 0`, the constant `BASE_REWARDS_PER_EPOCH`
and the two quotients are not zero, and every status with `PrevSourceAttester` and
`UnslashedAttester` has an inclusion delay of at least one and a proposer below the number of
statuses. -/
theorem AttestationRewardsAndPenalties_inactivity (ctxDone : Nat → Bool) (common : Common)
    (spec : Spec) (epc : EpochsContext) (process : EpochProcess)
    (state : Beacon.BeaconStateView) :
    (∀ res, AttestationRewardsAndPenalties ctxDone common spec epc process state = .ok res →
      (¬ subU64 epc.PreviousEpoch.Epoch state.FinalizedCheckpoint.Epoch
          > spec.MIN_EPOCHS_TO_INACTIVITY_PENALTY →
        res.Inactivity.Penalties = List.replicate process.Statuses.length 0) ∧
      (subU64 epc.PreviousEpoch.Epoch state.FinalizedCheckpoint.Epoch
          > spec.MIN_EPOCHS_TO_INACTIVITY_PENALTY →
        ∀ (i : Nat) (status : AttesterStatus), process.Statuses[i]? = some status →
          status.Flags &&& common.EligibleAttester ≠ 0 →
          res.Inactivity.Penalties[i]? = some
            (if HasMarkers status.Flags (common.PrevTargetAttester ||| common.UnslashedAttester)
                = true then
              subU64
                (u64 (common.BASE_REWARDS_PER_EPOCH *
                  (u64 (status.Validator.EffectiveBalance * spec.BASE_REWARD_FACTOR)
                    / IntegerSquareroot process.TotalActiveStake
                    / common.BASE_REWARDS_PER_EPOCH)))
                (u64 (status.Validator.EffectiveBalance * spec.BASE_REWARD_FACTOR)
                  / IntegerSquareroot process.TotalActiveStake / common.BASE_REWARDS_PER_EPOCH
                  / spec.PROPOSER_REWARD_QUOTIENT)
            else
              u64 (subU64
                (u64 (common.BASE_REWARDS_PER_EPOCH *
                  (u64 (status.Validator.EffectiveBalance * spec.BASE_REWARD_FACTOR)
                    / IntegerSquareroot process.TotalActiveStake
                    / common.BASE_REWARDS_PER_EPOCH)))
                (u64 (status.Validator.EffectiveBalance * spec.BASE_REWARD_FACTOR)
                  / IntegerSquareroot process.TotalActiveStake / common.BASE_REWARDS_PER_EPOCH
                  / spec.PROPOSER_REWARD_QUOTIENT) +
                u64 (status.Validator.EffectiveBalance *
                    subU64 epc.PreviousEpoch.Epoch state.FinalizedCheckpoint.Epoch)
                  / spec.INACTIVITY_PENALTY_QUOTIENT)))) ∧
    ((∀ k, ctxDone k = false) →
      common.BASE_REWARDS_PER_EPOCH ≠ 0 →
      0 < spec.EFFECTIVE_BALANCE_INCREMENT →
      spec.EFFECTIVE_BALANCE_INCREMENT ≤ process.TotalActiveStake →
      spec.PROPOSER_REWARD_QUOTIENT ≠ 0 →
      spec.INACTIVITY_PENALTY_QUOTIENT ≠ 0 →
      (∀ s, s ∈ process.Statuses →
        HasMarkers s.Flags (common.PrevSourceAttester ||| common.UnslashedAttester) = true →
        1 ≤ s.InclusionDelay ∧ s.AttestedProposer < process.Statuses.length) →
      ∃ res, AttestationRewardsAndPenalties ctxDone common spec epc process state = .ok res ∧
        ledgerLengths res process.Statuses.length) := by
  refine ⟨?_, ?_⟩
  · intro res hret
    have hloop :=
      AttestationRewardsAndPenalties_ok ctxDone common spec epc process state res hret
    refine ⟨?_, ?_⟩
    · intro hno
      have hl : (localsOf spec epc process state).isInactivityLeak = false := by
        simp only [localsOf, decide_eq_false_iff_not]
        exact hno
      have hfrozen := rewardsLoop_frozen ctxDone common spec (localsOf spec epc process state)
        (fun r => r.Inactivity.Penalties) (fun _ => True)
        (fun i status r r1 _ hb => by
          show r1.Inactivity.Penalties = r.Inactivity.Penalties
          have hd := (loopBody_ok common spec _ i status r r1 hb).2
          split at hd
          · have hi := hd.2.2.2
            rw [hl] at hi
            simp only [Bool.false_eq_true, if_false] at hi
            rw [hi]
          · rw [hd.2.2.2])
        process.Statuses 0 _ res (fun _ _ => trivial) hloop
      exact hfrozen
    · intro hyes i status hstatus helig
      have hl : (localsOf spec epc process state).isInactivityLeak = true := by
        simp only [localsOf, decide_eq_true_eq]
        exact hyes
      have hP := rewardsLoop_result_entry ctxDone common spec (localsOf spec epc process state)
        (fun r => r.Inactivity.Penalties)
        (inactivityEntry common spec (localsOf spec epc process state)) (fun _ => True) i
        (fun j st r r1 _ hb =>
          ⟨(inactivity_body common spec _ i j st r r1 hb).2.1,
            (inactivity_body common spec _ i j st r r1 hb).2.2⟩)
        process.Statuses res rfl (fun _ _ => trivial) hloop status hstatus
      unfold inactivityEntry at hP
      simp only [helig, hl, ne_eq, not_false_eq_true, and_self, if_true] at hP
      rw [u64_zero_add _ (subU64_lt _ _)] at hP
      exact hP
  · intro hctx hper hinc hstake hquot hleak hall
    exact AttestationRewardsAndPenalties_returns ctxDone common spec epc process state hctx
      hper hinc hstake hquot hleak hall

theorem AttestationRewardsAndPenalties_inactivity_witness :
    (∃ res, AttestationRewardsAndPenalties (fun _ => false) rewardsCommon rewardsSpec
        (epochsAt 9) rewardsProcess rewardsState = .ok res ∧
      res.Inactivity.Penalties[0]? = some 5545463 ∧
      res.Inactivity.Penalties[2]? = some 5554046) ∧
    (∃ res, AttestationRewardsAndPenalties (fun _ => false) rewardsCommon rewardsSpec
        (epochsAt 3) rewardsProcess rewardsState = .ok res ∧
      res.Inactivity.Penalties = [0, 0, 0, 0]) := by
  have hleak := AttestationRewardsAndPenalties_inactivity (fun _ => false) rewardsCommon
    rewardsSpec (epochsAt 9) rewardsProcess rewardsState
  have hnormal := AttestationRewardsAndPenalties_inactivity (fun _ => false) rewardsCommon
    rewardsSpec (epochsAt 3) rewardsProcess rewardsState
  obtain ⟨res9, hres9, _⟩ := hleak.2 (fun _ => rfl) (by decide) (by decide) (by decide)
    (by decide) (by decide) (by decide)
  obtain ⟨res3, hres3, _⟩ := hnormal.2 (fun _ => rfl) (by decide) (by decide) (by decide)
    (by decide) (by decide) (by decide)
  have h0 := (hleak.1 res9 hres9).2 (by decide) 0 (statusOf 199 1) rfl (by decide)
  have h2 := (hleak.1 res9 hres9).2 (by decide) 2 (statusOf 128 0) rfl (by decide)
  rw [show IntegerSquareroot rewardsProcess.TotalActiveStake = 357770
    from IntegerSquareroot_sample] at h0 h2
  exact ⟨⟨res9, hres9, h0, h2⟩, res3, hres3, (hnormal.1 res3 hres3).1 (by decide)⟩

/-- C19: during an inactivity leak a validator performing optimally ends neutral. In every
result returned with `BASE_REWARDS_PER_EPOCH = 4` during a leak, for an eligible, unslashed
validator that attested source, target and head with inclusion delay 1, the Source, Target and
Head rewards are the base reward each, the attester share of the inclusion-delay bonus is the
base reward less the proposer share, and the Inactivity penalty is the sum of these four; the
InclusionDelay entry of the validator is the attester share when no status names the validator
as the proposer that included it, proposer rewards not being counted. And the result is
returned: with a context that is never cancelled, when
`totalActiveStake >= EFFECTIVE_BALANCE_INCREMENT > 0`, the two quotients are not zero, and
every status with `PrevSourceAttester` and `UnslashedAttester` has an inclusion delay of at
least one and a proposer below the number of statuses. -/
theorem AttestationRewardsAndPenalties_optimal_neutral (ctxDone : Nat → Bool)
    (common : Common) (spec : Spec) (epc : EpochsContext) (process : EpochProcess)
    (state : Beacon.BeaconStateView)
    (hfour : common.BASE_REWARDS_PER_EPOCH = 4)
    (hleak : subU64 epc.PreviousEpoch.Epoch state.FinalizedCheckpoint.Epoch
      > spec.MIN_EPOCHS_TO_INACTIVITY_PENALTY)
    (i : Nat) (status : AttesterStatus) (hstatus : process.Statuses[i]? = some status)
    (helig : status.Flags &&& common.EligibleAttester ≠ 0)
    (hsource : HasMarkers status.Flags
      (common.PrevSourceAttester ||| common.UnslashedAttester) = true)
    (htarget : HasMarkers status.Flags
      (common.PrevTargetAttester ||| common.UnslashedAttester) = true)
    (hhead : HasMarkers status.Flags
      (common.PrevHeadAttester ||| common.UnslashedAttester) = true)
    (hdelay : status.InclusionDelay = 1) :
    (∀ res, AttestationRewardsAndPenalties ctxDone common spec epc process state = .ok res →
      ∃ baseReward attesterShare,
        baseReward = u64 (status.Validator.EffectiveBalance * spec.BASE_REWARD_FACTOR)
          / IntegerSquareroot process.TotalActiveStake / common.BASE_REWARDS_PER_EPOCH ∧
        attesterShare = (baseReward - baseReward / spec.PROPOSER_REWARD_QUOTIENT)
          / status.InclusionDelay ∧
        res.Source.Rewards[i]? = some baseReward ∧
        res.Target.Rewards[i]? = some baseReward ∧
        res.Head.Rewards[i]? = some baseReward ∧
        res.Inactivity.Penalties[i]?
          = some (baseReward + baseReward + baseReward + attesterShare) ∧
        ((∀ s ∈ process.Statuses,
            HasMarkers s.Flags (common.PrevSourceAttester ||| common.UnslashedAttester)
              = true →
            s.AttestedProposer ≠ i) →
          res.InclusionDelay.Rewards[i]? = some attesterShare)) ∧
    ((∀ k, ctxDone k = false) →
      0 < spec.EFFECTIVE_BALANCE_INCREMENT →
      spec.EFFECTIVE_BALANCE_INCREMENT ≤ process.TotalActiveStake →
      spec.PROPOSER_REWARD_QUOTIENT ≠ 0 →
      spec.INACTIVITY_PENALTY_QUOTIENT ≠ 0 →
      (∀ s, s ∈ process.Statuses →
        HasMarkers s.Flags (common.PrevSourceAttester ||| common.UnslashedAttester) = true →
        1 ≤ s.InclusionDelay ∧ s.AttestedProposer < process.Statuses.length) →
      ∃ res, AttestationRewardsAndPenalties ctxDone common spec epc process state = .ok res ∧
        ledgerLengths res process.Statuses.length) := by
  refine ⟨?_, ?_⟩
  · intro res hret
    have hloop :=
      AttestationRewardsAndPenalties_ok ctxDone common spec epc process state res hret
    have hl : (localsOf spec epc process state).isInactivityLeak = true := by
      simp only [localsOf, decide_eq_true_eq]
      exact hleak
    have hbr := baseRewardOf_lt common spec (localsOf spec epc process state) status
    have hq : baseRewardOf common spec (localsOf spec epc process state) status
        / spec.PROPOSER_REWARD_QUOTIENT
        ≤ baseRewardOf common spec (localsOf spec epc process state) status :=
      Nat.div_le_self _ _
    refine ⟨baseRewardOf common spec (localsOf spec epc process state) status, _, rfl, rfl,
      ?_, ?_, ?_, ?_, ?_⟩
    · exact vote_reward_leak ctxDone common spec _ (fun r => r.Source)
        common.PrevSourceAttester _ (loopBody_source common spec _) (fun _ => rfl)
        process.Statuses res hloop i status hstatus helig hl hsource
    · exact vote_reward_leak ctxDone common spec _ (fun r => r.Target)
        common.PrevTargetAttester _ (loopBody_target common spec _) (fun _ => rfl)
        process.Statuses res hloop i status hstatus helig hl htarget
    · exact vote_reward_leak ctxDone common spec _ (fun r => r.Head)
        common.PrevHeadAttester _ (loopBody_head common spec _) (fun _ => rfl)
        process.Statuses res hloop i status hstatus helig hl hhead
    · have hP := rewardsLoop_result_entry ctxDone common spec
        (localsOf spec epc process state) (fun r => r.Inactivity.Penalties)
        (inactivityEntry common spec (localsOf spec epc process state)) (fun _ => True) i
        (fun j st r r1 _ hb =>
          ⟨(inactivity_body common spec _ i j st r r1 hb).2.1,
            (inactivity_body common spec _ i j st r r1 hb).2.2⟩)
        process.Statuses res rfl (fun _ _ => trivial) hloop status hstatus
      unfold inactivityEntry at hP
      simp only [helig, hl, htarget, ne_eq, not_false_eq_true, and_self, if_true] at hP
      rw [u64_zero_add _ (subU64_lt _ _)] at hP
      rw [hP, hdelay, Nat.div_one]
      unfold baseRewardOf
      rw [hfour]
      rw [four_baseReward _ _ _ (u64_lt _)]
    · intro hnoprop
      have hR := rewardsLoop_result_entry ctxDone common spec
        (localsOf spec epc process state) (fun r => r.InclusionDelay.Rewards)
        (inclusionEntry common spec (localsOf spec epc process state))
        (fun s => HasMarkers s.Flags (common.PrevSourceAttester ||| common.UnslashedAttester)
          = true → s.AttestedProposer ≠ i) i
        (fun j st r r1 hp hb =>
          ⟨(inclusion_body common spec _ i j st r r1 hp hb).2.1,
            (inclusion_body common spec _ i j st r r1 hp hb).2.2⟩)
        process.Statuses res rfl hnoprop hloop status hstatus
      unfold inclusionEntry at hR
      simp only [hsource, if_true] at hR
      rw [hR, hdelay, Nat.div_one, Nat.div_one, Beacon.subU64_eq_sub _ _ hq hbr,
        u64_zero_add _ (lt_of_le_of_lt (Nat.sub_le _ _) hbr)]
  · intro hctx hinc hstake hquot hipq hall
    exact AttestationRewardsAndPenalties_returns ctxDone common spec epc process state hctx
      (by rw [hfour]; decide) hinc hstake hquot hipq hall

theorem AttestationRewardsAndPenalties_optimal_neutral_witness :
    ∃ res, AttestationRewardsAndPenalties (fun _ => false) rewardsCommon rewardsSpec
        (epochsAt 9) neutralProcess rewardsState = .ok res ∧
      res.Source.Rewards[0]? = some 1431087 ∧
      res.Target.Rewards[0]? = some 1431087 ∧
      res.Head.Rewards[0]? = some 1431087 ∧
      res.InclusionDelay.Rewards[0]? = some 1252202 ∧
      res.Inactivity.Penalties[0]? = some (1431087 + 1431087 + 1431087 + 1252202) ∧
      res.Inactivity.Penalties[0]? = some 5545463 := by
  have hthm := AttestationRewardsAndPenalties_optimal_neutral (fun _ => false) rewardsCommon
    rewardsSpec (epochsAt 9) neutralProcess rewardsState rfl (by decide) 0 (statusOf 199 1)
    rfl (by decide) (by decide) (by decide) (by decide) rfl
  obtain ⟨res, hres, _⟩ := hthm.2 (fun _ => rfl) (by decide) (by decide) (by decide)
    (by decide) (by decide)
  obtain ⟨baseReward, attesterShare, hbase, hshare, hs, ht, hh, hi, hincl⟩ :=
    hthm.1 res hres
  rw [show IntegerSquareroot neutralProcess.TotalActiveStake = 357770
    from IntegerSquareroot_sample] at hbase
  have hbase1 : baseReward = 1431087 := hbase
  subst hbase1
  have hshare1 : attesterShare = 1252202 := hshare
  subst hshare1
  exact ⟨res, hres, hs, ht, hh, hincl (by decide), hi, hi⟩

end Phase0
